import Mathlib

/-!
Verification of the crawl-ingestion pipeline of the instalily-case backend.

The Lean definitions below are a shallow embedding of the Python sources:
  - `ingestion/parser.py`  (URL canonicalization, page parsing)
  - `ingestion/store.py`   (frontier store and entity store, SQL upserts)
  - `ingestion/service.py` (enqueue scope filter, fetch strategy selection)
SQL tables are modelled as lists of row structures; `on conflict do update`
upserts become update-in-place-or-append operations keyed by the natural key
of the table; `now()` timestamps are passed in explicitly as `Nat` values.
-/

set_option maxRecDepth 100000

namespace Ingest

/-! ## Frontier store (`ingestion/store.py`, `crawl_frontier` table) -/

/-- Status values of a `crawl_frontier` row. -/
inductive FStatus where
  | queued
  | processing
  | done
  | failed
deriving DecidableEq, Repr

/-- A row of the `crawl_frontier` table. -/
structure FrontierEntry where
  url_canonical : String
  status : FStatus
  attempts : Nat
  source_url : String
  discovered_at : Nat
  updated_at : Nat
  last_run_id : String
  last_error : Option String
deriving DecidableEq, Repr

instance : Inhabited FrontierEntry :=
  ⟨⟨"", FStatus.queued, 0, "", 0, 0, "", none⟩⟩

/-- Fresh frontier row inserted by `Store.upsert_frontier_queued`
(the `values (%s, 'queued', 0, %s, now(), now(), %s, null)` insert). -/
def newFrontierEntry (url run_id source_url : String) (now : Nat) : FrontierEntry :=
  ⟨url, FStatus.queued, 0, source_url, now, now, run_id, none⟩

/-- The `on conflict do update` branch of the forced upsert in
`Store.upsert_frontier_queued` (`force_requeue=True`): sets
`status='queued'`, `source_url`, `updated_at`, `last_run_id`, `last_error=null`.
The `attempts` column is not in the update list, so it is left unchanged. -/
def forceRequeueUpdate (run_id source_url : String) (now : Nat)
    (e : FrontierEntry) : FrontierEntry :=
  { e with status := FStatus.queued, source_url := source_url,
           updated_at := now, last_run_id := run_id, last_error := none }

/-- The `on conflict do update` branch of the non-forced upsert in
`Store.upsert_frontier_queued`: keeps the status when it is `done` or
`processing` and otherwise sets it to `queued`; keeps `last_error` only when
the status is `done`, otherwise clears it. -/
def defaultRequeueUpdate (run_id source_url : String) (now : Nat)
    (e : FrontierEntry) : FrontierEntry :=
  { e with
    status := if e.status = FStatus.done ∨ e.status = FStatus.processing
              then e.status else FStatus.queued,
    source_url := source_url,
    updated_at := now,
    last_run_id := run_id,
    last_error := if e.status = FStatus.done then e.last_error else none }

/-- Embedding of `Store.upsert_frontier_queued`: insert a fresh queued row,
or on conflict on `url_canonical` apply the forced / non-forced update. -/
def upsertFrontierQueued (f : List FrontierEntry) (url run_id source_url : String)
    (force_requeue : Bool) (now : Nat) : List FrontierEntry :=
  if f.any (fun e => e.url_canonical = url) then
    f.map (fun e =>
      if e.url_canonical = url then
        if force_requeue then forceRequeueUpdate run_id source_url now e
        else defaultRequeueUpdate run_id source_url now e
      else e)
  else
    f ++ [newFrontierEntry url run_id source_url now]

/-- Embedding of `Store.reconcile_frontier_for_resume`: every row whose status
is `processing` or `failed` becomes `queued` with `last_error` cleared; the
returned count is the SQL rowcount, the number of rows updated. -/
def reconcileFrontierForResume (f : List FrontierEntry) (now : Nat) :
    List FrontierEntry × Nat :=
  (f.map (fun e =>
      if e.status = FStatus.processing ∨ e.status = FStatus.failed then
        { e with status := FStatus.queued, updated_at := now, last_error := none }
      else e),
   (f.filter (fun e =>
      e.status = FStatus.processing ∨ e.status = FStatus.failed)).length)

/-- The update applied to the row claimed by `Store.claim_next_frontier_url`:
`status='processing', attempts=attempts + 1, updated_at=now(), last_run_id=%s`. -/
def claimUpdate (run_id : String) (now : Nat) (e : FrontierEntry) : FrontierEntry :=
  { e with status := FStatus.processing, attempts := e.attempts + 1,
           updated_at := now, last_run_id := run_id }

/-- Indices of the `queued` rows of the frontier (the candidate set of the
`select ... where status='queued'` in `Store.claim_next_frontier_url`). -/
def queuedIdxs (f : List FrontierEntry) : List Nat :=
  (List.range f.length).filter (fun i => (f.getD i default).status = FStatus.queued)

/-- Selection of one index minimizing a measure, keeping the earliest index on
ties: the `order by updated_at asc limit 1` of `Store.claim_next_frontier_url`. -/
def pickMinBy (measure : Nat → Nat) (l : List Nat) : Option Nat :=
  l.foldl (fun acc i =>
    match acc with
    | none => some i
    | some j => if measure i < measure j then some i else some j) none

/-- Embedding of `Store.claim_next_frontier_url` run as one atomic transaction:
select the oldest-updated `queued` row, flip it to `processing` incrementing
`attempts`, and return its URL; `none` when no queued row exists. -/
def claimNextFrontierUrl (f : List FrontierEntry) (run_id : String) (now : Nat) :
    Option String × List FrontierEntry :=
  match pickMinBy (fun i => (f.getD i default).updated_at) (queuedIdxs f) with
  | none => (none, f)
  | some i =>
      let e := f.getD i default
      (some e.url_canonical, f.set i (claimUpdate run_id now e))

/-- Embedding of `Store.mark_frontier_processing`: update rows matching the URL
whose status is not `done`. -/
def markFrontierProcessing (f : List FrontierEntry) (url run_id : String)
    (now : Nat) : List FrontierEntry :=
  f.map (fun e =>
    if e.url_canonical = url ∧ e.status ≠ FStatus.done then
      { e with status := FStatus.processing, attempts := e.attempts + 1,
               updated_at := now, last_run_id := run_id }
    else e)

/-- Embedding of `Store.mark_frontier_done`: update rows matching the URL. -/
def markFrontierDone (f : List FrontierEntry) (url run_id : String)
    (now : Nat) : List FrontierEntry :=
  f.map (fun e =>
    if e.url_canonical = url then
      { e with status := FStatus.done, updated_at := now, last_run_id := run_id,
               last_error := none }
    else e)

/-- Embedding of `Store.mark_frontier_failed`: update rows matching the URL
whose status is not `done`; the error message is truncated to 1000 characters. -/
def markFrontierFailed (f : List FrontierEntry) (url run_id error : String)
    (now : Nat) : List FrontierEntry :=
  f.map (fun e =>
    if e.url_canonical = url ∧ e.status ≠ FStatus.done then
      { e with status := FStatus.failed, updated_at := now, last_run_id := run_id,
               last_error := some (error.take 1000) }
    else e)

/-- First frontier row with the given canonical URL (the row a SQL statement
keyed on the unique column `url_canonical` addresses). -/
def findEntry (f : List FrontierEntry) (url : String) : Option FrontierEntry :=
  f.find? (fun e => e.url_canonical = url)

/-! ## URL canonicalization (`ingestion/parser.py`, `canonicalize_url`)

`canonicalize_url` strips the raw string, splits it with
`urllib.parse.urlparse`, forces the `https` scheme, lower-cases the host,
maps the apex host `partselect.com` to `www.partselect.com`, collapses runs
of slashes in the path and strips a trailing slash except at the root; the
query and fragment components are never used.  The component splitting of
`urlparse` is embedded below: optional `scheme:` prefix (a leading ASCII
letter followed by letters, digits, `+`, `-`, `.`), then `//netloc` up to
the first `/`, `?` or `#`, then the fragment after the first `#`, then the
query after the first `?`.  ASCII-only case mapping is used, matching
Python on ASCII hosts. -/

/-- Python `str.strip()` whitespace set (ASCII part). -/
def pySpace (c : Char) : Bool :=
  c = ' ' || c = '\t' || c = '\n' || c = '\r' || c = '\x0b' || c = '\x0c'

/-- Python `str.strip()`: drop leading and trailing whitespace. -/
def pyStrip (s : String) : String :=
  String.mk (((s.data.dropWhile pySpace).reverse.dropWhile pySpace).reverse)

/-- Split a character list at the first occurrence of `c`, returning the
parts before and after it (the delimiter removed), or `none` when absent. -/
def splitAtFirst (c : Char) : List Char → Option (List Char × List Char)
  | [] => none
  | a :: t =>
      if a = c then some ([], t)
      else (splitAtFirst c t).map (fun p => (a :: p.1, p.2))

/-- Characters allowed inside a URL scheme (`scheme_chars` of `urllib`). -/
def schemeChar (c : Char) : Bool :=
  c.isAlphanum || c = '+' || c = '-' || c = '.'

/-- Remove a valid `scheme:` prefix, returning the remainder; the scheme
itself is discarded because `canonicalize_url` always emits `https`. -/
def splitScheme (l : List Char) : List Char :=
  match splitAtFirst ':' l with
  | none => l
  | some (before, after) =>
      match before with
      | [] => l
      | b :: _ => if b.isAlpha ∧ before.all schemeChar then after else l

/-- Characters ending the netloc component of a URL. -/
def netlocStop (c : Char) : Bool :=
  c = '/' || c = '?' || c = '#'

/-- Netloc splitting: when the remainder starts with two slashes, the netloc
runs up to the first `/`, `?` or `#` after them; otherwise there is no
netloc (the `url[:2] == '//'` test of `urlsplit`). -/
def netlocSplit (l : List Char) : List Char × List Char :=
  if l.take 2 = ['/', '/'] then
    ((l.drop 2).takeWhile (fun c => !netlocStop c),
     (l.drop 2).dropWhile (fun c => !netlocStop c))
  else ([], l)

/-- Truncate a character list at the first occurrence of `c` (used for the
fragment and query cuts of `urlsplit`; the tail is discarded because
`canonicalize_url` never reads the query or fragment). -/
def cutAt (c : Char) (l : List Char) : List Char :=
  match splitAtFirst c l with
  | none => l
  | some p => p.1

/-- Netloc and path of a URL, per `urllib.parse.urlsplit`, on the splitting
path where `urlsplit` returns: an optional scheme is removed, a
`//`-prefixed netloc is split off, then the fragment is cut at the first
`#` and the query at the first `?`.  `urlsplit`'s two side conditions are
modelled separately: its deletion of embedded tab/CR/LF characters before
parsing by `pyRemoveTabCrLf`, and its `Invalid IPv6 URL` `ValueError` by
`invalidIPv6`; `canonicalizeUrlE` combines all three. -/
def urlsplitNetlocPath (l : List Char) : List Char × List Char :=
  ((netlocSplit (splitScheme l)).1,
   cutAt '?' (cutAt '#' (netlocSplit (splitScheme l)).2))

/-- Collapse every run of two or more slashes into a single slash
(the `re.sub` of pattern slash-run in `canonicalize_url`); the flag records
whether the previous emitted character was a slash. -/
def collapseAux : Bool → List Char → List Char
  | _, [] => []
  | prevSlash, c :: rest =>
      if c = '/' then
        if prevSlash then collapseAux true rest
        else '/' :: collapseAux true rest
      else c :: collapseAux false rest

/-- Strip one trailing slash unless the path is exactly the root slash. -/
def stripTrailingSlash (p : List Char) : List Char :=
  if p ≠ ['/'] ∧ p.getLast? = some '/' then p.dropLast else p

/-- Canonical host: lower-cased netloc with the apex alias mapped to the
canonical `www` host. -/
def canonHost (raw : List Char) : List Char :=
  let host0 := (urlsplitNetlocPath raw).1.map Char.toLower
  if host0 = ("partselect.com").data then ("www.partselect.com").data else host0

/-- Canonical path: empty path becomes the root, slash runs are collapsed,
a trailing slash is stripped except at the root. -/
def canonPath (raw : List Char) : List Char :=
  stripTrailingSlash (collapseAux false
    (if (urlsplitNetlocPath raw).2 = [] then ['/']
     else (urlsplitNetlocPath raw).2))

/-- The value `canonicalize_url` computes when `urlparse` returns (its
uncaught `ValueError` and the tab/CR/LF deletion are added on top by
`canonicalizeUrlE`; on inputs free of tab/CR/LF whose network location
parses, this is the whole function). -/
def canonicalizeUrl (url : String) : String :=
  if pyStrip url = "" then ""
  else String.mk (("https://").data ++ canonHost (pyStrip url).data ++
         canonPath (pyStrip url).data)

/-- Embedding of `normalize_url`, an alias of `canonicalize_url`. -/
def normalizeUrl (url : String) : String :=
  canonicalizeUrl url

/-- The characters `urlsplit` deletes from the URL before parsing
(`_UNSAFE_URL_BYTES_TO_REMOVE`: tab, carriage return, line feed). -/
def tabCrLfChar (c : Char) : Bool :=
  c = '\t' || c = '\r' || c = '\n'

/-- The deletion of tab, carriage return and line feed characters that
`urlsplit` performs on its input before splitting it. -/
def pyRemoveTabCrLf (s : String) : String :=
  String.mk (s.data.filter (fun c => !tabCrLfChar c))

/-- The network-location component `urlsplit` inspects (same computation as
`urlsplitNetlocPath`). -/
def urlNetloc (l : List Char) : List Char :=
  (netlocSplit (splitScheme l)).1

/-- The `Invalid IPv6 URL` check of `urlsplit`: a network location holding
`[` without `]`, or `]` without `[`, raises `ValueError`.  (CPython 3.11
additionally validates a bracketed host as an IP address; every such input
holds both brackets, and no theorem below involves a bracketed host.) -/
def invalidIPv6 (l : List Char) : Bool :=
  if ('[' ∈ urlNetloc l ∧ ']' ∉ urlNetloc l) ∨
     (']' ∈ urlNetloc l ∧ '[' ∉ urlNetloc l) then true else false

/-- Embedding of `canonicalize_url` with `urlparse`'s behaviour on its
input made explicit: the stripped-blank input returns `""`; then `urlsplit`
deletes embedded tab/CR/LF and raises `ValueError` (modelled as `none`) on
a bracket-mismatched network location, an exception `canonicalize_url` does
not catch; otherwise the canonical URL is built from the cleaned input. -/
def canonicalizeUrlE (url : String) : Option String :=
  if pyStrip url = "" then some ""
  else if invalidIPv6 (pyRemoveTabCrLf (pyStrip url)).data then none
  else some (String.mk (("https://").data ++
    canonHost (pyRemoveTabCrLf (pyStrip url)).data ++
    canonPath (pyRemoveTabCrLf (pyStrip url)).data))

/-- First index of a substring (Python `str.find`), `none` when absent. -/
def findSubIdx (needle : List Char) : List Char → Option Nat
  | [] => if needle = [] then some 0 else none
  | c :: t =>
      if needle.isPrefixOf (c :: t) then some 0
      else (findSubIdx needle t).map (fun i => i + 1)

/-- Python `needle in hay` substring containment. -/
def containsSub (hay needle : String) : Bool :=
  (findSubIdx needle.data hay.data).isSome

/-- Python `str.replace` for a nonempty needle (left-to-right,
non-overlapping); empty needles return the input unchanged. -/
def replaceSubAux (needle repl : List Char) : Nat → List Char → List Char
  | 0, l => l
  | _ + 1, [] => []
  | n + 1, l@(c :: t) =>
      if needle ≠ [] ∧ needle.isPrefixOf l then
        repl ++ replaceSubAux needle repl n (l.drop needle.length)
      else c :: replaceSubAux needle repl n t

def replaceSub (needle repl l : List Char) : List Char :=
  replaceSubAux needle repl l.length l

/-- The allow-list of `is_core_url` (`ingestion/parser.py`). -/
def coreAllowed : List String :=
  ["/Models/", "/PS", "/Dishwasher-Parts", "/Refrigerator-Parts",
   "/Washer-Parts", "/Dryer-Parts", "/Range-Parts", "/Microwave-Parts",
   "/Oven-Parts", "/Freezer-Parts", "/Ice-Machine-Parts",
   "/Trash-Compactor-Parts", "/Cooktop-Parts", "/Appliance-Parts",
   "/Repair/", "/Brands", "-Dishwasher-Parts", "-Refrigerator-Parts",
   "-Washer-Parts", "-Dryer-Parts", "-Range-Parts", "-Microwave-Parts",
   "-Oven-Parts", "-Freezer-Parts", "-Ice-Machine-Parts",
   "-Trash-Compactor-Parts", "-Cooktop-Parts"]

/-- Embedding of `is_core_url`: in-scope check used before enqueueing. -/
def isCoreUrl (url : String) : Bool :=
  if !(("https://www.partselect.com/").data.isPrefixOf url.data) then false
  else
    let path := replaceSub ("https://www.partselect.com").data [] url.data
    coreAllowed.any (fun a =>
      a.data.isPrefixOf path || (findSubIdx a.data path).isSome)

/-- The part of the `IngestionService` state touched by `enqueue`: the
frontier table and the `stats.queued` counter. -/
structure ServiceState where
  frontier : List FrontierEntry
  queuedCount : Nat
deriving DecidableEq, Repr

/-- Embedding of `IngestionService.enqueue`: canonicalize, drop empty or
out-of-scope URLs, otherwise upsert into the frontier and count. -/
def enqueue (st : ServiceState) (run_id url : String) (force_requeue : Bool)
    (now : Nat) : ServiceState :=
  let canonical := canonicalizeUrl url
  if canonical = "" then st
  else if !(isCoreUrl canonical) then st
  else
    { frontier := upsertFrontierQueued st.frontier canonical run_id url
        force_requeue now,
      queuedCount := st.queuedCount + 1 }

/-! ## Page parsing (`ingestion/parser.py`)

The parse results are the dataclasses `ParsedPart`, `ParsedModel` and
`ParsedPage`; `parse_model_page` extracts the model number from the URL
(`MODEL_RE`), brand and appliance type from the title, the part links of the
model section (`PART_LINK_RE` over `_extract_model_section`), symptom names,
media links (`LINK_RE`) and loose `Q:`/`A:` pairs.  The regular expressions
are embedded as explicit scanners over character lists; each scanner takes a
fuel argument that starts at the input length, which is sufficient because
every step consumes at least one character.  Prices are represented as
rationals. -/

/-- The `ParsedPart` dataclass. -/
structure ParsedPart where
  partselect_number : String
  part_url : String
  name : Option String := none
  manufacturer_part_number : Option String := none
  price_value : Option Rat := none
deriving DecidableEq, Repr

/-- The `ParsedModel` dataclass; `media` entries are
(media type, title, url) and `qa` entries are (question, answer). -/
structure ParsedModel where
  model_number : String
  brand : Option String := none
  appliance_type : String := "unknown"
  parts : List ParsedPart := []
  symptoms : List String := []
  media : List (String × String × String) := []
  qa : List (String × String) := []
deriving DecidableEq, Repr

/-- The `ParsedPage` dataclass. -/
structure ParsedPage where
  page_kind : String
  model : Option ParsedModel := none
  part : Option ParsedPart := none
  discovered_urls : List String := []
deriving DecidableEq, Repr

/-- Characters of the `MODEL_RE` capture class `[A-Za-z0-9-]`. -/
def modelToken (c : Char) : Bool :=
  c.isAlphanum || c = '-'

/-- Search for the `MODEL_RE` pattern: the first position with the literal
`/Models/` followed by at least one capture-class character yields the
maximal run of capture-class characters. -/
def findModelNumber : List Char → Option (List Char)
  | [] => none
  | l@(_ :: t) =>
      if ("/Models/").data.isPrefixOf l then
        let tok := (l.drop ("/Models/").data.length).takeWhile modelToken
        if tok ≠ [] then some tok else findModelNumber t
      else findModelNumber t

/-- Python `str.split()` on whitespace, dropping empty pieces. -/
def pyWordsAux : List Char → List Char → List (List Char)
  | [], acc => if acc.isEmpty then [] else [acc.reverse]
  | c :: t, acc =>
      if pySpace c then
        if acc.isEmpty then pyWordsAux t []
        else acc.reverse :: pyWordsAux t []
      else pyWordsAux t (c :: acc)

def pySplitWs (s : String) : List String :=
  (pyWordsAux s.data []).map String.mk

/-- Embedding of `_extract_brand_and_type`: appliance type from keywords of
the lower-cased title, brand from the first whitespace token. -/
def extractBrandAndType (title : String) : Option String × String :=
  let lower := String.mk (title.data.map Char.toLower)
  let appliance :=
    if containsSub lower "dishwasher" then "dishwasher"
    else if containsSub lower "refrigerator" || containsSub lower "fridge"
      then "refrigerator"
    else "unknown"
  ((pySplitWs title).head?, appliance)

/-- Python `str.find(sub, start)`. -/
def pyFind (hay needle : List Char) (start : Nat) : Option Nat :=
  (findSubIdx needle (hay.drop start)).map (fun i => i + start)

/-- Embedding of `_extract_model_section`: slice from the
`Parts for the <model>` anchor to the nearest following section marker, or
at most 20000 characters when no marker follows. -/
def extractModelSection (md : List Char) (model_number : List Char) :
    List Char :=
  match findSubIdx (("Parts for the ").data ++ model_number) md with
  | none => md
  | some start =>
      let ends := [pyFind md ("Questions And Answers").data start,
                   pyFind md ("Common Symptoms").data start,
                   pyFind md ("Videos related").data start,
                   pyFind md ("Installation Instructions").data start].filterMap id
      let e := match ends with
        | [] => Nat.min md.length (start + 20000)
        | e0 :: rest => rest.foldl Nat.min e0
      (md.drop start).take (e - start)

/-- Characters ending the slug class `[^)\s"]` of `PART_LINK_RE`. -/
def partLinkStop (c : Char) : Bool :=
  c = ')' || c = '"' || pySpace c

/-- Does a maximal slug run match `PS\d+[^)\s"]+`?  Because digits belong to
the trailing class, the pattern accepts exactly the runs that start with
`PS`, a digit, and at least one further character. -/
def psSlugOk (run : List Char) : Bool :=
  match run with
  | 'P' :: 'S' :: d :: rest => d.isDigit && !rest.isEmpty
  | _ => false

/-- Scanner for `PART_LINK_RE.findall`: at each position, match the literal
open-parenthesis prefix of a part URL, take the maximal slug run, and on
success continue after the match; on failure advance one character.
Returns (full URL group, slug group) pairs. -/
def scanPartLinksAux : Nat → List Char → List (List Char × List Char)
  | 0, _ => []
  | _ + 1, [] => []
  | n + 1, l@(_ :: t) =>
      if ("(https://www.partselect.com/").data.isPrefixOf l then
        let afterPrefix := l.drop ("(https://www.partselect.com/").data.length
        let run := afterPrefix.takeWhile (fun c => !partLinkStop c)
        if psSlugOk run then
          (("https://www.partselect.com/").data ++ run, run) ::
            scanPartLinksAux n (afterPrefix.drop run.length)
        else scanPartLinksAux n t
      else scanPartLinksAux n t

/-- `PART_LINK_RE.findall` over a section. -/
def scanPartLinks (l : List Char) : List (List Char × List Char) :=
  scanPartLinksAux l.length l

/-- Python `str.split(sep)` for a single-character separator, keeping empty
pieces. -/
def splitOnChar (c : Char) : List Char → List (List Char)
  | [] => [[]]
  | a :: t =>
      if a = c then [] :: splitOnChar c t
      else
        match splitOnChar c t with
        | [] => [[a]]
        | h :: r => (a :: h) :: r

/-- The `re.match` of `PS\d+` against a slug known to start with `PS` and a
digit: the `PS` prefix plus the maximal digit run. -/
def psNumber (slug : List Char) : List Char :=
  slug.take 2 ++ (slug.drop 2).takeWhile Char.isDigit

/-- One dictionary assignment of the dedup loop of `parse_model_page`: a
repeated key keeps its insertion position but receives the new value, a
fresh key is appended. -/
def dedupInsert (acc : List (String × ParsedPart)) (p : ParsedPart) :
    List (String × ParsedPart) :=
  if acc.any (fun kv => kv.1 = p.partselect_number) then
    acc.map (fun kv =>
      if kv.1 = p.partselect_number then (kv.1, p) else kv)
  else acc ++ [(p.partselect_number, p)]

/-- The dedup of `parse_model_page`: insertion-ordered dictionary keyed by
part number, then its values. -/
def dedupByPS (ps : List ParsedPart) : List ParsedPart :=
  (ps.foldl dedupInsert []).map (fun kv => kv.2)

/-- First-occurrence key erasure, used to state the dedup key order. -/
def eraseDupKeepFirst (xs : List String) : List String :=
  xs.foldl (fun acc s => if s ∈ acc then acc else acc ++ [s]) []

/-- Modelled from the claim wording for comparison only: a dedup that keeps
the whole first occurrence of each part number and drops later ones. -/
def dedupByPSKeepFirstSpec (ps : List ParsedPart) : List ParsedPart :=
  ps.foldl (fun acc p =>
    if acc.any (fun q => q.partselect_number = p.partselect_number) then acc
    else acc ++ [p]) []

/-- Characters ending the symptom capture class `[^)/]`. -/
def sympStop (c : Char) : Bool :=
  c = ')' || c = '/'

/-- Scanner for `re.findall` of the symptom pattern: the literal
`/Symptoms/` followed by a maximal nonempty run of class characters. -/
def scanSymptomsAux : Nat → List Char → List (List Char)
  | 0, _ => []
  | _ + 1, [] => []
  | n + 1, l@(_ :: t) =>
      if ("/Symptoms/").data.isPrefixOf l then
        let rest := l.drop ("/Symptoms/").data.length
        let run := rest.takeWhile (fun c => !sympStop c)
        if !run.isEmpty then run :: scanSymptomsAux n (rest.drop run.length)
        else scanSymptomsAux n t
      else scanSymptomsAux n t

def scanSymptoms (l : List Char) : List (List Char) :=
  scanSymptomsAux l.length l

/-- The symptom cleanup of `parse_model_page`: dashes to spaces and the
escaped right single quotation mark to an apostrophe. -/
def cleanSymptom (s : List Char) : String :=
  String.mk (replaceSub ("%E2%80%99").data ("\x27").data
    (s.map (fun c => if c = '-' then ' ' else c)))

/-- The symptom accumulation loop: keep nonempty cleaned symptoms, first
occurrence only. -/
def buildSymptoms (runs : List (List Char)) : List String :=
  runs.foldl (fun acc s =>
    let sym := cleanSymptom s
    if sym ≠ "" ∧ sym ∉ acc then acc ++ [sym] else acc) []

/-- One attempted match of `LINK_RE` at the current position: markdown link
syntax whose URL starts with the site prefix; returns the URL capture group
and the remainder after the match. -/
def mdLinkAt (l : List Char) : Option (List Char × List Char) :=
  match l with
  | '[' :: t =>
      let r1 := t.takeWhile (fun d => d ≠ ']')
      match t.drop r1.length with
      | ']' :: '(' :: rest2 =>
          if !r1.isEmpty ∧ ("https://www.partselect.com").data.isPrefixOf rest2
          then
            let rest3 := rest2.drop ("https://www.partselect.com").data.length
            let r2 := rest3.takeWhile (fun d => !(pySpace d || d = ')'))
            match rest3.drop r2.length with
            | ')' :: rest4 =>
                if !r2.isEmpty then
                  some (("https://www.partselect.com").data ++ r2, rest4)
                else none
            | _ => none
          else none
      | _ => none
  | _ => none

/-- Scanner for `LINK_RE.findall`. -/
def scanMdLinksAux : Nat → List Char → List (List Char)
  | 0, _ => []
  | _ + 1, [] => []
  | n + 1, l@(_ :: t) =>
      match mdLinkAt l with
      | some (url, rest) => url :: scanMdLinksAux n rest
      | none => scanMdLinksAux n t

def scanMdLinks (l : List Char) : List (List Char) :=
  scanMdLinksAux l.length l

/-- The media classification loop of `parse_model_page` over the extracted
links. -/
def buildMedia (links : List String) : List (String × String × String) :=
  links.foldl (fun acc l =>
    if containsSub l "/Videos/?VideoID=" then
      acc ++ [("video", "model video", normalizeUrl l)]
    else if containsSub l "/Instructions/" then
      acc ++ [("instruction", "model instruction", normalizeUrl l)]
    else acc) []

/-- Python word characters (`\w`, ASCII part). -/
def isWordChar (c : Char) : Bool :=
  c.isAlphanum || c = '_'

/-- Does the newline-whitespace-`A:` separator of the QA pattern match at
the start of the list? -/
def qaEndsHere (l : List Char) : Bool :=
  match l with
  | '\n' :: rest => ("A:").data.isPrefixOf (rest.dropWhile pySpace)
  | _ => false

/-- Does the lookahead `\n\s*Q:` or end-of-input of the QA pattern match at
the start of the list? -/
def qaStopsHere (l : List Char) : Bool :=
  match l with
  | [] => true
  | '\n' :: rest => ("Q:").data.isPrefixOf (rest.dropWhile pySpace)
  | _ => false

/-- Least index at which a predicate on suffixes holds. -/
def scanIdx (p : List Char → Bool) : List Char → Option Nat
  | [] => if p [] then some 0 else none
  | l@(_ :: t) =>
      if p l then some 0 else (scanIdx p t).map (fun i => i + 1)

/-- The body of one QA match, positioned after `Q:` and its whitespace run:
the lazy question capture up to the first `\n\s*A:` separator, then the lazy
answer capture up to the first `\n\s*Q:` lookahead or the end.  The regex
backtracking that can shrink a greedy whitespace run to produce a
whitespace-only capture is not modelled; such captures are discarded by the
strip filter of the caller in either reading. -/
def qaMatchBody (l : List Char) : Option (List Char × List Char × List Char) :=
  match l with
  | [] => none
  | _ :: _ =>
      match scanIdx qaEndsHere (l.drop 1) with
      | none => none
      | some i =>
          let q := l.take (1 + i)
          let afterNl :=
            match l.drop (1 + i) with
            | '\n' :: r => r
            | _ => []
          let atext := ((afterNl.dropWhile pySpace).drop 2).dropWhile pySpace
          match atext with
          | [] => none
          | _ :: _ =>
              match scanIdx qaStopsHere (atext.drop 1) with
              | none => none
              | some j => some (q, atext.take (1 + j), atext.drop (1 + j))

/-- Scanner for the QA pattern `\bQ:\s*(.+?)\n\s*A:\s*(.+?)` with the
`\n\s*Q:`-or-end lookahead, under `re.S`; `prev` carries the previous
character for the word-boundary test.  A successful match resumes after the
answer capture, whose following character is never a word character, so the
boundary state passed there is immaterial. -/
def scanQAAux : Nat → Option Char → List Char → List (List Char × List Char)
  | 0, _, _ => []
  | _ + 1, _, [] => []
  | n + 1, prev, l@(c :: t) =>
      let boundaryOk := match prev with
        | none => true
        | some pc => !isWordChar pc
      if boundaryOk && ("Q:").data.isPrefixOf l then
        match qaMatchBody ((l.drop 2).dropWhile pySpace) with
        | some (q, a, rest) => (q, a) :: scanQAAux n (some '\n') rest
        | none => scanQAAux n (some c) t
      else scanQAAux n (some c) t

def scanQA (l : List Char) : List (List Char × List Char) :=
  scanQAAux l.length none l

/-- The QA accumulation loop: the first 50 blocks, stripped, nonempty ones
truncated to 2000 and 4000 characters. -/
def buildQA (blocks : List (List Char × List Char)) : List (String × String) :=
  (blocks.take 50).foldl (fun acc qa =>
    let q := pyStrip (String.mk qa.1)
    let a := pyStrip (String.mk qa.2)
    if q ≠ "" ∧ a ≠ "" then
      acc ++ [(String.mk (q.data.take 2000), String.mk (a.data.take 4000))]
    else acc) []

/-- Embedding of `parse_model_page`. -/
def parseModelPage (url markdown title : String) : Option ParsedModel :=
  match findModelNumber url.data with
  | none => none
  | some tok =>
      let model_number := String.mk (tok.map Char.toUpper)
      let bt := extractBrandAndType title
      let sect := extractModelSection markdown.data model_number.data
      let parts := (scanPartLinks sect).map (fun lk =>
        { partselect_number := String.mk ((psNumber lk.2).map Char.toUpper),
          part_url := normalizeUrl (String.mk lk.1),
          name := none,
          manufacturer_part_number :=
            ((splitOnChar '-' lk.2).get? 2).map String.mk,
          price_value := none : ParsedPart })
      some { model_number := model_number,
             brand := bt.1,
             appliance_type := bt.2,
             parts := dedupByPS parts,
             symptoms := (buildSymptoms (scanSymptoms markdown.data)).take 100,
             media := (buildMedia
               ((scanMdLinks markdown.data).map String.mk)).take 200,
             qa := buildQA (scanQA markdown.data) }

/-- Concrete model-page URL for the C7 scenario. -/
def c7Url : String := "https://www.partselect.com/Models/WDT780SAEM1/"

/-- Concrete page title for the C7 scenario. -/
def c7Title : String := "Whirlpool Dishwasher WDT780SAEM1 Parts"

/-- Concrete markdown for the C7 scenario: two distinct part-detail links in
the model section, a `Common Symptoms` marker, and a third link after the
marker that must be excluded. -/
def c7Md : String :=
  "Parts for the WDT780SAEM1 (https://www.partselect.com/PS3406971-Whirlpool-W10195416-Lower-Rack.htm) and (https://www.partselect.com/PS3406972-Whirlpool-W10195417-Upper-Rack.htm) Common Symptoms (https://www.partselect.com/PS9999999-Brand-X-Other.htm)"

/-- Concrete markdown with the same part number linked twice with different
slugs, for the dedup counterexample. -/
def c7MdDup : String :=
  "Parts for the WDT780SAEM1 (https://www.partselect.com/PS3406971-Whirlpool-M1-Lower.htm) (https://www.partselect.com/PS3406971-Whirlpool-M2-Lower.htm) Common Symptoms"

/-! ## Fetch strategy selection (`ingestion/service.py`, `crawl_best`)

`crawl_best` runs every configured strategy in order; each run either raises
(the exception branch) or returns a crawl result with a success flag,
markdown and metadata.  The loop keeps the candidate with the strictly
larger word count, regardless of the success flag; an exception candidate is
kept only when no candidate exists yet.  The metadata dictionary is
represented by the title it contributes. -/

/-- The part of a `crawler.arun` result read by `crawl_best`. -/
structure FetchResult where
  success : Bool
  markdown : Option String
  title : String
  error_message : String
deriving DecidableEq, Repr

/-- One strategy attempt: a returned result or a raised exception. -/
inductive FetchOutcome where
  | res (r : FetchResult)
  | exn (msg : String)
deriving DecidableEq, Repr

/-- Discriminator for the non-exception outcome. -/
def isResOutcome : FetchOutcome → Bool
  | FetchOutcome.res _ => true
  | FetchOutcome.exn _ => false

/-- The candidate dictionary built by `crawl_best` for one attempt. -/
structure Candidate where
  strategy : String
  success : Bool
  markdown : String
  title : String
  word_count : Nat
  error : Option String
deriving DecidableEq, Repr

/-- `len(markdown.split())`. -/
def countWords (s : String) : Nat :=
  (pySplitWs s).length

/-- The candidate built from a returned crawl result. -/
def mkCandidate (strategy : String) (r : FetchResult) : Candidate :=
  { strategy := strategy,
    success := r.success,
    markdown := r.markdown.getD "",
    title := r.title,
    word_count := countWords (r.markdown.getD ""),
    error := if r.success then none else some r.error_message }

/-- The candidate built in the exception branch. -/
def exnCandidate (strategy msg : String) : Candidate :=
  { strategy := strategy, success := false, markdown := "", title := "",
    word_count := 0, error := some msg }

/-- One loop iteration of `crawl_best`: a returned result becomes a
candidate kept when strictly better (or first); an exception candidate is
kept only when no candidate exists yet. -/
def crawlStep (best : Option Candidate) (a : String × FetchOutcome) :
    Option Candidate :=
  match a.2 with
  | FetchOutcome.res r =>
      match best with
      | none => some (mkCandidate a.1 r)
      | some b =>
          if (mkCandidate a.1 r).word_count > b.word_count
          then some (mkCandidate a.1 r) else some b
  | FetchOutcome.exn msg =>
      match best with
      | none => some (exnCandidate a.1 msg)
      | some b => some b

/-- Embedding of `IngestionService.crawl_best` as a function of the attempt
outcomes, one per configured strategy in declared order. -/
def crawlBest (attempts : List (String × FetchOutcome)) : Option Candidate :=
  attempts.foldl crawlStep none

/-- The candidate built for an attempt. -/
def candOf (a : String × FetchOutcome) : Candidate :=
  match a.2 with
  | FetchOutcome.res r => mkCandidate a.1 r
  | FetchOutcome.exn msg => exnCandidate a.1 msg

/-- The candidates of a list of attempts. -/
def resCandidates (attempts : List (String × FetchOutcome)) : List Candidate :=
  attempts.map candOf

/-- The keep-the-strictly-larger step over plain candidates. -/
def pickStep (best : Option Candidate) (c : Candidate) : Option Candidate :=
  match best with
  | none => some c
  | some b => if c.word_count > b.word_count then some c else some b

/-- The keep-the-strictly-larger fold over plain candidates. -/
def pickBest (cands : List Candidate) : Option Candidate :=
  cands.foldl pickStep none

/-- A markdown body of exactly `n` whitespace-separated words. -/
def mdWords (n : Nat) : String :=
  String.mk (List.intercalate [' '] (List.replicate n ['w']))

/-- A failed attempt with nonempty markdown followed by a successful one
with a single word, for the C5 counterexample. -/
def c5CexAttempts : List (String × FetchOutcome) :=
  [("baseline", FetchOutcome.res ⟨false, some "a b c", "", "E"⟩),
   ("wait_body", FetchOutcome.res ⟨true, some "x", "", ""⟩)]

/-- The three-strategy scenario with word counts 50, 120, 80. -/
def c5Scenario : List (String × FetchOutcome) :=
  [("baseline", FetchOutcome.res ⟨true, some (mdWords 50), "t", ""⟩),
   ("wait_body", FetchOutcome.res ⟨true, some (mdWords 120), "t", ""⟩),
   ("selector_article", FetchOutcome.res ⟨true, some (mdWords 80), "t", ""⟩)]

/-- The all-failed scenario with empty markdown everywhere. -/
def c5AllFail : List (String × FetchOutcome) :=
  [("baseline", FetchOutcome.res ⟨false, none, "", "E1"⟩),
   ("wait_body", FetchOutcome.res ⟨false, none, "", "E2"⟩),
   ("selector_article", FetchOutcome.res ⟨false, none, "", "E3"⟩)]

/-- The two parts collected from the duplicate-link markdown before
deduplication, written out explicitly. -/
def c7DupParts : List ParsedPart :=
  [⟨"PS3406971", "https://www.partselect.com/PS3406971-Whirlpool-M1-Lower.htm",
    none, some "M1", none⟩,
   ⟨"PS3406971", "https://www.partselect.com/PS3406971-Whirlpool-M2-Lower.htm",
    none, some "M2", none⟩]

/-! ## Entity store (`ingestion/store.py`, SQL upserts)

Each SQL table is a list of row structures; serial primary keys are modelled
by a next-id counter.  Every `insert ... on conflict (<natural key>) do
update` is an instance of one combinator `upsertBy`: if a row with the
payload's natural key exists, every such row is updated in place, otherwise
a fresh row is appended (receiving the next id where the table has one).
`returning id` is modelled by looking up the id of the first row with the
key after the statement.  Numeric values are rationals and `now()` is an
explicit argument. -/

/-- A row of `models`. -/
structure ModelRow where
  id : Nat
  model_number : String
  brand : Option String
  appliance_type : String
  source_url : String
  updated_at : Nat
deriving DecidableEq, Repr

/-- A row of `parts`. -/
structure PartRow where
  id : Nat
  partselect_number : String
  manufacturer_part_number : Option String
  name : Option String
  price_value : Option Rat
  source_url : String
  updated_at : Nat
deriving DecidableEq, Repr

/-- A row of `model_parts`. -/
structure ModelPartRow where
  model_id : Nat
  part_id : Nat
  compatibility_confidence : Rat
  source_url : String
  updated_at : Nat
deriving DecidableEq, Repr

/-- A row of `model_symptoms`. -/
structure SymptomRow where
  model_id : Nat
  symptom : String
  source_url : String
  updated_at : Nat
deriving DecidableEq, Repr

/-- A row of `model_media`. -/
structure MediaRow where
  model_id : Nat
  media_type : String
  title : String
  media_url : String
  source_url : String
  updated_at : Nat
deriving DecidableEq, Repr

/-- A row of `model_qa`. -/
structure QARow where
  model_id : Nat
  question : String
  answer : String
  source_url : String
  updated_at : Nat
deriving DecidableEq, Repr

/-- The entity tables and id counters. -/
structure DB where
  models : List ModelRow
  parts : List PartRow
  model_parts : List ModelPartRow
  model_symptoms : List SymptomRow
  model_media : List MediaRow
  model_qa : List QARow
  nextModelId : Nat
  nextPartId : Nat
deriving DecidableEq, Repr

/-- SQL `coalesce` of two nullable values. -/
def coalesce {α : Type} : Option α → Option α → Option α
  | some x, _ => some x
  | none, y => y

/-- One keyed upsert: update every row carrying the payload's key in place,
or append a freshly built row (consuming the next id). -/
def upsertBy {R P K : Type} [DecidableEq K] (rkey : R → K) (pkey : P → K)
    (upd : P → R → R) (mkNew : Nat → P → R) (s : List R × Nat) (p : P) :
    List R × Nat :=
  if s.1.any (fun r => rkey r = pkey p) then
    (s.1.map (fun r => if rkey r = pkey p then upd p r else r), s.2)
  else (s.1 ++ [mkNew s.2 p], s.2 + 1)

/-- A sequence of keyed upserts against one table. -/
def applyUpserts {R P K : Type} [DecidableEq K] (rkey : R → K) (pkey : P → K)
    (upd : P → R → R) (mkNew : Nat → P → R) (s : List R × Nat)
    (ps : List P) : List R × Nat :=
  ps.foldl (upsertBy rkey pkey upd mkNew) s

/-- The update chain of several payloads over one row. -/
def chainUpd {R P : Type} (upd : P → R → R) (os : List P) (r : R) : R :=
  os.foldl (fun r p => upd p r) r

/-- Id of the first row carrying a key (the `returning id` of an upsert,
read after the statement). -/
def idOfKey {R K : Type} [DecidableEq K] (rkey : R → K) (rid : R → Nat)
    (rows : List R) (k : K) : Nat :=
  ((rows.find? (fun r => rkey r = k)).map rid).getD 0

/-- Natural key and column writes of `Store.upsert_model`: key
`model_number`; on conflict `brand`, `appliance_type` and `source_url` are
overwritten with the new values. -/
def modelUpd (now : Nat) (pm : ParsedModel × String) (r : ModelRow) : ModelRow :=
  { r with brand := pm.1.brand, appliance_type := pm.1.appliance_type,
           source_url := pm.2, updated_at := now }

def modelNew (now : Nat) (i : Nat) (pm : ParsedModel × String) : ModelRow :=
  ⟨i, pm.1.model_number, pm.1.brand, pm.1.appliance_type, pm.2, now⟩

/-- Embedding of `Store.upsert_model`, returning the row id. -/
def upsertModel (db : DB) (m : ParsedModel) (src : String) (now : Nat) :
    Nat × DB :=
  let s := upsertBy (fun r => r.model_number) (fun pm => pm.1.model_number)
    (modelUpd now) (modelNew now) (db.models, db.nextModelId) (m, src)
  (idOfKey (fun r => r.model_number) (fun r => r.id) s.1 m.model_number,
   { db with models := s.1, nextModelId := s.2 })

/-- Column writes of `Store.upsert_part`: key `partselect_number`; on
conflict `manufacturer_part_number`, `name` and `price_value` are merged
with `coalesce(new, old)` while `source_url` is overwritten. -/
def partUpd (now : Nat) (pp : ParsedPart × String) (r : PartRow) : PartRow :=
  { r with
    manufacturer_part_number :=
      coalesce pp.1.manufacturer_part_number r.manufacturer_part_number,
    name := coalesce pp.1.name r.name,
    price_value := coalesce pp.1.price_value r.price_value,
    source_url := pp.2, updated_at := now }

def partNew (now : Nat) (i : Nat) (pp : ParsedPart × String) : PartRow :=
  ⟨i, pp.1.partselect_number, pp.1.manufacturer_part_number, pp.1.name,
   pp.1.price_value, pp.2, now⟩

/-- Embedding of `Store.upsert_part`, returning the row id. -/
def upsertPart (db : DB) (p : ParsedPart) (src : String) (now : Nat) :
    Nat × DB :=
  let s := upsertBy (fun r => r.partselect_number)
    (fun pp => pp.1.partselect_number)
    (partUpd now) (partNew now) (db.parts, db.nextPartId) (p, src)
  (idOfKey (fun r => r.partselect_number) (fun r => r.id) s.1
     p.partselect_number,
   { db with parts := s.1, nextPartId := s.2 })

/-- Column writes of `Store.upsert_model_part`: key `(model_id, part_id)`;
on conflict only `source_url` (and `updated_at`) are written, a fresh row
carries confidence 1. -/
def mpUpd (now : Nat) (pp : (Nat × Nat) × String) (r : ModelPartRow) :
    ModelPartRow :=
  { r with source_url := pp.2, updated_at := now }

def mpNew (now : Nat) (_i : Nat) (pp : (Nat × Nat) × String) : ModelPartRow :=
  ⟨pp.1.1, pp.1.2, 1, pp.2, now⟩

/-- Embedding of `Store.upsert_model_part`. -/
def upsertModelPart (db : DB) (model_id part_id : Nat) (src : String)
    (now : Nat) : DB :=
  { db with model_parts := (upsertBy (fun r => (r.model_id, r.part_id))
      (fun pp => pp.1) (mpUpd now) (mpNew now) (db.model_parts, 0)
      ((model_id, part_id), src)).1 }

/-- Column writes of `Store.insert_model_symptom`: key
`(model_id, symptom)`; on conflict `source_url` and `updated_at`. -/
def symptomUpd (now : Nat) (pp : (Nat × String) × String) (r : SymptomRow) :
    SymptomRow :=
  { r with source_url := pp.2, updated_at := now }

def symptomNew (now : Nat) (_i : Nat) (pp : (Nat × String) × String) :
    SymptomRow :=
  ⟨pp.1.1, pp.1.2, pp.2, now⟩

/-- Embedding of `Store.insert_model_symptom`. -/
def insertModelSymptom (db : DB) (model_id : Nat) (symptom src : String)
    (now : Nat) : DB :=
  { db with model_symptoms := (upsertBy (fun r => (r.model_id, r.symptom))
      (fun pp => pp.1) (symptomUpd now) (symptomNew now)
      (db.model_symptoms, 0) ((model_id, symptom), src)).1 }

/-- Column writes of `Store.insert_model_media`: key
`(model_id, media_type, media_url)`; on conflict `title`, `source_url` and
`updated_at`. -/
def mediaUpd (now : Nat) (pp : (Nat × String × String) × String × String)
    (r : MediaRow) : MediaRow :=
  { r with title := pp.2.1, source_url := pp.2.2, updated_at := now }

def mediaNew (now : Nat) (_i : Nat)
    (pp : (Nat × String × String) × String × String) : MediaRow :=
  ⟨pp.1.1, pp.1.2.1, pp.2.1, pp.1.2.2, pp.2.2, now⟩

/-- Embedding of `Store.insert_model_media`. -/
def insertModelMedia (db : DB) (model_id : Nat)
    (media_type title media_url src : String) (now : Nat) : DB :=
  { db with model_media := (upsertBy
      (fun r => (r.model_id, r.media_type, r.media_url))
      (fun pp => pp.1) (mediaUpd now) (mediaNew now) (db.model_media, 0)
      ((model_id, media_type, media_url), title, src)).1 }

/-- Column writes of `Store.insert_model_qa`: key
`(model_id, question, answer)`; on conflict `source_url` and `updated_at`. -/
def qaUpd (now : Nat) (pp : (Nat × String × String) × String) (r : QARow) :
    QARow :=
  { r with source_url := pp.2, updated_at := now }

def qaNew (now : Nat) (_i : Nat) (pp : (Nat × String × String) × String) :
    QARow :=
  ⟨pp.1.1, pp.1.2.1, pp.1.2.2, pp.2, now⟩

/-- Embedding of `Store.insert_model_qa`. -/
def insertModelQA (db : DB) (model_id : Nat) (question answer src : String)
    (now : Nat) : DB :=
  { db with model_qa := (upsertBy (fun r => (r.model_id, r.question, r.answer))
      (fun pp => pp.1) (qaUpd now) (qaNew now) (db.model_qa, 0)
      ((model_id, question, answer), src)).1 }

/-- One iteration of the parts loop of `persist_parsed_page`: upsert a part
(with its own URL as provenance when present, the page URL otherwise) and
the model-part join. -/
def stepPM (mid : Nat) (src : String) (now : Nat) (d : DB) (part : ParsedPart) :
    DB :=
  let psrc := if part.part_url ≠ "" then part.part_url else src
  let r := upsertPart d part psrc now
  upsertModelPart r.2 mid r.1 src now

/-- The `if page.model:` block of `persist_parsed_page` on its own: model
upsert, parts loop, symptom loop, media loop, question-answer loop. -/
def modelBranch (db : DB) (m : ParsedModel) (src : String) (now : Nat) : DB :=
  let r := upsertModel db m src now
  let dbB := m.parts.foldl (stepPM r.1 src now) r.2
  let dbC := m.symptoms.foldl
    (fun d s => insertModelSymptom d r.1 s src now) dbB
  let dbD := m.media.foldl
    (fun d t => insertModelMedia d r.1 t.1 t.2.1 t.2.2 src now) dbC
  m.qa.foldl (fun d t => insertModelQA d r.1 t.1 t.2 src now) dbD

/-- Embedding of `Store.persist_parsed_page`. -/
def persistParsedPage (db : DB) (page : ParsedPage) (src : String) (now : Nat) :
    DB :=
  let db1 :=
    match page.model with
    | none => db
    | some m =>
        let r := upsertModel db m src now
        let dbB := m.parts.foldl (stepPM r.1 src now) r.2
        let dbC := m.symptoms.foldl
          (fun d s => insertModelSymptom d r.1 s src now) dbB
        let dbD := m.media.foldl
          (fun d t => insertModelMedia d r.1 t.1 t.2.1 t.2.2 src now) dbC
        m.qa.foldl (fun d t => insertModelQA d r.1 t.1 t.2 src now) dbD
  match page.part with
  | none => db1
  | some pp => (upsertPart db1 pp src now).2

/-- Merge a chain of coalesce writes over an initial stored value. -/
def listCoal {P β : Type} (f : P → Option β) (os : List P) (x : Option β) :
    Option β :=
  os.foldl (fun acc o => coalesce (f o) acc) x

/-- A `models` row with the audit timestamp erased. -/
def erModelRow (r : ModelRow) : ModelRow := { r with updated_at := 0 }

/-- A `parts` row with the audit timestamp erased. -/
def erPartRow (r : PartRow) : PartRow := { r with updated_at := 0 }

/-- A `model_parts` row with the audit timestamp erased. -/
def erModelPartRow (r : ModelPartRow) : ModelPartRow :=
  { r with updated_at := 0 }

/-- A `model_symptoms` row with the audit timestamp erased. -/
def erSymptomRow (r : SymptomRow) : SymptomRow := { r with updated_at := 0 }

/-- A `model_media` row with the audit timestamp erased. -/
def erMediaRow (r : MediaRow) : MediaRow := { r with updated_at := 0 }

/-- A `model_qa` row with the audit timestamp erased. -/
def erQARow (r : QARow) : QARow := { r with updated_at := 0 }

/-- The database with every `updated_at` column erased (all other columns,
and the id counters, are kept). -/
def eraseDB (db : DB) : DB :=
  { models := db.models.map erModelRow, parts := db.parts.map erPartRow,
    model_parts := db.model_parts.map erModelPartRow,
    model_symptoms := db.model_symptoms.map erSymptomRow,
    model_media := db.model_media.map erMediaRow,
    model_qa := db.model_qa.map erQARow,
    nextModelId := db.nextModelId, nextPartId := db.nextPartId }

/-- Every table holds its natural key (the on-conflict target) at most
once, as the unique constraints behind the SQL upserts guarantee. -/
def UniqKeys (db : DB) : Prop :=
  (db.models.map (fun r => r.model_number)).Nodup ∧
  (db.parts.map (fun r => r.partselect_number)).Nodup ∧
  (db.model_parts.map (fun r => (r.model_id, r.part_id))).Nodup ∧
  (db.model_symptoms.map (fun r => (r.model_id, r.symptom))).Nodup ∧
  (db.model_media.map
    (fun r => (r.model_id, r.media_type, r.media_url))).Nodup ∧
  (db.model_qa.map (fun r => (r.model_id, r.question, r.answer))).Nodup

instance (db : DB) : Decidable (UniqKeys db) := by
  unfold UniqKeys
  infer_instance

/-- Payloads of the parts-loop upserts of `persist_parsed_page`: each part
with its provenance URL (`part.part_url or source_url`). -/
def partPayloads (parts : List ParsedPart) (src : String) :
    List (ParsedPart × String) :=
  parts.map
    (fun part => (part, if part.part_url ≠ "" then part.part_url else src))

/-- All part upserts of one `persist_parsed_page` call, in statement order:
the model's parts loop, then the page-level part. -/
def partsPayloadAll (page : ParsedPage) (src : String) :
    List (ParsedPart × String) :=
  (match page.model with
   | some m => partPayloads m.parts src
   | none => []) ++
  (match page.part with
   | some pp => [(pp, src)]
   | none => [])

/-- Payloads of the model-part join upserts, reading each part id off a
parts table. -/
def mpPayloads (mid : Nat) (src : String) (parts : List ParsedPart)
    (finalParts : List PartRow) : List ((Nat × Nat) × String) :=
  parts.map (fun part =>
    ((mid, idOfKey (fun r => r.partselect_number) (fun r => r.id) finalParts
        part.partselect_number), src))

/-- Payloads of the symptom upserts. -/
def symptomPayloads (mid : Nat) (src : String) (symptoms : List String) :
    List ((Nat × String) × String) :=
  symptoms.map (fun s => ((mid, s), src))

/-- Payloads of the media upserts. -/
def mediaPayloads (mid : Nat) (src : String)
    (media : List (String × String × String)) :
    List ((Nat × String × String) × String × String) :=
  media.map (fun t => ((mid, t.1, t.2.2), t.2.1, src))

/-- Payloads of the question-answer upserts. -/
def qaPayloads (mid : Nat) (src : String) (qa : List (String × String)) :
    List ((Nat × String × String) × String) :=
  qa.map (fun t => ((mid, t.1, t.2), src))

/-- The model-table effect of one `persist_parsed_page` call, as a single
upsert sequence. -/
def modelsApp (db : DB) (m : ParsedModel) (src : String) (now : Nat) :
    List ModelRow × Nat :=
  applyUpserts (fun r => r.model_number) (fun pm => pm.1.model_number)
    (modelUpd now) (modelNew now) (db.models, db.nextModelId) [(m, src)]

/-- The parts-table effect of the parts loop alone. -/
def loopPartsApp (db : DB) (m : ParsedModel) (src : String) (now : Nat) :
    List PartRow × Nat :=
  applyUpserts (fun r => r.partselect_number)
    (fun pp => pp.1.partselect_number) (partUpd now) (partNew now)
    (db.parts, db.nextPartId) (partPayloads m.parts src)

/-- The parts-table effect of the whole call (parts loop, then the
page-level part). -/
def partsApp (db : DB) (page : ParsedPage) (src : String) (now : Nat) :
    List PartRow × Nat :=
  applyUpserts (fun r => r.partselect_number)
    (fun pp => pp.1.partselect_number) (partUpd now) (partNew now)
    (db.parts, db.nextPartId) (partsPayloadAll page src)

/-- The model id returned by the model upsert. -/
def midOf (db : DB) (m : ParsedModel) (src : String) (now : Nat) : Nat :=
  (upsertModel db m src now).1

/-- The model-parts effect of one call. -/
def mpApp (db : DB) (m : ParsedModel) (src : String) (now : Nat) :
    List ModelPartRow × Nat :=
  applyUpserts (fun r => (r.model_id, r.part_id)) (fun pp => pp.1)
    (mpUpd now) (mpNew now) (db.model_parts, 0)
    (mpPayloads (midOf db m src now) src m.parts
      (loopPartsApp db m src now).1)

/-- The symptom-table effect of one call. -/
def syApp (db : DB) (m : ParsedModel) (src : String) (now : Nat) :
    List SymptomRow × Nat :=
  applyUpserts (fun r => (r.model_id, r.symptom)) (fun pp => pp.1)
    (symptomUpd now) (symptomNew now) (db.model_symptoms, 0)
    (symptomPayloads (midOf db m src now) src m.symptoms)

/-- The media-table effect of one call. -/
def meApp (db : DB) (m : ParsedModel) (src : String) (now : Nat) :
    List MediaRow × Nat :=
  applyUpserts (fun r => (r.model_id, r.media_type, r.media_url))
    (fun pp => pp.1) (mediaUpd now) (mediaNew now) (db.model_media, 0)
    (mediaPayloads (midOf db m src now) src m.media)

/-- The question-answer effect of one call. -/
def qaApp (db : DB) (m : ParsedModel) (src : String) (now : Nat) :
    List QARow × Nat :=
  applyUpserts (fun r => (r.model_id, r.question, r.answer))
    (fun pp => pp.1) (qaUpd now) (qaNew now) (db.model_qa, 0)
    (qaPayloads (midOf db m src now) src m.qa)

/-- The whole effect of `persist_parsed_page` on a model page, table by
table. -/
def decompDB (db : DB) (page : ParsedPage) (m : ParsedModel) (src : String)
    (now : Nat) : DB :=
  { models := (modelsApp db m src now).1,
    nextModelId := (modelsApp db m src now).2,
    parts := (partsApp db page src now).1,
    nextPartId := (partsApp db page src now).2,
    model_parts := (mpApp db m src now).1,
    model_symptoms := (syApp db m src now).1,
    model_media := (meApp db m src now).1,
    model_qa := (qaApp db m src now).1 }

/-- An empty database whose id counters start at 1. -/
def c1DB : DB := ⟨[], [], [], [], [], [], 1, 1⟩

/-- A full parsed model page: model with parts, symptoms, media and
question-answer entries, plus a page-level part. -/
def c1Page : ParsedPage :=
  { page_kind := "model",
    model := some
      { model_number := "WDT780SAEM1", brand := some "Whirlpool",
        appliance_type := "dishwasher",
        parts := [⟨"PS11750673", "https://www.partselect.com/PS11750673-p.htm",
                    some "Rack", some "W10", some 54⟩,
                  ⟨"PS3406971", "", some "Arm", none, none⟩],
        symptoms := ["Noisy", "Leaking"],
        media := [("video", "Install", "https://img/v1")],
        qa := [("Does it fit", "Yes")] },
    part := some ⟨"PS3406971", "", none, some "WPW10", some 12⟩,
    discovered_urls := [] }

/-! ## Concurrent `claim_next_frontier_url` (C2)

Each worker runs the claim transaction in two atomic steps: the locking
select (`select ... for update skip locked`, which skips rows whose row
lock is held by another transaction and locks the returned row) and the
update-and-commit (`update ... set status='processing',
attempts=attempts+1` followed by releasing the lock). An interleaving is a
list of worker indices; each entry lets that worker perform its next
atomic step. -/

/-- Phase of one worker inside `claim_next_frontier_url`: not started;
holding the row lock on index `i` for the row with the recorded URL;
finished returning `None`; finished returning a URL. -/
inductive WPhase where
  | idle : WPhase
  | locked : Nat → String → WPhase
  | doneNone : WPhase
  | doneSome : String → WPhase
deriving DecidableEq, Repr

/-- Shared frontier, per-row transaction locks, per-worker phases. -/
structure ClaimState where
  entries : List FrontierEntry
  locks : List Bool
  phases : List WPhase
deriving DecidableEq, Repr

/-- Candidate indices of the locking select: `queued` rows whose row lock
is free (`skip locked` drops the others). -/
def freeQueuedIdxs (entries : List FrontierEntry) (locks : List Bool) :
    List Nat :=
  (List.range entries.length).filter (fun i =>
    (entries.getD i default).status = FStatus.queued &&
    !(locks.getD i false))

/-- One atomic step of worker `w`: an idle worker runs the locking select
(acquiring the row lock, or finishing with `None` when no free queued row
exists); a worker holding a lock runs the update (`where url_canonical=%s`)
and commits, releasing its lock. Finished workers (and out-of-range
indices) do not move. -/
def wstep (rid : String) (now : Nat) (s : ClaimState) (w : Nat) :
    ClaimState :=
  match s.phases.getD w WPhase.doneNone with
  | WPhase.idle =>
      match pickMinBy (fun i => (s.entries.getD i default).updated_at)
          (freeQueuedIdxs s.entries s.locks) with
      | none => { s with phases := s.phases.set w WPhase.doneNone }
      | some i =>
          { s with locks := s.locks.set i true,
                   phases := s.phases.set w
                     (WPhase.locked i
                       (s.entries.getD i default).url_canonical) }
  | WPhase.locked i url =>
      { s with
        entries := s.entries.map (fun e =>
          if e.url_canonical = url then claimUpdate rid now e else e),
        locks := s.locks.set i false,
        phases := s.phases.set w (WPhase.doneSome url) }
  | _ => s

/-- Run an interleaving of worker steps. -/
def runSched (rid : String) (now : Nat) (s : ClaimState) (ws : List Nat) :
    ClaimState :=
  ws.foldl (wstep rid now) s

/-- Start state: the shared frontier, all row locks free, `n` idle
workers. -/
def initClaimState (f : List FrontierEntry) (n : Nat) : ClaimState :=
  ⟨f, List.replicate f.length false, List.replicate n WPhase.idle⟩

/-- A worker that currently holds a claim on the queued row: it either
holds the row lock or has already returned the URL (and is processing the
entry until it marks it done or failed). -/
def isClaimant : WPhase → Bool
  | WPhase.locked _ _ => true
  | WPhase.doneSome _ => true
  | _ => false

/-- A finished worker. -/
def isDoneW : WPhase → Bool
  | WPhase.doneNone => true
  | WPhase.doneSome _ => true
  | _ => false

/-- Reachability invariant of the one-queued-row scenario: either nothing
has happened; or exactly one worker holds the row lock on the queued row
`j` and everyone else is idle or finished empty-handed; or the claim has
been committed by exactly one worker and everyone else is idle or finished
empty-handed. -/
def ClaimInv (f : List FrontierEntry) (j n : Nat) (rid : String) (now : Nat)
    (s : ClaimState) : Prop :=
  s.phases.length = n ∧
  ((s.entries = f ∧ s.locks = List.replicate f.length false ∧
    s.phases = List.replicate n WPhase.idle) ∨
   (∃ w0, w0 < n ∧ s.entries = f ∧
     s.locks = (List.replicate f.length false).set j true ∧
     s.phases.getD w0 WPhase.doneNone =
       WPhase.locked j (f.getD j default).url_canonical ∧
     (∀ w, w < n → w ≠ w0 →
       s.phases.getD w WPhase.doneNone = WPhase.idle ∨
       s.phases.getD w WPhase.doneNone = WPhase.doneNone)) ∨
   (∃ w0, w0 < n ∧
     s.entries = f.set j (claimUpdate rid now (f.getD j default)) ∧
     s.locks = List.replicate f.length false ∧
     s.phases.getD w0 WPhase.doneNone =
       WPhase.doneSome (f.getD j default).url_canonical ∧
     (∀ w, w < n → w ≠ w0 →
       s.phases.getD w WPhase.doneNone = WPhase.idle ∨
       s.phases.getD w WPhase.doneNone = WPhase.doneNone)))

/-- A frontier with exactly one queued row, for the C2 witness. -/
def c2Frontier : List FrontierEntry :=
  [⟨"https://www.partselect.com/Models/WDT780SAEM1", FStatus.queued, 2,
    "seed", 0, 5, "r0", none⟩,
   ⟨"https://www.partselect.com/Models/X", FStatus.done, 1, "seed", 0, 3,
    "r0", none⟩]

/-- A database whose `models` table has one row with a captured brand. -/
def c6DB : DB :=
  ⟨[⟨1, "WDT780SAEM1", some "Whirlpool", "dishwasher", "s0", 0⟩],
   [], [], [], [], [], 2, 1⟩

/-- A stored part row with captured attributes. -/
def c6PartRow : PartRow :=
  ⟨1, "PS1", some "W10", some "Lower Rack", some 24, "s0", 0⟩

/-- A database whose `parts` table holds `c6PartRow`. -/
def c6PartDB : DB :=
  ⟨[], [c6PartRow], [], [], [], [], 1, 2⟩

/-- A concrete frontier with one failed entry that has accumulated attempts. -/
def c3Frontier : List FrontierEntry :=
  [⟨"https://www.partselect.com/Models/X", FStatus.failed, 3, "seed", 0, 0, "r0",
    some "boom"⟩]

/-- A concrete frontier with one done entry. -/
def doneFrontier : List FrontierEntry :=
  [⟨"https://www.partselect.com/Models/Y", FStatus.done, 2, "seed", 0, 0, "r0",
    none⟩]

/-! ## General lemmas -/

theorem find?_map_comm {α : Type} (g : α → α) (p : α → Bool)
    (hp : ∀ a, p (g a) = p a) (l : List α) :
    (l.map g).find? p = (l.find? p).map g := by
  induction l with
  | nil => rfl
  | cons a l ih =>
      by_cases h : p a = true
      · have h2 : p (g a) = true := by rw [hp]; exact h
        rw [List.map_cons, List.find?_cons_of_pos _ h2,
            List.find?_cons_of_pos _ h]
        rfl
      · have h2 : ¬p (g a) = true := by rw [hp]; exact h
        rw [List.map_cons, List.find?_cons_of_neg _ h2,
            List.find?_cons_of_neg _ h, ih]

theorem pickMinBy_mem (measure : Nat → Nat) (l : List Nat) (j : Nat)
    (h : pickMinBy measure l = some j) : j ∈ l := by
  suffices H : ∀ (l : List Nat) (acc : Option Nat) (j : Nat),
      l.foldl (fun acc i =>
        match acc with
        | none => some i
        | some j => if measure i < measure j then some i else some j) acc = some j →
      acc = some j ∨ j ∈ l by
    rcases H l none j h with h' | h'
    · exact absurd h' (by simp)
    · exact h'
  intro l
  induction l with
  | nil => intro acc j h; exact Or.inl h
  | cons a l ih =>
      intro acc j h
      simp only [List.foldl_cons] at h
      rcases ih _ j h with h' | h'
      · match acc with
        | none =>
            simp only at h'
            exact Or.inr (by simp [← Option.some_inj.mp h'])
        | some k =>
            simp only at h'
            by_cases hm : measure a < measure k
            · simp [hm] at h'
              exact Or.inr (by simp [← h'])
            · simp [hm] at h'
              exact Or.inl (by simp [h'])
      · exact Or.inr (List.mem_cons_of_mem _ h')

theorem mem_queuedIdxs {f : List FrontierEntry} {j : Nat}
    (h : j ∈ queuedIdxs f) :
    j < f.length ∧ (f.getD j default).status = FStatus.queued := by
  unfold queuedIdxs at h
  rcases List.mem_filter.mp h with ⟨hr, hq⟩
  exact ⟨List.mem_range.mp hr, by simpa using hq⟩

/-! ## Claim C3: enqueue semantics of `upsert_frontier_queued` -/

/-- C3 counterexample: the claim states that a forced enqueue unconditionally
resets an existing entry to status `queued` with attempts equal to zero; on
this concrete frontier the forced enqueue leaves `attempts = 3`, because the
`on conflict do update` list of the forced branch does not assign `attempts`. -/
theorem force_requeue_attempts_cex :
    (findEntry
        (upsertFrontierQueued c3Frontier "https://www.partselect.com/Models/X"
          "r1" "seed2" true 5)
        "https://www.partselect.com/Models/X").map
      (fun e => (e.status, e.attempts)) = some (FStatus.queued, 3) ∧
    ((3 : Nat) = 0 → False) := by
  constructor
  · rfl
  · decide

theorem findEntry_upsert (f : List FrontierEntry) (url rid src : String)
    (force : Bool) (now : Nat) (e : FrontierEntry)
    (h : findEntry f url = some e) :
    findEntry (upsertFrontierQueued f url rid src force now) url =
      some (if force then forceRequeueUpdate rid src now e
            else defaultRequeueUpdate rid src now e) := by
  have hmem := List.mem_of_find?_eq_some h
  have hp := List.find?_some h
  have hany : f.any (fun x => decide (x.url_canonical = url)) = true :=
    List.any_eq_true.mpr ⟨e, hmem, hp⟩
  unfold upsertFrontierQueued
  simp only [hany, if_pos]
  unfold findEntry at h ⊢
  rw [find?_map_comm]
  · rw [h]
    have he : e.url_canonical = url := by simpa using hp
    simp [he]
  · intro a
    by_cases ha : a.url_canonical = url
    · cases force <;>
        simp [ha, forceRequeueUpdate, defaultRequeueUpdate]
    · simp [ha]

/-- C3 (amended): for a URL already present in the frontier, a non-forced
enqueue leaves the status unchanged when it is `done` or `processing` and
otherwise sets it to `queued` clearing `last_error`; a forced enqueue resets
the status to `queued` and clears `last_error` but preserves the existing
attempt counter (only a freshly inserted row starts at zero attempts). -/
theorem upsert_frontier_queued_semantics (f : List FrontierEntry)
    (url rid src : String) (now : Nat) (e : FrontierEntry)
    (h : findEntry f url = some e) :
    (∃ e', findEntry (upsertFrontierQueued f url rid src false now) url = some e' ∧
      ((e.status = FStatus.done ∨ e.status = FStatus.processing) →
        e'.status = e.status) ∧
      (¬(e.status = FStatus.done ∨ e.status = FStatus.processing) →
        e'.status = FStatus.queued ∧ e'.last_error = none) ∧
      e'.attempts = e.attempts) ∧
    (∃ e', findEntry (upsertFrontierQueued f url rid src true now) url = some e' ∧
      e'.status = FStatus.queued ∧ e'.last_error = none ∧
      e'.attempts = e.attempts) := by
  constructor
  · refine ⟨defaultRequeueUpdate rid src now e, ?_, ?_, ?_, rfl⟩
    · simpa using findEntry_upsert f url rid src false now e h
    · intro hs
      simp [defaultRequeueUpdate, hs]
    · intro hs
      have hnd : e.status ≠ FStatus.done := fun hc => hs (Or.inl hc)
      constructor
      · simp [defaultRequeueUpdate, hs]
      · simp [defaultRequeueUpdate, hnd]
  · refine ⟨forceRequeueUpdate rid src now e, ?_, rfl, rfl, rfl⟩
    simpa using findEntry_upsert f url rid src true now e h

/-- Witness for C3 on a concrete frontier. -/
theorem upsert_frontier_queued_semantics_witness :
    (∃ e', findEntry (upsertFrontierQueued c3Frontier
        "https://www.partselect.com/Models/X" "r1" "seed2" false 5)
        "https://www.partselect.com/Models/X" = some e' ∧
      ((c3Frontier.head!.status = FStatus.done ∨
        c3Frontier.head!.status = FStatus.processing) →
        e'.status = c3Frontier.head!.status) ∧
      (¬(c3Frontier.head!.status = FStatus.done ∨
         c3Frontier.head!.status = FStatus.processing) →
        e'.status = FStatus.queued ∧ e'.last_error = none) ∧
      e'.attempts = c3Frontier.head!.attempts) ∧
    (∃ e', findEntry (upsertFrontierQueued c3Frontier
        "https://www.partselect.com/Models/X" "r1" "seed2" true 5)
        "https://www.partselect.com/Models/X" = some e' ∧
      e'.status = FStatus.queued ∧ e'.last_error = none ∧
      e'.attempts = c3Frontier.head!.attempts) :=
  upsert_frontier_queued_semantics c3Frontier
    "https://www.partselect.com/Models/X" "r1" "seed2" 5 c3Frontier.head! rfl

/-! ## Claim C4: `reconcile_frontier_for_resume` -/

/-- C4: the resume reconciliation resets every `processing` or `failed` row to
`queued` with `last_error` cleared, leaves `done` and `queued` rows entirely
unchanged, and returns the number of rows it updated. -/
theorem reconcile_for_resume_ok (f : List FrontierEntry) (now : Nat) :
    (reconcileFrontierForResume f now).1.length = f.length ∧
    (∀ (i : Nat) (e : FrontierEntry), f[i]? = some e →
      ∃ e', (reconcileFrontierForResume f now).1[i]? = some e' ∧
        ((e.status = FStatus.processing ∨ e.status = FStatus.failed) →
          e'.status = FStatus.queued ∧ e'.last_error = none) ∧
        ((e.status = FStatus.done ∨ e.status = FStatus.queued) → e' = e)) ∧
    (reconcileFrontierForResume f now).2 =
      (f.filter (fun e =>
        e.status = FStatus.processing ∨ e.status = FStatus.failed)).length := by
  refine ⟨by simp [reconcileFrontierForResume], ?_, rfl⟩
  intro i e hi
  unfold reconcileFrontierForResume
  simp only [List.getElem?_map, hi, Option.map_some]
  by_cases hs : e.status = FStatus.processing ∨ e.status = FStatus.failed
  · refine ⟨_, rfl, fun _ => ?_, fun hd => ?_⟩
    · simp [hs]
    · rcases hd with hd | hd <;> rcases hs with hs | hs <;>
        simp [hd] at hs
  · refine ⟨e, ?_, fun hcon => absurd hcon hs, fun _ => rfl⟩
    simp [hs]

/-- Witness for C4 on a concrete frontier. -/
theorem reconcile_for_resume_ok_witness :
    ∃ e', (reconcileFrontierForResume c3Frontier 7).1[0]? = some e' ∧
      ((c3Frontier.head!.status = FStatus.processing ∨
        c3Frontier.head!.status = FStatus.failed) →
        e'.status = FStatus.queued ∧ e'.last_error = none) ∧
      ((c3Frontier.head!.status = FStatus.done ∨
        c3Frontier.head!.status = FStatus.queued) → e' = c3Frontier.head!) :=
  ((reconcile_for_resume_ok c3Frontier 7).2.1) 0 c3Frontier.head! rfl

/-! ## Claim C8: `done` is terminal -/

/-- C8: once a frontier row has status `done`, `mark_frontier_failed`,
`mark_frontier_processing`, `reconcile_frontier_for_resume` and
`claim_next_frontier_url` leave the row entirely unchanged, and a non-forced
enqueue keeps its status `done`. -/
theorem done_status_terminal (f : List FrontierEntry)
    (url url2 rid src err : String) (now : Nat) (i : Nat) (e : FrontierEntry)
    (hi : f[i]? = some e) (hdone : e.status = FStatus.done) :
    (markFrontierFailed f url2 rid err now)[i]? = some e ∧
    (markFrontierProcessing f url2 rid now)[i]? = some e ∧
    (reconcileFrontierForResume f now).1[i]? = some e ∧
    (claimNextFrontierUrl f rid now).2[i]? = some e ∧
    (∃ e', (upsertFrontierQueued f url rid src false now)[i]? = some e' ∧
      e'.status = FStatus.done) := by
  refine ⟨?_, ?_, ?_, ?_, ?_⟩
  · unfold markFrontierFailed
    simp only [List.getElem?_map, hi, Option.map_some]
    simp [hdone]
  · unfold markFrontierProcessing
    simp only [List.getElem?_map, hi, Option.map_some]
    simp [hdone]
  · unfold reconcileFrontierForResume
    simp only [List.getElem?_map, hi, Option.map_some]
    simp [hdone]
  · have hset : (claimNextFrontierUrl f rid now).2[i]? = f[i]? := by
      unfold claimNextFrontierUrl
      split
      · rfl
      · next j hpick =>
          have hj := mem_queuedIdxs (pickMinBy_mem _ _ _ hpick)
          have hne : j ≠ i := by
            intro hji
            subst hji
            have hget : f.getD j default = e := by
              rw [List.getD_eq_getElem?_getD, hi]
              rfl
            have hq := hj.2
            rw [hget, hdone] at hq
            exact absurd hq (by decide)
          exact List.getElem?_set_ne hne
    rw [hset]
    exact hi
  · unfold upsertFrontierQueued
    by_cases hany : f.any (fun x => decide (x.url_canonical = url)) = true
    · rw [if_pos hany]
      simp only [List.getElem?_map, hi, Option.map_some]
      by_cases hu : e.url_canonical = url
      · exact ⟨_, rfl, by simp [hu, defaultRequeueUpdate, hdone]⟩
      · exact ⟨e, by simp [hu], hdone⟩
    · rw [if_neg hany]
      have hlen : i < f.length := by
        by_contra hge
        rw [List.getElem?_eq_none (Nat.le_of_not_lt hge)] at hi
        exact absurd hi (by simp)
      refine ⟨e, ?_, hdone⟩
      rw [List.getElem?_append_left hlen]
      exact hi

/-! ## Character and list lemmas for the canonicalizer -/

theorem char_toNat_ofNat (n : Nat) (h : n < 0xd800) : (Char.ofNat n).toNat = n := by
  unfold Char.ofNat Char.toNat
  rw [dif_pos (Or.inl h)]
  simp [Char.ofNatAux, UInt32.toNat]

theorem toLower_eq_slash (c : Char) (h : c.toLower = '/') : c = '/' := by
  unfold Char.toLower at h
  by_cases hc : c.toNat ≥ 65 ∧ c.toNat ≤ 90
  · rw [if_pos hc] at h
    have h2 := congrArg Char.toNat h
    rw [char_toNat_ofNat (c.toNat + 32) (by omega)] at h2
    rw [show ('/' : Char).toNat = 47 from rfl] at h2
    omega
  · rwa [if_neg hc] at h

theorem toLower_not_upper (c : Char) :
    ¬(c.toLower.toNat ≥ 65 ∧ c.toLower.toNat ≤ 90) := by
  unfold Char.toLower
  by_cases hc : c.toNat ≥ 65 ∧ c.toNat ≤ 90
  · rw [if_pos hc, char_toNat_ofNat (c.toNat + 32) (by omega)]
    omega
  · rw [if_neg hc]
    omega

theorem toLower_idem (c : Char) : c.toLower.toLower = c.toLower := by
  conv_lhs => rw [Char.toLower]
  rw [if_neg (toLower_not_upper c)]

theorem dropLast_concat_of_getLast? {α : Type} (l : List α) (a : α)
    (h : l.getLast? = some a) : l.dropLast ++ [a] = l := by
  cases l with
  | nil => simp at h
  | cons b t =>
      have hne : (b :: t) ≠ [] := by simp
      rw [List.getLast?_eq_getLast _ hne] at h
      rw [← Option.some_inj.mp h]
      exact List.dropLast_append_getLast hne

theorem collapse_head (l : List Char) :
    ¬((collapseAux true l).head? = some '/') := by
  induction l with
  | nil => simp [collapseAux]
  | cons c t ih =>
      by_cases hc : c = '/'
      · subst hc
        simpa [collapseAux] using ih
      · simp [collapseAux, hc]

theorem collapse_chain (b : Bool) (l : List Char) :
    List.Chain' (fun a c => ¬(a = '/' ∧ c = '/')) (collapseAux b l) := by
  induction l generalizing b with
  | nil => simp [collapseAux]
  | cons c t ih =>
      by_cases hc : c = '/'
      · subst hc
        cases b with
        | true => simpa [collapseAux] using ih true
        | false =>
            have hred : collapseAux false ('/' :: t) = '/' :: collapseAux true t := by
              simp [collapseAux]
            rw [hred, List.chain'_cons']
            refine ⟨?_, ih true⟩
            intro y hy hcontra
            rw [hcontra.2] at hy
            exact collapse_head t hy
      · simp only [collapseAux, if_neg hc]
        rw [List.chain'_cons']
        exact ⟨fun y _ hcontra => hc hcontra.1, ih false⟩

theorem strip_last_slash (q : List Char)
    (hq : List.Chain' (fun a b => ¬(a = '/' ∧ b = '/')) q) :
    (stripTrailingSlash q).getLast? = some '/' → stripTrailingSlash q = ['/'] := by
  intro hlast
  unfold stripTrailingSlash at hlast ⊢
  by_cases hc : (q ≠ ['/'] ∧ q.getLast? = some '/')
  · rw [if_pos hc] at hlast ⊢
    exfalso
    have hq1 : q.dropLast ++ ['/'] = q := dropLast_concat_of_getLast? q '/' hc.2
    have hq2 : q.dropLast.dropLast ++ ['/'] = q.dropLast :=
      dropLast_concat_of_getLast? q.dropLast '/' hlast
    have hsplit : (q.dropLast.dropLast ++ ['/', '/'] : List Char) = q := by
      rw [← hq1, ← hq2]
      simp
    rw [← hsplit] at hq
    rcases List.chain'_append.mp hq with ⟨_, hpair, _⟩
    simp [List.chain'_cons] at hpair
  · rw [if_neg hc] at hlast ⊢
    by_contra hne
    exact hc ⟨hne, hlast⟩

theorem netloc_no_stop (l : List Char) (c : Char)
    (h : c ∈ (netlocSplit l).1) : netlocStop c = false := by
  unfold netlocSplit at h
  by_cases h2 : l.take 2 = ['/', '/']
  · rw [if_pos h2] at h
    simpa using List.mem_takeWhile_imp h
  · rw [if_neg h2] at h
    simp at h

theorem canonHost_props (raw : List Char) :
    (∀ c ∈ canonHost raw, c ≠ '/') ∧
    (canonHost raw).map Char.toLower = canonHost raw ∧
    canonHost raw ≠ ("partselect.com").data := by
  unfold canonHost
  by_cases h : (urlsplitNetlocPath raw).1.map Char.toLower =
      ("partselect.com").data
  · rw [if_pos h]
    refine ⟨?_, by decide, by decide⟩
    intro c hc hc'
    subst hc'
    revert hc
    decide
  · rw [if_neg h]
    refine ⟨?_, ?_, h⟩
    · intro c hc hc'
      subst hc'
      rcases List.mem_map.mp hc with ⟨c0, hc0, hlow⟩
      have hc0s := toLower_eq_slash c0 hlow
      subst hc0s
      have hns : netlocStop '/' = false := netloc_no_stop _ _ hc0
      simp [netlocStop] at hns
    · rw [List.map_map]
      exact List.map_congr_left (fun a _ => toLower_idem a)

theorem canonPath_props (raw : List Char) :
    List.Chain' (fun a b => ¬(a = '/' ∧ b = '/')) (canonPath raw) ∧
    ((canonPath raw).getLast? = some '/' → canonPath raw = ['/']) := by
  have hchain := collapse_chain false
    (if (urlsplitNetlocPath raw).2 = [] then ['/']
     else (urlsplitNetlocPath raw).2)
  unfold canonPath
  set q := collapseAux false
    (if (urlsplitNetlocPath raw).2 = [] then ['/']
     else (urlsplitNetlocPath raw).2) with hq
  constructor
  · unfold stripTrailingSlash
    by_cases hc : q ≠ ['/'] ∧ q.getLast? = some '/'
    · rw [if_pos hc]
      exact hchain.prefix (List.dropLast_prefix q)
    · rw [if_neg hc]
      exact hchain
  · exact strip_last_slash q hchain

/-! ## Claim C9: the canonicalizer contract and its error path -/

/-- C9 counterexample: at the concrete input `"https://[abc"` the program
returns neither the empty string nor a canonical URL: the input is not
blank, and `urlparse` raises an uncaught `ValueError` (`Invalid IPv6 URL`,
modelled as `none`), so the claimed for-every-input return contract
fails. -/
theorem canonicalize_url_raises_cex :
    canonicalizeUrlE "https://[abc" = none ∧
    pyStrip "https://[abc" ≠ "" := by
  decide

/-- C9 (amended): the blank input canonicalizes to the empty string and is
the only input that does; `urlsplit` first deletes embedded tab/CR/LF
characters, and a network location holding a bracket without its partner
makes it raise `ValueError`, which `canonicalize_url` propagates instead
of returning; every other input whose network location is bracket-free
yields a secure-scheme URL whose host carries no slash, is lower-cased and
is never the bare apex host, and whose path contains no duplicate slash
runs and ends in a slash only at the root; a concrete input exercises
stripping, tab deletion, scheme forcing, host lowering, apex mapping,
slash collapsing and trailing-slash stripping; and `enqueue` leaves its
state untouched whenever the canonicalizer returns the empty string. -/
theorem canonicalize_url_contract_amended :
    (∀ u : String, canonicalizeUrlE u = some "" ↔ pyStrip u = "") ∧
    (∀ u : String, pyStrip u ≠ "" →
      invalidIPv6 (pyRemoveTabCrLf (pyStrip u)).data = true →
      canonicalizeUrlE u = none) ∧
    (∀ u : String, pyStrip u ≠ "" →
      ('[' : Char) ∉ urlNetloc (pyRemoveTabCrLf (pyStrip u)).data →
      (']' : Char) ∉ urlNetloc (pyRemoveTabCrLf (pyStrip u)).data →
      ∃ h p, canonicalizeUrlE u =
          some (String.mk (("https://").data ++ h ++ p)) ∧
        (∀ c ∈ h, c ≠ '/') ∧ h.map Char.toLower = h ∧
        h ≠ ("partselect.com").data ∧
        List.Chain' (fun a b => ¬(a = '/' ∧ b = '/')) p ∧
        (p.getLast? = some '/' → p = ['/'])) ∧
    canonicalizeUrlE " HTTP://PartSelect.com//Dishwasher\t-Parts/ " =
      some "https://www.partselect.com/Dishwasher-Parts" ∧
    (∀ (st : ServiceState) (rid url : String) (force : Bool) (now : Nat),
      canonicalizeUrl url = "" → enqueue st rid url force now = st) := by
  refine ⟨?_, ?_, ?_, by decide, ?_⟩
  · intro u
    constructor
    · intro h
      by_contra hs
      unfold canonicalizeUrlE at h
      rw [if_neg hs] at h
      by_cases hinv : invalidIPv6 (pyRemoveTabCrLf (pyStrip u)).data = true
      · rw [if_pos hinv] at h
        exact absurd h (by simp)
      · rw [if_neg hinv] at h
        have h2 := Option.some.inj h
        have hd := congrArg String.data h2
        simp at hd
    · intro h
      unfold canonicalizeUrlE
      rw [if_pos h]
  · intro u hu hinv
    unfold canonicalizeUrlE
    rw [if_neg hu, if_pos hinv]
  · intro u hu h1 h2
    have hcond : ¬((('[' : Char) ∈ urlNetloc (pyRemoveTabCrLf
          (pyStrip u)).data ∧
        (']' : Char) ∉ urlNetloc (pyRemoveTabCrLf (pyStrip u)).data) ∨
        ((']' : Char) ∈ urlNetloc (pyRemoveTabCrLf (pyStrip u)).data ∧
        ('[' : Char) ∉ urlNetloc (pyRemoveTabCrLf (pyStrip u)).data)) := by
      rintro (⟨ha, _⟩ | ⟨ha, _⟩)
      · exact h1 ha
      · exact h2 ha
    have hinv : ¬ invalidIPv6 (pyRemoveTabCrLf (pyStrip u)).data = true := by
      unfold invalidIPv6
      rw [if_neg hcond]
      simp
    refine ⟨canonHost (pyRemoveTabCrLf (pyStrip u)).data,
        canonPath (pyRemoveTabCrLf (pyStrip u)).data, ?_,
        (canonHost_props _).1, (canonHost_props _).2.1,
        (canonHost_props _).2.2, (canonPath_props _).1, (canonPath_props _).2⟩
    unfold canonicalizeUrlE
    rw [if_neg hu, if_neg hinv]
  · intro st rid url force now h
    unfold enqueue
    simp [h]

/-- Witness for C9 at concrete inputs: the blank input, the raising
bracket input, a canonical model URL, and a dropped blank enqueue. -/
theorem canonicalize_url_contract_amended_witness :
    (canonicalizeUrlE "" = some "" ↔ pyStrip "" = "") ∧
    (pyStrip "https://[abc" ≠ "" ∧
     invalidIPv6 (pyRemoveTabCrLf (pyStrip "https://[abc")).data = true ∧
     canonicalizeUrlE "https://[abc" = none) ∧
    (∃ h p, canonicalizeUrlE "https://www.partselect.com/Models/X" =
        some (String.mk (("https://").data ++ h ++ p)) ∧
      (∀ c ∈ h, c ≠ '/') ∧ h.map Char.toLower = h ∧
      h ≠ ("partselect.com").data ∧
      List.Chain' (fun a b => ¬(a = '/' ∧ b = '/')) p ∧
      (p.getLast? = some '/' → p = ['/'])) ∧
    enqueue ⟨[], 0⟩ "r" "  " false 0 = ⟨[], 0⟩ :=
  ⟨canonicalize_url_contract_amended.1 "",
   ⟨by decide, by decide,
    canonicalize_url_contract_amended.2.1 "https://[abc" (by decide)
      (by decide)⟩,
   canonicalize_url_contract_amended.2.2.1
     "https://www.partselect.com/Models/X" (by decide) (by decide)
     (by decide),
   canonicalize_url_contract_amended.2.2.2.2 ⟨[], 0⟩ "r" "  " false 0
     (by decide)⟩

/-! ## Append lemmas for the URL splitter (used for claim C10) -/

theorem splitAtFirst_none_iff (c : Char) (l : List Char) :
    splitAtFirst c l = none ↔ c ∉ l := by
  induction l with
  | nil => simp [splitAtFirst]
  | cons a t ih =>
      by_cases ha : a = c
      · subst ha
        simp [splitAtFirst]
      · rw [splitAtFirst, if_neg ha]
        cases hsp : splitAtFirst c t with
        | none =>
            simp [ih.mp hsp, Ne.symm ha]
        | some p =>
            have hmem : c ∈ t := by
              by_contra hc
              rw [ih.mpr hc] at hsp
              exact absurd hsp (by simp)
            simp [hmem]

theorem splitAtFirst_some_decomp (c : Char) (l b a : List Char)
    (h : splitAtFirst c l = some (b, a)) : l = b ++ c :: a ∧ c ∉ b := by
  induction l generalizing b a with
  | nil => simp [splitAtFirst] at h
  | cons x t ih =>
      by_cases hx : x = c
      · subst hx
        rw [splitAtFirst, if_pos rfl] at h
        have hb : b = [] := by
          have := congrArg (fun o => (o.getD ([], [])).1) h
          simpa using this.symm
        have ha : a = t := by
          have := congrArg (fun o => (o.getD ([], [])).2) h
          simpa using this.symm
        subst hb
        subst ha
        simp
      · rw [splitAtFirst, if_neg hx] at h
        cases hsp : splitAtFirst c t with
        | none => rw [hsp] at h; simp at h
        | some p =>
            rw [hsp] at h
            obtain ⟨p1, p2⟩ := p
            simp only [Option.map_some'] at h
            have hb : b = x :: p1 := by
              have := congrArg (fun o => (o.getD ([], [])).1) h
              simpa using this.symm
            have ha : a = p2 := by
              have := congrArg (fun o => (o.getD ([], [])).2) h
              simpa using this.symm
            subst hb
            subst ha
            obtain ⟨ht, hnb⟩ := ih p1 a hsp
            constructor
            · rw [ht]
              simp
            · intro hc
              rcases List.mem_cons.mp hc with hc | hc
              · exact hx hc.symm
              · exact hnb hc

theorem splitAtFirst_append_some (c : Char) (l l2 b a : List Char)
    (h : splitAtFirst c l = some (b, a)) :
    splitAtFirst c (l ++ l2) = some (b, a ++ l2) := by
  induction l generalizing b a with
  | nil => simp [splitAtFirst] at h
  | cons x t ih =>
      by_cases hx : x = c
      · subst hx
        rw [splitAtFirst, if_pos rfl] at h
        have hb : b = [] := by
          have := congrArg (fun o => (o.getD ([], [])).1) h
          simpa using this.symm
        have ha : a = t := by
          have := congrArg (fun o => (o.getD ([], [])).2) h
          simpa using this.symm
        subst hb
        subst ha
        rw [List.cons_append, splitAtFirst, if_pos rfl]
      · rw [splitAtFirst, if_neg hx] at h
        cases hsp : splitAtFirst c t with
        | none => rw [hsp] at h; simp at h
        | some p =>
            rw [hsp] at h
            obtain ⟨p1, p2⟩ := p
            simp only [Option.map_some'] at h
            have hb : b = x :: p1 := by
              have := congrArg (fun o => (o.getD ([], [])).1) h
              simpa using this.symm
            have ha : a = p2 := by
              have := congrArg (fun o => (o.getD ([], [])).2) h
              simpa using this.symm
            subst hb
            subst ha
            rw [List.cons_append, splitAtFirst, if_neg hx, ih p1 a hsp]
            simp

theorem splitAtFirst_append_none (c : Char) (l l2 : List Char) (h : c ∉ l) :
    splitAtFirst c (l ++ l2) =
      (splitAtFirst c l2).map (fun p => (l ++ p.1, p.2)) := by
  induction l with
  | nil =>
      simp only [List.nil_append]
      cases hsp : splitAtFirst c l2 <;> simp
  | cons x t ih =>
      have hx : x ≠ c := fun hc => h (by simp [hc])
      rw [List.cons_append, splitAtFirst, if_neg hx,
          ih (fun hc => h (List.mem_cons_of_mem x hc))]
      cases hsp : splitAtFirst c l2 <;> simp

theorem cutAt_append (c : Char) (l1 l2 : List Char) (h : c ∉ l1) :
    cutAt c (l1 ++ l2) = l1 ++ cutAt c l2 := by
  unfold cutAt
  rw [splitAtFirst_append_none c l1 l2 h]
  cases hsp : splitAtFirst c l2 <;> simp

theorem cutAt_cons_self (c : Char) (l : List Char) : cutAt c (c :: l) = [] := by
  simp [cutAt, splitAtFirst]

theorem cutAt_cons_ne (c a : Char) (l : List Char) (h : a ≠ c) :
    cutAt c (a :: l) = a :: cutAt c l := by
  unfold cutAt
  rw [splitAtFirst, if_neg h]
  cases hsp : splitAtFirst c l <;> simp

theorem cutAt_of_not_mem (c : Char) (l : List Char) (h : c ∉ l) :
    cutAt c l = l := by
  unfold cutAt
  rw [(splitAtFirst_none_iff c l).mpr h]

theorem splitScheme_suffix (l : List Char) : splitScheme l <:+ l := by
  unfold splitScheme
  cases hsp : splitAtFirst ':' l with
  | none => exact List.suffix_refl l
  | some p =>
      obtain ⟨before, after⟩ := p
      cases before with
      | nil => exact List.suffix_refl l
      | cons b bs =>
          dsimp only
          by_cases hcond : b.isAlpha = true ∧ (b :: bs).all schemeChar = true
          · rw [if_pos hcond]
            obtain ⟨hdec, _⟩ :=
              splitAtFirst_some_decomp ':' l (b :: bs) after hsp
            exact ⟨(b :: bs) ++ [':'], by rw [hdec]; simp⟩
          · rw [if_neg hcond]

theorem netlocSplit_snd_suffix (l : List Char) : (netlocSplit l).2 <:+ l := by
  unfold netlocSplit
  by_cases h2 : l.take 2 = ['/', '/']
  · rw [if_pos h2]
    exact (List.dropWhile_suffix _).trans (List.drop_suffix 2 l)
  · rw [if_neg h2]

theorem splitScheme_append (α γ : List Char) (m : Char)
    (hm1 : schemeChar m = false) (hm2 : m ≠ ':') :
    splitScheme (α ++ m :: γ) = splitScheme α ++ m :: γ := by
  cases hsp : splitAtFirst ':' α with
  | none =>
      have hnm : ':' ∉ α := (splitAtFirst_none_iff ':' α).mp hsp
      have hαid : splitScheme α = α := by
        unfold splitScheme
        rw [hsp]
      rw [hαid]
      unfold splitScheme
      rw [splitAtFirst_append_none ':' α (m :: γ) hnm,
          show splitAtFirst ':' (m :: γ) =
            (splitAtFirst ':' γ).map (fun p => (m :: p.1, p.2)) from by
              rw [splitAtFirst, if_neg hm2]]
      cases hg : splitAtFirst ':' γ with
      | none => simp
      | some p =>
          obtain ⟨g1, g2⟩ := p
          simp only [Option.map_some']
          cases α with
          | nil =>
              simp only [List.nil_append]
              rw [if_neg ?c1]
              case c1 =>
                rintro ⟨-, hall⟩
                rw [List.all_cons] at hall
                simp [hm1] at hall
          | cons a as =>
              simp only [List.cons_append]
              rw [if_neg ?c2]
              case c2 =>
                rintro ⟨-, hall⟩
                rw [List.all_eq_true] at hall
                have hmm : m ∈ a :: (as ++ m :: g1) := by simp
                have hsc := hall m hmm
                rw [hm1] at hsc
                exact absurd hsc (by simp)
  | some p =>
      obtain ⟨b1, a1⟩ := p
      have hcomb := splitAtFirst_append_some ':' α (m :: γ) b1 a1 hsp
      unfold splitScheme
      rw [hcomb, hsp]
      cases b1 with
      | nil => rfl
      | cons b bs =>
          dsimp only
          by_cases hcond : b.isAlpha = true ∧ (b :: bs).all schemeChar = true
          · rw [if_pos hcond, if_pos hcond]
          · rw [if_neg hcond, if_neg hcond]

theorem take2_append (α γ : List Char) (m : Char) (hm : m ≠ '/') :
    ((α ++ m :: γ).take 2 = ['/', '/']) ↔ (α.take 2 = ['/', '/']) := by
  rcases α with _ | ⟨a, _ | ⟨b, t⟩⟩
  · simp [List.take, hm]
  · simp [List.take, hm]
  · simp [List.take]

theorem netlocSplit_append (α γ : List Char) (m : Char)
    (hstop : netlocStop m = true) (hm : m ≠ '/') :
    netlocSplit (α ++ m :: γ) =
      ((netlocSplit α).1, (netlocSplit α).2 ++ m :: γ) := by
  unfold netlocSplit
  by_cases h2 : α.take 2 = ['/', '/']
  · rw [if_pos ((take2_append α γ m hm).mpr h2), if_pos h2]
    have hlen : 2 ≤ α.length := by
      have := congrArg List.length h2
      rw [List.length_take] at this
      simp at this
      omega
    rw [List.drop_append_of_le_length hlen]
    have hpm : (fun c => !netlocStop c) m = false := by simp [hstop]
    have htw : ((α.drop 2 ++ m :: γ).takeWhile (fun c => !netlocStop c)) =
        (α.drop 2).takeWhile (fun c => !netlocStop c) := by
      rw [List.takeWhile_append]
      split
      · next hcase =>
          have heq : (α.drop 2).takeWhile (fun c => !netlocStop c) = α.drop 2 :=
            (List.takeWhile_prefix _).eq_of_length hcase
          rw [List.takeWhile_cons_of_neg (by simp [hstop]), heq]
          simp
      · rfl
    have hdw : ((α.drop 2 ++ m :: γ).dropWhile (fun c => !netlocStop c)) =
        (α.drop 2).dropWhile (fun c => !netlocStop c) ++ m :: γ := by
      rw [List.dropWhile_append]
      split
      · next hcase =>
          rw [List.isEmpty_iff] at hcase
          rw [hcase, List.dropWhile_cons_of_neg (by simp [hstop])]
          simp
      · rfl
    rw [htw, hdw]
  · rw [if_neg (fun hc => h2 ((take2_append α γ m hm).mp hc)),
        if_neg h2]

theorem urlsplit_append (α γ : List Char) (m : Char)
    (hα : ∀ c ∈ α, c ≠ '?' ∧ c ≠ '#') (hm : m = '?' ∨ m = '#') :
    urlsplitNetlocPath (α ++ m :: γ) = urlsplitNetlocPath α := by
  have hm1 : schemeChar m = false := by rcases hm with h | h <;> subst h <;> decide
  have hm2 : m ≠ ':' := by rcases hm with h | h <;> subst h <;> decide
  have hm3 : m ≠ '/' := by rcases hm with h | h <;> subst h <;> decide
  have hstop : netlocStop m = true := by
    rcases hm with h | h <;> subst h <;> decide
  have hsub : ∀ c ∈ (netlocSplit (splitScheme α)).2, c ≠ '?' ∧ c ≠ '#' := by
    intro c hc
    exact hα c (((netlocSplit_snd_suffix _).trans (splitScheme_suffix α)).subset hc)
  have hq : '?' ∉ (netlocSplit (splitScheme α)).2 := fun hc => (hsub _ hc).1 rfl
  have hh : '#' ∉ (netlocSplit (splitScheme α)).2 := fun hc => (hsub _ hc).2 rfl
  unfold urlsplitNetlocPath
  rw [splitScheme_append α γ m hm1 hm2,
      netlocSplit_append (splitScheme α) γ m hstop hm3]
  simp only
  rw [cutAt_of_not_mem '#' _ hh, cutAt_of_not_mem '?' _ hq]
  rcases hm with h | h
  · subst h
    rw [cutAt_append '#' _ _ hh, cutAt_cons_ne '#' '?' γ (by decide),
        cutAt_append '?' _ _ hq, cutAt_cons_self]
    simp
  · subst h
    rw [cutAt_append '#' _ _ hh, cutAt_cons_self, List.append_nil,
        cutAt_of_not_mem '?' _ hq]

theorem dropWhile_eq_self_of_all_neg {p : Char → Bool} {l : List Char}
    (h : ∀ c ∈ l, p c = false) : l.dropWhile p = l := by
  cases l with
  | nil => rfl
  | cons a t => simp [List.dropWhile_cons, h a (List.mem_cons_self a t)]

theorem pyStrip_eq_self (s : String) (h : ∀ c ∈ s.data, pySpace c = false) :
    pyStrip s = s := by
  unfold pyStrip
  rw [dropWhile_eq_self_of_all_neg h,
      dropWhile_eq_self_of_all_neg (fun c hc => h c (List.mem_reverse.mp hc)),
      List.reverse_reverse]

/-! ## Claim C10: the canonicalizer discards query and fragment -/

/-- C10: for whitespace-free URLs, appending a query, a fragment, or both
never changes the canonical URL — the query and fragment components are
discarded by `canonicalize_url`, so URLs differing only there share one
identity key; concretely, a video media link of the form
`/Videos/?VideoID=...` loses its query when passed through `normalize_url`. -/
theorem canonicalize_drops_query_and_fragment (u q f : String)
    (hu : ∀ c ∈ u.data, pySpace c = false ∧ c ≠ '?' ∧ c ≠ '#')
    (hu0 : u ≠ "")
    (hq : ∀ c ∈ q.data, pySpace c = false)
    (hf : ∀ c ∈ f.data, pySpace c = false) :
    canonicalizeUrl (u ++ "?" ++ q) = canonicalizeUrl u ∧
    canonicalizeUrl (u ++ "#" ++ f) = canonicalizeUrl u ∧
    canonicalizeUrl (u ++ "?" ++ q ++ "#" ++ f) = canonicalizeUrl u ∧
    normalizeUrl "https://www.partselect.com/Videos/?VideoID=ABC123" =
      "https://www.partselect.com/Videos" := by
  have huns : ∀ c ∈ u.data, pySpace c = false := fun c hc => (hu c hc).1
  have huqh : ∀ c ∈ u.data, c ≠ '?' ∧ c ≠ '#' := fun c hc => (hu c hc).2
  have hustrip : pyStrip u = u := pyStrip_eq_self u huns
  have hudne : u.data ≠ [] := by
    intro hc
    exact hu0 (by cases u; simp at hc; rw [hc])
  have hune : pyStrip u ≠ "" := by
    rw [hustrip]
    exact hu0
  have main : ∀ (w : String) (γ : List Char) (m : Char),
      w.data = u.data ++ m :: γ → (∀ c ∈ γ, pySpace c = false) →
      pySpace m = false → (m = '?' ∨ m = '#') →
      canonicalizeUrl w = canonicalizeUrl u := by
    intro w γ m hwdata hγ hmns hm
    have hwns : ∀ c ∈ w.data, pySpace c = false := by
      rw [hwdata]
      intro c hc
      rcases List.mem_append.mp hc with hc | hc
      · exact huns c hc
      · rcases List.mem_cons.mp hc with hc | hc
        · rw [hc]
          exact hmns
        · exact hγ c hc
    have hwstrip : pyStrip w = w := pyStrip_eq_self w hwns
    have hwne : pyStrip w ≠ "" := by
      rw [hwstrip]
      intro hc
      have := congrArg String.data hc
      rw [hwdata] at this
      simp at this
    have hsplit : urlsplitNetlocPath w.data = urlsplitNetlocPath u.data := by
      rw [hwdata]
      exact urlsplit_append u.data γ m huqh hm
    unfold canonicalizeUrl
    rw [if_neg hwne, if_neg hune, hwstrip, hustrip]
    simp [canonHost, canonPath, hsplit]
  refine ⟨?_, ?_, ?_, by decide⟩
  · refine main (u ++ "?" ++ q) q.data '?' ?_ hq (by decide) (Or.inl rfl)
    rw [String.data_append, String.data_append]
    simp
  · refine main (u ++ "#" ++ f) f.data '#' ?_ hf (by decide) (Or.inr rfl)
    rw [String.data_append, String.data_append]
    simp
  · refine main (u ++ "?" ++ q ++ "#" ++ f) (q.data ++ '#' :: f.data) '?' ?_
      ?_ (by decide) (Or.inl rfl)
    · rw [String.data_append, String.data_append, String.data_append,
          String.data_append]
      simp
    · intro c hc
      rcases List.mem_append.mp hc with hc | hc
      · exact hq c hc
      · rcases List.mem_cons.mp hc with hc | hc
        · rw [hc]
          decide
        · exact hf c hc

/-- Witness for C10 at a concrete video URL. -/
theorem canonicalize_drops_query_and_fragment_witness :
    canonicalizeUrl ("https://www.partselect.com/Videos/" ++ "?" ++
        "VideoID=ABC123") =
      canonicalizeUrl "https://www.partselect.com/Videos/" ∧
    canonicalizeUrl ("https://www.partselect.com/Videos/" ++ "#" ++ "top") =
      canonicalizeUrl "https://www.partselect.com/Videos/" ∧
    canonicalizeUrl ("https://www.partselect.com/Videos/" ++ "?" ++
        "VideoID=ABC123" ++ "#" ++ "top") =
      canonicalizeUrl "https://www.partselect.com/Videos/" ∧
    normalizeUrl "https://www.partselect.com/Videos/?VideoID=ABC123" =
      "https://www.partselect.com/Videos" :=
  canonicalize_drops_query_and_fragment
    "https://www.partselect.com/Videos/" "VideoID=ABC123" "top"
    (by decide) (by decide) (by decide) (by decide)

/-! ## Dedup lemmas for `parse_model_page` (claim C7) -/

theorem dedupInsert_keys (acc : List (String × ParsedPart)) (p : ParsedPart) :
    (dedupInsert acc p).map (fun kv => kv.1) =
      if p.partselect_number ∈ acc.map (fun kv => kv.1)
      then acc.map (fun kv => kv.1)
      else acc.map (fun kv => kv.1) ++ [p.partselect_number] := by
  unfold dedupInsert
  by_cases h : acc.any (fun kv => decide (kv.1 = p.partselect_number)) = true
  · rw [if_pos h]
    have hmem : p.partselect_number ∈ acc.map (fun kv => kv.1) := by
      rcases List.any_eq_true.mp h with ⟨kv, hkv, hp⟩
      exact List.mem_map.mpr ⟨kv, hkv, by simpa using hp⟩
    rw [if_pos hmem, List.map_map]
    exact List.map_congr_left (fun kv _ => by
      by_cases hk : kv.1 = p.partselect_number <;> simp [hk])
  · rw [if_neg h]
    have hmem : p.partselect_number ∉ acc.map (fun kv => kv.1) := by
      intro hc
      rcases List.mem_map.mp hc with ⟨kv, hkv, hk⟩
      exact h (List.any_eq_true.mpr ⟨kv, hkv, by simp [hk]⟩)
    rw [if_neg hmem]
    simp

theorem dedup_fold_keys (ps : List ParsedPart) (acc : List (String × ParsedPart)) :
    (ps.foldl dedupInsert acc).map (fun kv => kv.1) =
      (ps.map (fun p => p.partselect_number)).foldl
        (fun ks k => if k ∈ ks then ks else ks ++ [k])
        (acc.map (fun kv => kv.1)) := by
  induction ps generalizing acc with
  | nil => rfl
  | cons p rest ih =>
      simp only [List.foldl_cons, List.map_cons]
      rw [ih, dedupInsert_keys]

theorem keyfold_nodup (ks : List String) (acc : List String) (h : acc.Nodup) :
    (ks.foldl (fun a k => if k ∈ a then a else a ++ [k]) acc).Nodup := by
  induction ks generalizing acc with
  | nil => exact h
  | cons k rest ih =>
      simp only [List.foldl_cons]
      by_cases hk : k ∈ acc
      · rw [if_pos hk]
        exact ih _ h
      · rw [if_neg hk]
        exact ih _ (by simp [List.nodup_append, h, hk])

theorem dedup_fold_keyinv (ps : List ParsedPart) (acc : List (String × ParsedPart))
    (hacc : ∀ kv ∈ acc, kv.1 = kv.2.partselect_number) :
    ∀ kv ∈ ps.foldl dedupInsert acc, kv.1 = kv.2.partselect_number := by
  induction ps generalizing acc with
  | nil => exact hacc
  | cons p rest ih =>
      simp only [List.foldl_cons]
      refine ih (dedupInsert acc p) ?_
      intro kv hkv
      unfold dedupInsert at hkv
      by_cases hany : acc.any (fun x => decide (x.1 = p.partselect_number)) = true
      · rw [if_pos hany] at hkv
        rcases List.mem_map.mp hkv with ⟨kv0, hkv0, heq⟩
        by_cases hk0 : kv0.1 = p.partselect_number
        · rw [if_pos hk0] at heq
          rw [← heq]
          exact hk0
        · rw [if_neg hk0] at heq
          rw [← heq]
          exact hacc kv0 hkv0
      · rw [if_neg hany] at hkv
        rcases List.mem_append.mp hkv with h0 | h0
        · exact hacc kv h0
        · simp at h0
          rw [h0]

theorem dedup_fold_lastvalue (ps : List ParsedPart)
    (acc : List (String × ParsedPart)) :
    ∀ kv ∈ ps.foldl dedupInsert acc,
      (ps.reverse.find? (fun q => q.partselect_number = kv.1) = some kv.2) ∨
      ((∀ q ∈ ps, q.partselect_number ≠ kv.1) ∧ kv ∈ acc) := by
  induction ps generalizing acc with
  | nil =>
      intro kv hkv
      exact Or.inr ⟨by simp, hkv⟩
  | cons p rest ih =>
      intro kv hkv
      simp only [List.foldl_cons] at hkv
      rcases ih (dedupInsert acc p) kv hkv with hfound | ⟨hnone, hmem⟩
      · left
        simp only [List.reverse_cons]
        rw [List.find?_append, hfound]
        rfl
      · by_cases hkey : kv.1 = p.partselect_number
        · left
          have hval : kv.2 = p := by
            unfold dedupInsert at hmem
            by_cases hany :
                acc.any (fun x => decide (x.1 = p.partselect_number)) = true
            · rw [if_pos hany] at hmem
              rcases List.mem_map.mp hmem with ⟨kv0, hkv0, heq⟩
              by_cases hk0 : kv0.1 = p.partselect_number
              · rw [if_pos hk0] at heq
                rw [← heq]
              · rw [if_neg hk0] at heq
                rw [← heq] at hkey
                exact absurd hkey hk0
            · rw [if_neg hany] at hmem
              rcases List.mem_append.mp hmem with h0 | h0
              · exact absurd
                  (List.any_eq_true.mpr ⟨kv, h0, by simp [hkey]⟩) hany
              · simp at h0
                rw [h0]
          simp only [List.reverse_cons]
          rw [List.find?_append]
          have hrnone : rest.reverse.find?
              (fun q => decide (q.partselect_number = kv.1)) = none := by
            rw [List.find?_eq_none]
            intro q hq
            simp [hnone q (List.mem_reverse.mp hq)]
          rw [hrnone]
          simp [List.find?_cons, hkey, hval]
        · right
          constructor
          · intro q hq
            rcases List.mem_cons.mp hq with hq | hq
            · rw [hq]
              exact fun hc => hkey hc.symm
            · exact hnone q hq
          · unfold dedupInsert at hmem
            by_cases hany :
                acc.any (fun x => decide (x.1 = p.partselect_number)) = true
            · rw [if_pos hany] at hmem
              rcases List.mem_map.mp hmem with ⟨kv0, hkv0, heq⟩
              by_cases hk0 : kv0.1 = p.partselect_number
              · rw [if_pos hk0] at heq
                rw [← heq] at hkey
                simp at hkey
                exact absurd hk0 hkey
              · rw [if_neg hk0] at heq
                rw [← heq]
                exact hkv0
            · rw [if_neg hany] at hmem
              rcases List.mem_append.mp hmem with h0 | h0
              · exact h0
              · simp at h0
                rw [h0] at hkey
                simp at hkey

theorem dedupByPS_props (ps : List ParsedPart) :
    ((dedupByPS ps).map (fun p => p.partselect_number)).Nodup ∧
    (dedupByPS ps).map (fun p => p.partselect_number) =
      eraseDupKeepFirst (ps.map (fun p => p.partselect_number)) ∧
    ∀ p ∈ dedupByPS ps,
      ps.reverse.find? (fun q => q.partselect_number = p.partselect_number) =
        some p := by
  have hkeyinv := dedup_fold_keyinv ps [] (by simp)
  have hkeys : (dedupByPS ps).map (fun p => p.partselect_number) =
      (ps.foldl dedupInsert []).map (fun kv => kv.1) := by
    unfold dedupByPS
    rw [List.map_map]
    exact (List.map_congr_left
      (fun kv hkv => (hkeyinv kv hkv).symm))
  refine ⟨?_, ?_, ?_⟩
  · rw [hkeys, dedup_fold_keys]
    exact keyfold_nodup _ [] (by simp)
  · rw [hkeys, dedup_fold_keys]
    rfl
  · intro p hp
    unfold dedupByPS at hp
    rcases List.mem_map.mp hp with ⟨kv, hkv, hval⟩
    have hk := hkeyinv kv hkv
    rcases dedup_fold_lastvalue ps [] kv hkv with hfound | ⟨_, hmem⟩
    · rw [← hval, ← hk]
      exact hfound
    · simp at hmem

/-! ## Claim C7: model-page parsing -/

/-- C7 counterexample: the claim states that the dedup preserves the first
occurrence of each part number; on a model page that links the same part
number twice with different slugs, the parsed part carries the second
occurrence's manufacturer number and URL (the dictionary assignment
overwrites the value), not the first occurrence's, which a keep-first dedup
would retain. -/
theorem parse_model_dedup_keeps_last_cex :
    (parseModelPage c7Url c7MdDup c7Title).map
        (fun m => m.parts.map (fun p =>
          (p.manufacturer_part_number, p.part_url))) =
      some [(some "M2",
        "https://www.partselect.com/PS3406971-Whirlpool-M2-Lower.htm")] ∧
    (dedupByPSKeepFirstSpec c7DupParts).map (fun p =>
        (p.manufacturer_part_number, p.part_url)) =
      [(some "M1",
        "https://www.partselect.com/PS3406971-Whirlpool-M1-Lower.htm")] ∧
    ((splitOnChar '-' ("PS3406971-Whirlpool-M1-Lower.htm").data).get? 2).map
        String.mk = some "M1" ∧
    ((some "M2" : Option String) = some "M1" → False) := by
  refine ⟨by decide, by decide, by decide, by decide⟩

/-- C7 (amended): on the scenario markdown, `parse_model_page` yields model
number WDT780SAEM1 with exactly the two deduplicated parts of the model
section (the link after the `Common Symptoms` marker is excluded) and
manufacturer numbers from the third dash token of each slug; in general the
dedup keys are duplicate-free and ordered by first occurrence, while each
retained part is the last occurrence of its part number. -/
theorem parse_model_page_section_and_dedup :
    (∃ m, parseModelPage c7Url c7Md c7Title = some m ∧
      m.model_number = "WDT780SAEM1" ∧
      m.parts.length = 2 ∧
      m.parts.map (fun p => p.partselect_number) =
        ["PS3406971", "PS3406972"] ∧
      m.parts.map (fun p => p.manufacturer_part_number) =
        [some "W10195416", some "W10195417"]) ∧
    (∀ ps : List ParsedPart,
      ((dedupByPS ps).map (fun p => p.partselect_number)).Nodup ∧
      (dedupByPS ps).map (fun p => p.partselect_number) =
        eraseDupKeepFirst (ps.map (fun p => p.partselect_number)) ∧
      ∀ p ∈ dedupByPS ps,
        ps.reverse.find? (fun q =>
          q.partselect_number = p.partselect_number) = some p) := by
  constructor
  · refine ⟨_, rfl, by decide, by decide, by decide, by decide⟩
  · exact dedupByPS_props

/-- Witness for C7 instantiating the dedup properties at a concrete list. -/
theorem parse_model_page_section_and_dedup_witness :
    ((dedupByPS c7DupParts).map (fun p => p.partselect_number)).Nodup ∧
    (dedupByPS c7DupParts).map (fun p => p.partselect_number) =
      eraseDupKeepFirst (c7DupParts.map (fun p => p.partselect_number)) ∧
    ∀ p ∈ dedupByPS c7DupParts,
      c7DupParts.reverse.find? (fun q =>
        q.partselect_number = p.partselect_number) = some p :=
  parse_model_page_section_and_dedup.2 c7DupParts

/-! ## Claim C5: fetch strategy selection -/

theorem pick_fold_spec (l : List Candidate) (b : Candidate) :
    ∃ c, l.foldl pickStep (some b) = some c ∧
      b.word_count ≤ c.word_count ∧
      (∀ x ∈ l, x.word_count ≤ c.word_count) ∧
      (c = b ∨ ∃ pre suf, l = pre ++ c :: suf ∧
        b.word_count < c.word_count ∧
        ∀ x ∈ pre, x.word_count < c.word_count) := by
  induction l generalizing b with
  | nil => exact ⟨b, rfl, Nat.le_refl _, by simp, Or.inl rfl⟩
  | cons x t ih =>
      simp only [List.foldl_cons]
      rw [show pickStep (some b) x =
        if x.word_count > b.word_count then some x else some b from rfl]
      by_cases h : x.word_count > b.word_count
      · obtain ⟨c, hc, hbc, hall, hdec⟩ := ih x
        rw [if_pos h]
        refine ⟨c, hc, Nat.le_trans (Nat.le_of_lt h) hbc, ?_, ?_⟩
        · intro y hy
          rcases List.mem_cons.mp hy with hy | hy
          · rw [hy]
            exact hbc
          · exact hall y hy
        · rcases hdec with rfl | ⟨pre, suf, hps, hblt, hpre⟩
          · exact Or.inr ⟨[], t, by simp, h, by simp⟩
          · refine Or.inr ⟨x :: pre, suf, by rw [hps]; rfl, ?_, ?_⟩
            · exact Nat.lt_trans h hblt
            · intro y hy
              rcases List.mem_cons.mp hy with hy | hy
              · rw [hy]
                exact hblt
              · exact hpre y hy
      · obtain ⟨c, hc, hbc, hall, hdec⟩ := ih b
        rw [if_neg h]
        refine ⟨c, hc, hbc, ?_, ?_⟩
        · intro y hy
          rcases List.mem_cons.mp hy with hy | hy
          · rw [hy]
            exact Nat.le_trans (Nat.le_of_not_lt h) hbc
          · exact hall y hy
        · rcases hdec with rfl | ⟨pre, suf, hps, hblt, hpre⟩
          · exact Or.inl rfl
          · refine Or.inr ⟨x :: pre, suf, by rw [hps]; rfl, hblt, ?_⟩
            intro y hy
            rcases List.mem_cons.mp hy with hy | hy
            · rw [hy]
              exact Nat.lt_of_le_of_lt (Nat.le_of_not_lt h) hblt
            · exact hpre y hy

theorem pickBest_spec (cands : List Candidate) (h : cands ≠ []) :
    ∃ c, pickBest cands = some c ∧
      (∀ x ∈ cands, x.word_count ≤ c.word_count) ∧
      ∃ pre suf, cands = pre ++ c :: suf ∧
        ∀ x ∈ pre, x.word_count < c.word_count := by
  match cands, h with
  | c0 :: rest, _ =>
      obtain ⟨c, hc, hbc, hall, hdec⟩ := pick_fold_spec rest c0
      refine ⟨c, ?_, ?_, ?_⟩
      · unfold pickBest
        simp only [List.foldl_cons]
        exact hc
      · intro x hx
        rcases List.mem_cons.mp hx with hx | hx
        · rw [hx]
          exact hbc
        · exact hall x hx
      · rcases hdec with rfl | ⟨pre, suf, hps, hblt, hpre⟩
        · exact ⟨[], rest, rfl, by simp⟩
        · refine ⟨c0 :: pre, suf, by rw [hps]; rfl, ?_⟩
          intro x hx
          rcases List.mem_cons.mp hx with hx | hx
          · rw [hx]
            exact hblt
          · exact hpre x hx

theorem crawl_fold_eq_pick_fold (l : List (String × FetchOutcome))
    (hres : ∀ a ∈ l, isResOutcome a.2 = true) :
    ∀ init : Option Candidate,
      l.foldl crawlStep init = (l.map candOf).foldl pickStep init := by
  induction l with
  | nil => intro init; rfl
  | cons a t ih =>
      intro init
      obtain ⟨nm, out⟩ := a
      cases out with
      | res r =>
          simp only [List.foldl_cons, List.map_cons]
          rw [show crawlStep init (nm, FetchOutcome.res r) =
              pickStep init (candOf (nm, FetchOutcome.res r)) from by
            cases init <;> rfl]
          exact ih (fun a ha => hres a (List.mem_cons_of_mem _ ha)) _
      | exn m =>
          have := hres (nm, FetchOutcome.exn m) (List.mem_cons_self _ _)
          simp [isResOutcome] at this

theorem crawlBest_eq_pickBest (attempts : List (String × FetchOutcome))
    (hres : ∀ a ∈ attempts, isResOutcome a.2 = true) :
    crawlBest attempts = pickBest (resCandidates attempts) :=
  crawl_fold_eq_pick_fold attempts hres none

/-- C5 counterexample: the claim states that, among the attempts that report
success, the candidate with the largest word count is returned; here the
first attempt fails but carries three words of markdown while the second
attempt succeeds with one word, and the selector returns the failed first
attempt — the success flag plays no role in the selection. -/
theorem crawl_best_ignores_success_cex :
    (crawlBest c5CexAttempts).map (fun c => (c.strategy, c.success)) =
      some ("baseline", false) ∧
    (c5CexAttempts.get? 1).map (fun a =>
      match a.2 with
      | FetchOutcome.res r => r.success
      | FetchOutcome.exn _ => false) = some true ∧
    ((false : Bool) = true → False) := by
  refine ⟨by decide, by decide, by decide⟩

/-- C5 (amended): all strategies run without short-circuiting and the
selector returns the candidate with the largest word count among all
non-exception attempts regardless of the success flag, keeping the earliest
attempted strategy on ties; word counts [50, 120, 80] select the second
attempt, and three failed attempts with empty content return the first
attempt's error record. -/
theorem crawl_best_selection :
    (∀ attempts : List (String × FetchOutcome),
      attempts ≠ [] →
      (∀ a ∈ attempts, isResOutcome a.2 = true) →
      ∃ c, crawlBest attempts = some c ∧
        (∀ c' ∈ resCandidates attempts, c'.word_count ≤ c.word_count) ∧
        ∃ pre suf, resCandidates attempts = pre ++ c :: suf ∧
          ∀ c' ∈ pre, c'.word_count < c.word_count) ∧
    (crawlBest c5Scenario).map (fun c => (c.strategy, c.word_count)) =
      some ("wait_body", 120) ∧
    (crawlBest c5AllFail).map (fun c => (c.strategy, c.success, c.error)) =
      some ("baseline", false, some "E1") := by
  refine ⟨?_, by decide, by decide⟩
  intro attempts hne hres
  rw [crawlBest_eq_pickBest attempts hres]
  have hcne : resCandidates attempts ≠ [] := by
    unfold resCandidates
    intro hc
    exact hne (List.map_eq_nil_iff.mp hc)
  exact pickBest_spec (resCandidates attempts) hcne

/-- Witness for C5 at the three-strategy scenario. -/
theorem crawl_best_selection_witness :
    ∃ c, crawlBest c5Scenario = some c ∧
      (∀ c' ∈ resCandidates c5Scenario, c'.word_count ≤ c.word_count) ∧
      ∃ pre suf, resCandidates c5Scenario = pre ++ c :: suf ∧
        ∀ c' ∈ pre, c'.word_count < c.word_count :=
  crawl_best_selection.1 c5Scenario (by decide) (by decide)

/-! ## Keyed upsert theory (claims C1 and C6) -/

section UpsertTheory

variable {R P K : Type} [DecidableEq K]
variable (rkey : R → K) (pkey : P → K)
variable (upd : P → R → R) (mkNew : Nat → P → R)

theorem any_key_eq_mem (rows : List R) (k : K) :
    rows.any (fun r => rkey r = k) = true ↔ k ∈ rows.map rkey := by
  rw [List.any_eq_true]
  constructor
  · rintro ⟨r, hr, hk⟩
    exact List.mem_map.mpr ⟨r, hr, by simpa using hk⟩
  · rintro hm
    rcases List.mem_map.mp hm with ⟨r, hr, hk⟩
    exact ⟨r, hr, by simp [hk]⟩

theorem find?_key_none_iff (rows : List R) (k : K) :
    rows.find? (fun r => rkey r = k) = none ↔ k ∉ rows.map rkey := by
  rw [List.find?_eq_none]
  constructor
  · intro h hm
    rcases List.mem_map.mp hm with ⟨r, hr, hk⟩
    exact h r hr (by simp [hk])
  · intro h r hr hk
    exact h (List.mem_map.mpr ⟨r, hr, by simpa using hk⟩)

theorem upsertBy_find_present
    (hkeyu : ∀ p r, rkey (upd p r) = rkey r)
    (s : List R × Nat) (p : P) (r : R)
    (h : s.1.find? (fun x => rkey x = pkey p) = some r) :
    (upsertBy rkey pkey upd mkNew s p).1.find?
      (fun x => rkey x = pkey p) = some (upd p r) := by
  have hmem := List.mem_of_find?_eq_some h
  have hp := List.find?_some h
  have hany : s.1.any (fun x => decide (rkey x = pkey p)) = true :=
    List.any_eq_true.mpr ⟨r, hmem, hp⟩
  unfold upsertBy
  rw [if_pos hany]
  rw [find?_map_comm _ _ (fun a => by
    by_cases ha : rkey a = pkey p
    · simp [ha, hkeyu]
    · simp [ha]), h]
  have : rkey r = pkey p := by simpa using hp
  simp [this]

theorem upsertBy_find_absent
    (hkeyn : ∀ i p, rkey (mkNew i p) = pkey p)
    (s : List R × Nat) (p : P)
    (h : s.1.find? (fun x => rkey x = pkey p) = none) :
    (upsertBy rkey pkey upd mkNew s p).1.find?
      (fun x => rkey x = pkey p) = some (mkNew s.2 p) := by
  have hnm : pkey p ∉ s.1.map rkey := (find?_key_none_iff rkey s.1 _).mp h
  have hany : ¬ s.1.any (fun x => decide (rkey x = pkey p)) = true := by
    intro hc
    exact hnm ((any_key_eq_mem rkey s.1 _).mp hc)
  unfold upsertBy
  rw [if_neg hany]
  rw [List.find?_append, h]
  simp [List.find?_cons, hkeyn]

theorem upsertBy_find_other
    (hkeyu : ∀ p r, rkey (upd p r) = rkey r)
    (hkeyn : ∀ i p, rkey (mkNew i p) = pkey p)
    (s : List R × Nat) (p : P) (k : K) (hk : k ≠ pkey p) :
    (upsertBy rkey pkey upd mkNew s p).1.find? (fun x => rkey x = k) =
      s.1.find? (fun x => rkey x = k) := by
  unfold upsertBy
  by_cases hany : s.1.any (fun x => decide (rkey x = pkey p)) = true
  · rw [if_pos hany]
    rw [find?_map_comm _ _ (fun a => by
      by_cases ha : rkey a = pkey p
      · simp [ha, hkeyu, Ne.symm hk]
      · simp [ha])]
    cases hf : s.1.find? (fun x => rkey x = k) with
    | none => simp
    | some r =>
        have hp : rkey r = k := by simpa using List.find?_some hf
        have : ¬(rkey r = pkey p) := by rw [hp]; exact hk
        simp [this]
  · rw [if_neg hany]
    rw [List.find?_append]
    cases hf : s.1.find? (fun x => rkey x = k) with
    | none =>
        simp only [Option.none_or]
        rw [List.find?_cons_of_neg]
        · rfl
        · simp [hkeyn, Ne.symm hk]
    | some r => rfl

theorem upsertBy_keys (s : List R × Nat) (p : P)
    (hkeyu : ∀ p r, rkey (upd p r) = rkey r)
    (hkeyn : ∀ i p, rkey (mkNew i p) = pkey p) :
    (upsertBy rkey pkey upd mkNew s p).1.map rkey =
      if pkey p ∈ s.1.map rkey then s.1.map rkey
      else s.1.map rkey ++ [pkey p] := by
  unfold upsertBy
  by_cases hany : s.1.any (fun x => decide (rkey x = pkey p)) = true
  · rw [if_pos hany, if_pos ((any_key_eq_mem rkey s.1 _).mp hany)]
    rw [List.map_map]
    exact List.map_congr_left (fun r _ => by
      by_cases hr : rkey r = pkey p <;> simp [hr, hkeyu])
  · rw [if_neg hany, if_neg (fun hm =>
      hany ((any_key_eq_mem rkey s.1 _).mpr hm))]
    simp [hkeyn]

theorem upsertBy_snd (s : List R × Nat) (p : P) :
    (upsertBy rkey pkey upd mkNew s p).2 =
      if pkey p ∈ s.1.map rkey then s.2 else s.2 + 1 := by
  unfold upsertBy
  by_cases hany : s.1.any (fun x => decide (rkey x = pkey p)) = true
  · rw [if_pos hany, if_pos ((any_key_eq_mem rkey s.1 _).mp hany)]
  · rw [if_neg hany, if_neg (fun hm =>
      hany ((any_key_eq_mem rkey s.1 _).mpr hm))]

theorem find?_key_isSome (rows : List R) (k : K) (h : k ∈ rows.map rkey) :
    (rows.find? (fun r => rkey r = k)).isSome = true := by
  cases hf : rows.find? (fun r => rkey r = k) with
  | none => exact absurd h ((find?_key_none_iff rkey rows k).mp hf)
  | some r => rfl

theorem upsertBy_key_present
    (hkeyu : ∀ p r, rkey (upd p r) = rkey r)
    (hkeyn : ∀ i p, rkey (mkNew i p) = pkey p) (s : List R × Nat) (p : P) :
    ((upsertBy rkey pkey upd mkNew s p).1.find?
      (fun x => rkey x = pkey p)).isSome = true := by
  cases hf : s.1.find? (fun x => rkey x = pkey p) with
  | none =>
      rw [upsertBy_find_absent rkey pkey upd mkNew hkeyn s p hf]
      rfl
  | some r =>
      rw [upsertBy_find_present rkey pkey upd mkNew hkeyu s p r hf]
      rfl

theorem chainUpd_invar {A : Type} (f : R → A)
    (hf : ∀ p r, f (upd p r) = f r) :
    ∀ (os : List P) (r : R), f (chainUpd upd os r) = f r := by
  intro os
  induction os with
  | nil => intro r; rfl
  | cons o os ih =>
      intro r
      rw [show chainUpd upd (o :: os) r = chainUpd upd os (upd o r) from rfl,
          ih, hf]

theorem chainUpd_cons (o : P) (os : List P) (r : R) :
    chainUpd upd (o :: os) r = chainUpd upd os (upd o r) := rfl

theorem chainUpd_snoc (os : List P) (o : P) (r : R) :
    chainUpd upd (os ++ [o]) r = upd o (chainUpd upd os r) := by
  unfold chainUpd
  rw [List.foldl_append]
  rfl

theorem applyUpserts_find_present
    (hkeyu : ∀ p r, rkey (upd p r) = rkey r)
    (hkeyn : ∀ i p, rkey (mkNew i p) = pkey p) :
    ∀ (ps : List P) (rows : List R) (n : Nat) (k : K) (r0 : R),
      rows.find? (fun r => rkey r = k) = some r0 →
      (applyUpserts rkey pkey upd mkNew (rows, n) ps).1.find?
          (fun r => rkey r = k) =
        some (chainUpd upd (ps.filter (fun p => pkey p = k)) r0) := by
  intro ps
  induction ps with
  | nil => intro rows n k r0 h; exact h
  | cons p rest ih =>
      intro rows n k r0 h
      rw [show applyUpserts rkey pkey upd mkNew (rows, n) (p :: rest) =
        applyUpserts rkey pkey upd mkNew
          (upsertBy rkey pkey upd mkNew (rows, n) p) rest from rfl]
      by_cases hk : pkey p = k
      · have hstep : (upsertBy rkey pkey upd mkNew (rows, n) p).1.find?
            (fun r => rkey r = pkey p) = some (upd p r0) := by
          apply upsertBy_find_present rkey pkey upd mkNew hkeyu
          rw [hk]
          exact h
        rw [hk] at hstep
        have := ih (upsertBy rkey pkey upd mkNew (rows, n) p).1
          (upsertBy rkey pkey upd mkNew (rows, n) p).2 k (upd p r0)
          hstep
        rw [show ((upsertBy rkey pkey upd mkNew (rows, n) p).1,
            (upsertBy rkey pkey upd mkNew (rows, n) p).2) =
          upsertBy rkey pkey upd mkNew (rows, n) p from rfl] at this
        rw [this, List.filter_cons, if_pos (by simp [hk]), chainUpd_cons]
      · have hstep : (upsertBy rkey pkey upd mkNew (rows, n) p).1.find?
            (fun r => rkey r = k) = some r0 := by
          rw [upsertBy_find_other rkey pkey upd mkNew hkeyu hkeyn _ _ k
            (fun hc => hk hc.symm)]
          exact h
        have := ih (upsertBy rkey pkey upd mkNew (rows, n) p).1
          (upsertBy rkey pkey upd mkNew (rows, n) p).2 k r0 hstep
        rw [show ((upsertBy rkey pkey upd mkNew (rows, n) p).1,
            (upsertBy rkey pkey upd mkNew (rows, n) p).2) =
          upsertBy rkey pkey upd mkNew (rows, n) p from rfl] at this
        rw [this, List.filter_cons, if_neg (by simp [hk])]

theorem applyUpserts_find_absent
    (hkeyu : ∀ p r, rkey (upd p r) = rkey r)
    (hkeyn : ∀ i p, rkey (mkNew i p) = pkey p) :
    ∀ (ps : List P) (rows : List R) (n : Nat) (k : K),
      rows.find? (fun r => rkey r = k) = none →
      (ps.filter (fun p => pkey p = k) = [] ∧
        (applyUpserts rkey pkey upd mkNew (rows, n) ps).1.find?
          (fun r => rkey r = k) = none) ∨
      (∃ o os' i, ps.filter (fun p => pkey p = k) = o :: os' ∧
        (applyUpserts rkey pkey upd mkNew (rows, n) ps).1.find?
            (fun r => rkey r = k) =
          some (chainUpd upd os' (mkNew i o))) := by
  intro ps
  induction ps with
  | nil => intro rows n k h; exact Or.inl ⟨rfl, h⟩
  | cons p rest ih =>
      intro rows n k h
      rw [show applyUpserts rkey pkey upd mkNew (rows, n) (p :: rest) =
        applyUpserts rkey pkey upd mkNew
          (upsertBy rkey pkey upd mkNew (rows, n) p) rest from rfl]
      by_cases hk : pkey p = k
      · have hstep : (upsertBy rkey pkey upd mkNew (rows, n) p).1.find?
            (fun r => rkey r = pkey p) = some (mkNew n p) := by
          apply upsertBy_find_absent rkey pkey upd mkNew hkeyn
          rw [hk]
          exact h
        rw [hk] at hstep
        right
        refine ⟨p, rest.filter (fun q => pkey q = k), n, ?_, ?_⟩
        · rw [List.filter_cons, if_pos (by simp [hk])]
        · have := applyUpserts_find_present rkey pkey upd mkNew hkeyu hkeyn
            rest (upsertBy rkey pkey upd mkNew (rows, n) p).1
            (upsertBy rkey pkey upd mkNew (rows, n) p).2 k (mkNew n p) hstep
          rw [show ((upsertBy rkey pkey upd mkNew (rows, n) p).1,
              (upsertBy rkey pkey upd mkNew (rows, n) p).2) =
            upsertBy rkey pkey upd mkNew (rows, n) p from rfl] at this
          exact this
      · have hstep : (upsertBy rkey pkey upd mkNew (rows, n) p).1.find?
            (fun r => rkey r = k) = none := by
          rw [upsertBy_find_other rkey pkey upd mkNew hkeyu hkeyn _ _ k
            (fun hc => hk hc.symm)]
          exact h
        have := ih (upsertBy rkey pkey upd mkNew (rows, n) p).1
          (upsertBy rkey pkey upd mkNew (rows, n) p).2 k hstep
        rw [show ((upsertBy rkey pkey upd mkNew (rows, n) p).1,
            (upsertBy rkey pkey upd mkNew (rows, n) p).2) =
          upsertBy rkey pkey upd mkNew (rows, n) p from rfl] at this
        rw [List.filter_cons, if_neg (by simp [hk])]
        exact this

theorem applyUpserts_keys_nodup
    (hkeyu : ∀ p r, rkey (upd p r) = rkey r)
    (hkeyn : ∀ i p, rkey (mkNew i p) = pkey p) :
    ∀ (ps : List P) (rows : List R) (n : Nat),
      (rows.map rkey).Nodup →
      ((applyUpserts rkey pkey upd mkNew (rows, n) ps).1.map rkey).Nodup := by
  intro ps
  induction ps with
  | nil => intro rows n h; exact h
  | cons p rest ih =>
      intro rows n h
      rw [show applyUpserts rkey pkey upd mkNew (rows, n) (p :: rest) =
        applyUpserts rkey pkey upd mkNew
          (upsertBy rkey pkey upd mkNew (rows, n) p) rest from rfl]
      have hk := upsertBy_keys rkey pkey upd mkNew (rows, n) p hkeyu hkeyn
      have := ih (upsertBy rkey pkey upd mkNew (rows, n) p).1
        (upsertBy rkey pkey upd mkNew (rows, n) p).2
      rw [show ((upsertBy rkey pkey upd mkNew (rows, n) p).1,
          (upsertBy rkey pkey upd mkNew (rows, n) p).2) =
        upsertBy rkey pkey upd mkNew (rows, n) p from rfl] at this
      apply this
      rw [hk]
      by_cases hm : pkey p ∈ rows.map rkey
      · rw [if_pos hm]
        exact h
      · rw [if_neg hm]
        simp [List.nodup_append, h, hm]

theorem applyUpserts_mono_keys
    (hkeyu : ∀ p r, rkey (upd p r) = rkey r)
    (hkeyn : ∀ i p, rkey (mkNew i p) = pkey p) :
    ∀ (ps : List P) (rows : List R) (n : Nat) (k : K),
      k ∈ rows.map rkey →
      k ∈ (applyUpserts rkey pkey upd mkNew (rows, n) ps).1.map rkey := by
  intro ps
  induction ps with
  | nil => intro rows n k h; exact h
  | cons p rest ih =>
      intro rows n k h
      rw [show applyUpserts rkey pkey upd mkNew (rows, n) (p :: rest) =
        applyUpserts rkey pkey upd mkNew
          (upsertBy rkey pkey upd mkNew (rows, n) p) rest from rfl]
      have := ih (upsertBy rkey pkey upd mkNew (rows, n) p).1
        (upsertBy rkey pkey upd mkNew (rows, n) p).2 k
      rw [show ((upsertBy rkey pkey upd mkNew (rows, n) p).1,
          (upsertBy rkey pkey upd mkNew (rows, n) p).2) =
        upsertBy rkey pkey upd mkNew (rows, n) p from rfl] at this
      apply this
      rw [upsertBy_keys rkey pkey upd mkNew (rows, n) p hkeyu hkeyn]
      by_cases hm : pkey p ∈ rows.map rkey
      · rw [if_pos hm]
        exact h
      · rw [if_neg hm]
        exact List.mem_append_left _ h

theorem applyUpserts_covers
    (hkeyu : ∀ p r, rkey (upd p r) = rkey r)
    (hkeyn : ∀ i p, rkey (mkNew i p) = pkey p) :
    ∀ (ps : List P) (rows : List R) (n : Nat) (p : P), p ∈ ps →
      pkey p ∈ (applyUpserts rkey pkey upd mkNew (rows, n) ps).1.map rkey := by
  intro ps
  induction ps with
  | nil => intro rows n p h; simp at h
  | cons q rest ih =>
      intro rows n p h
      rw [show applyUpserts rkey pkey upd mkNew (rows, n) (q :: rest) =
        applyUpserts rkey pkey upd mkNew
          (upsertBy rkey pkey upd mkNew (rows, n) q) rest from rfl]
      rcases List.mem_cons.mp h with h | h
      · subst h
        have hmem : pkey p ∈ (upsertBy rkey pkey upd mkNew (rows, n) p).1.map
            rkey := by
          rw [upsertBy_keys rkey pkey upd mkNew (rows, n) p hkeyu hkeyn]
          by_cases hm : pkey p ∈ rows.map rkey
          · rw [if_pos hm]
            exact hm
          · rw [if_neg hm]
            exact List.mem_append_right _ (by simp)
        have := applyUpserts_mono_keys rkey pkey upd mkNew hkeyu hkeyn rest
          (upsertBy rkey pkey upd mkNew (rows, n) p).1
          (upsertBy rkey pkey upd mkNew (rows, n) p).2 (pkey p) hmem
        rw [show ((upsertBy rkey pkey upd mkNew (rows, n) p).1,
            (upsertBy rkey pkey upd mkNew (rows, n) p).2) =
          upsertBy rkey pkey upd mkNew (rows, n) p from rfl] at this
        exact this
      · have := ih (upsertBy rkey pkey upd mkNew (rows, n) q).1
          (upsertBy rkey pkey upd mkNew (rows, n) q).2 p h
        rw [show ((upsertBy rkey pkey upd mkNew (rows, n) q).1,
            (upsertBy rkey pkey upd mkNew (rows, n) q).2) =
          upsertBy rkey pkey upd mkNew (rows, n) q from rfl] at this
        exact this

theorem applyUpserts_all_present
    (hkeyu : ∀ p r, rkey (upd p r) = rkey r)
    (hkeyn : ∀ i p, rkey (mkNew i p) = pkey p) :
    ∀ (ps : List P) (rows : List R) (n : Nat),
      (∀ p ∈ ps, pkey p ∈ rows.map rkey) →
      (applyUpserts rkey pkey upd mkNew (rows, n) ps).1.map rkey =
        rows.map rkey ∧
      (applyUpserts rkey pkey upd mkNew (rows, n) ps).2 = n := by
  intro ps
  induction ps with
  | nil => intro rows n _; exact ⟨rfl, rfl⟩
  | cons p rest ih =>
      intro rows n h
      have hm : pkey p ∈ rows.map rkey := h p (by simp)
      have hkeys : (upsertBy rkey pkey upd mkNew (rows, n) p).1.map rkey =
          rows.map rkey := by
        rw [upsertBy_keys rkey pkey upd mkNew (rows, n) p hkeyu hkeyn,
            if_pos hm]
      have hsnd : (upsertBy rkey pkey upd mkNew (rows, n) p).2 = n := by
        rw [upsertBy_snd rkey pkey upd mkNew (rows, n) p, if_pos hm]
      rw [show applyUpserts rkey pkey upd mkNew (rows, n) (p :: rest) =
        applyUpserts rkey pkey upd mkNew
          (upsertBy rkey pkey upd mkNew (rows, n) p) rest from rfl]
      have := ih (upsertBy rkey pkey upd mkNew (rows, n) p).1
        (upsertBy rkey pkey upd mkNew (rows, n) p).2
        (fun q hq => by rw [hkeys]; exact h q (List.mem_cons_of_mem _ hq))
      rw [show ((upsertBy rkey pkey upd mkNew (rows, n) p).1,
          (upsertBy rkey pkey upd mkNew (rows, n) p).2) =
        upsertBy rkey pkey upd mkNew (rows, n) p from rfl] at this
      rw [this.1, this.2, hkeys, hsnd]
      exact ⟨rfl, rfl⟩

theorem applyUpserts_counter_free
    (hmk : ∀ i j p, mkNew i p = mkNew j p) :
    ∀ (ps : List P) (rows : List R) (n m : Nat),
      (applyUpserts rkey pkey upd mkNew (rows, n) ps).1 =
        (applyUpserts rkey pkey upd mkNew (rows, m) ps).1 := by
  intro ps
  induction ps with
  | nil => intro rows n m; rfl
  | cons p rest ih =>
      intro rows n m
      rw [show applyUpserts rkey pkey upd mkNew (rows, n) (p :: rest) =
        applyUpserts rkey pkey upd mkNew
          (upsertBy rkey pkey upd mkNew (rows, n) p) rest from rfl,
          show applyUpserts rkey pkey upd mkNew (rows, m) (p :: rest) =
        applyUpserts rkey pkey upd mkNew
          (upsertBy rkey pkey upd mkNew (rows, m) p) rest from rfl]
      have hrows : (upsertBy rkey pkey upd mkNew (rows, n) p).1 =
          (upsertBy rkey pkey upd mkNew (rows, m) p).1 := by
        unfold upsertBy
        by_cases hany : rows.any (fun r => decide (rkey r = pkey p)) = true
        · rw [if_pos hany, if_pos hany]
        · rw [if_neg hany, if_neg hany]
          simp [hmk n m]
      calc (applyUpserts rkey pkey upd mkNew
            (upsertBy rkey pkey upd mkNew (rows, n) p) rest).1
      _ = (applyUpserts rkey pkey upd mkNew
            ((upsertBy rkey pkey upd mkNew (rows, n) p).1,
             (upsertBy rkey pkey upd mkNew (rows, n) p).2) rest).1 := rfl
      _ = (applyUpserts rkey pkey upd mkNew
            ((upsertBy rkey pkey upd mkNew (rows, m) p).1,
             (upsertBy rkey pkey upd mkNew (rows, m) p).2) rest).1 := by
            rw [hrows]
            exact ih _ _ _
      _ = (applyUpserts rkey pkey upd mkNew
            (upsertBy rkey pkey upd mkNew (rows, m) p) rest).1 := rfl

theorem applyUpserts_id_stable (rid : R → Nat)
    (hkeyu : ∀ p r, rkey (upd p r) = rkey r)
    (hkeyn : ∀ i p, rkey (mkNew i p) = pkey p)
    (hidu : ∀ p r, rid (upd p r) = rid r)
    (ps : List P) (rows : List R) (n : Nat) (k : K)
    (h : (rows.find? (fun r => rkey r = k)).isSome = true) :
    idOfKey rkey rid (applyUpserts rkey pkey upd mkNew (rows, n) ps).1 k =
      idOfKey rkey rid rows k := by
  cases hf : rows.find? (fun r => rkey r = k) with
  | none => rw [hf] at h; simp at h
  | some r0 =>
      have := applyUpserts_find_present rkey pkey upd mkNew hkeyu hkeyn ps
        rows n k r0 hf
      unfold idOfKey
      rw [this, hf]
      simp [chainUpd_invar upd rid hidu]

theorem map_er_ext (er : R → R) :
    ∀ (rows rows' : List R),
      rows'.map rkey = rows.map rkey →
      (rows.map rkey).Nodup →
      (∀ k, (rows'.find? (fun r => rkey r = k)).map er =
        (rows.find? (fun r => rkey r = k)).map er) →
      rows'.map er = rows.map er := by
  intro rows
  induction rows with
  | nil =>
      intro rows' hk _ _
      have : rows' = [] := by
        cases rows' with
        | nil => rfl
        | cons a t => simp at hk
      rw [this]
  | cons a t ih =>
      intro rows' hk hnd hf
      cases rows' with
      | nil => simp at hk
      | cons a' t' =>
          simp only [List.map_cons] at hk
          have hka : rkey a' = rkey a := (List.cons.injEq _ _ _ _ ▸ hk).1
          have hkt : t'.map rkey = t.map rkey :=
            (List.cons.injEq _ _ _ _ ▸ hk).2
          have hhead : er a' = er a := by
            have := hf (rkey a)
            rw [List.find?_cons_of_pos _ (by simp [hka]),
                List.find?_cons_of_pos _ (by simp)] at this
            simpa using this
          have hndt : (t.map rkey).Nodup := (List.nodup_cons.mp hnd).2
          have hna : rkey a ∉ t.map rkey := (List.nodup_cons.mp hnd).1
          have htail : t'.map er = t.map er := by
            apply ih t' hkt hndt
            intro k
            by_cases hk0 : k = rkey a
            · subst hk0
              have h1 : t.find? (fun r => rkey r = rkey a) = none :=
                (find?_key_none_iff rkey t (rkey a)).mpr hna
              have h2 : t'.find? (fun r => rkey r = rkey a) = none := by
                apply (find?_key_none_iff rkey t' (rkey a)).mpr
                rw [hkt]
                exact hna
              rw [h1, h2]
            · have := hf k
              rw [List.find?_cons_of_neg _ (by simp [Ne.symm hk0, hka]),
                  List.find?_cons_of_neg _ (by simp [Ne.symm hk0])] at this
              exact this
          simp only [List.map_cons]
          rw [hhead, htail]

theorem idOfKey_congr_er (rid : R → Nat) (er : R → R)
    (hker : ∀ r, rkey (er r) = rkey r)
    (hider : ∀ r, rid (er r) = rid r) :
    ∀ (rows rows' : List R),
      rows'.map er = rows.map er →
      ∀ k, idOfKey rkey rid rows' k = idOfKey rkey rid rows k := by
  intro rows
  induction rows with
  | nil =>
      intro rows' h k
      have : rows' = [] := by
        cases rows' with
        | nil => rfl
        | cons a t => simp at h
      rw [this]
  | cons a t ih =>
      intro rows' h k
      cases rows' with
      | nil => simp at h
      | cons a' t' =>
          simp only [List.map_cons] at h
          have hhead : er a' = er a := (List.cons.injEq _ _ _ _ ▸ h).1
          have htail : t'.map er = t.map er := (List.cons.injEq _ _ _ _ ▸ h).2
          have hka : rkey a' = rkey a := by
            rw [← hker a', ← hker a, hhead]
          have hia : rid a' = rid a := by
            rw [← hider a', ← hider a, hhead]
          unfold idOfKey
          by_cases hk0 : rkey a = k
          · rw [List.find?_cons_of_pos _ (by simp [hka, hk0]),
                List.find?_cons_of_pos _ (by simp [hk0])]
            simp [hia]
          · rw [List.find?_cons_of_neg _ (by simp [hka, hk0]),
                List.find?_cons_of_neg _ (by simp [hk0])]
            exact ih t' htail k

theorem applyUpserts_twice
    (upd₂ : P → R → R) (mkNew₂ : Nat → P → R) (er : R → R)
    (hkeyu : ∀ p r, rkey (upd p r) = rkey r)
    (hkeyn : ∀ i p, rkey (mkNew i p) = pkey p)
    (hkeyu2 : ∀ p r, rkey (upd₂ p r) = rkey r)
    (hkeyn2 : ∀ i p, rkey (mkNew₂ i p) = pkey p)
    (habsorb : ∀ os r,
      er (chainUpd upd₂ os (chainUpd upd os r)) = er (chainUpd upd os r))
    (habsorb_new : ∀ i o os,
      er (chainUpd upd₂ (o :: os) (chainUpd upd os (mkNew i o))) =
        er (chainUpd upd os (mkNew i o)))
    (ps : List P) (rows : List R) (n : Nat)
    (hnd : (rows.map rkey).Nodup) :
    (applyUpserts rkey pkey upd₂ mkNew₂
        (applyUpserts rkey pkey upd mkNew (rows, n) ps) ps).1.map er =
      (applyUpserts rkey pkey upd mkNew (rows, n) ps).1.map er ∧
    (applyUpserts rkey pkey upd₂ mkNew₂
        (applyUpserts rkey pkey upd mkNew (rows, n) ps) ps).2 =
      (applyUpserts rkey pkey upd mkNew (rows, n) ps).2 ∧
    ((applyUpserts rkey pkey upd mkNew (rows, n) ps).1.map rkey).Nodup ∧
    (applyUpserts rkey pkey upd₂ mkNew₂
        (applyUpserts rkey pkey upd mkNew (rows, n) ps) ps).1.map rkey =
      (applyUpserts rkey pkey upd mkNew (rows, n) ps).1.map rkey := by
  set s1 := applyUpserts rkey pkey upd mkNew (rows, n) ps with hs1
  have hnd1 : (s1.1.map rkey).Nodup := by
    rw [hs1]
    exact applyUpserts_keys_nodup rkey pkey upd mkNew hkeyu hkeyn ps rows n hnd
  have hcov : ∀ p ∈ ps, pkey p ∈ s1.1.map rkey := by
    intro p hp
    rw [hs1]
    exact applyUpserts_covers rkey pkey upd mkNew hkeyu hkeyn ps rows n p hp
  have hall := applyUpserts_all_present rkey pkey upd₂ mkNew₂ hkeyu2 hkeyn2
    ps s1.1 s1.2 hcov
  have hpair : (s1.1, s1.2) = s1 := rfl
  rw [hpair] at hall
  refine ⟨?_, hall.2, hnd1, hall.1⟩
  apply map_er_ext rkey er
  · exact hall.1
  · exact hnd1
  · intro k
    cases hf : rows.find? (fun r => rkey r = k) with
    | some r0 =>
        have h1 := applyUpserts_find_present rkey pkey upd mkNew hkeyu hkeyn
          ps rows n k r0 hf
        rw [← hs1] at h1
        have h2 := applyUpserts_find_present rkey pkey upd₂ mkNew₂ hkeyu2
          hkeyn2 ps s1.1 s1.2 k _ h1
        rw [hpair] at h2
        rw [h2, h1]
        simp only [Option.map_some']
        rw [habsorb]
    | none =>
        have h1 := applyUpserts_find_absent rkey pkey upd mkNew hkeyu hkeyn
          ps rows n k hf
        rw [← hs1] at h1
        rcases h1 with ⟨hfil, hnone⟩ | ⟨o, os', i, hfil, hsome⟩
        · have h2 := applyUpserts_find_absent rkey pkey upd₂ mkNew₂ hkeyu2
            hkeyn2 ps s1.1 s1.2 k hnone
          rw [hpair] at h2
          rcases h2 with ⟨_, hnone2⟩ | ⟨o, os', i, hfil2, _⟩
          · rw [hnone2, hnone]
          · rw [hfil] at hfil2
            exact absurd hfil2 (by simp)
        · have h2 := applyUpserts_find_present rkey pkey upd₂ mkNew₂ hkeyu2
            hkeyn2 ps s1.1 s1.2 k _ hsome
          rw [hpair] at h2
          rw [h2, hsome, hfil]
          simp only [Option.map_some']
          rw [habsorb_new]

end UpsertTheory

/-! ## Claim C6: conflict-merge semantics of the entity upserts -/

/-- C6 counterexample: the claim states that every scalar field of a model
upsert falls back to the stored value when the new value is null; re-crawling
the model with a null brand overwrites the stored brand with null, because
`upsert_model` writes `brand=excluded.brand` without `coalesce`. -/
theorem model_upsert_overwrites_cex :
    ((upsertModel c6DB ⟨"WDT780SAEM1", none, "unknown", [], [], [], []⟩
        "s1" 5).2.models.map (fun r => r.brand)) = [none] ∧
    c6DB.models.map (fun r => r.brand) = [some "Whirlpool"] ∧
    ((none : Option String) = some "Whirlpool" → False) :=
  ⟨by decide, by decide, by decide⟩

/-- C6 (amended): a part upsert that hits an existing row merges
`manufacturer_part_number`, `name` and `price_value` with
`coalesce(new, stored)` — so a null new value preserves the stored value —
while a model upsert overwrites `brand` and `appliance_type` with the new
values unconditionally. -/
theorem upsert_merge_semantics :
    (∀ (db : DB) (p : ParsedPart) (src : String) (now : Nat) (r : PartRow),
      db.parts.find? (fun x => x.partselect_number = p.partselect_number) =
        some r →
      ∃ r', (upsertPart db p src now).2.parts.find?
          (fun x => x.partselect_number = p.partselect_number) = some r' ∧
        r'.manufacturer_part_number =
          coalesce p.manufacturer_part_number r.manufacturer_part_number ∧
        r'.name = coalesce p.name r.name ∧
        r'.price_value = coalesce p.price_value r.price_value ∧
        (p.manufacturer_part_number = none →
          r'.manufacturer_part_number = r.manufacturer_part_number)) ∧
    (∀ (db : DB) (m : ParsedModel) (src : String) (now : Nat) (r : ModelRow),
      db.models.find? (fun x => x.model_number = m.model_number) = some r →
      ∃ r', (upsertModel db m src now).2.models.find?
          (fun x => x.model_number = m.model_number) = some r' ∧
        r'.brand = m.brand ∧ r'.appliance_type = m.appliance_type) := by
  constructor
  · intro db p src now r h
    refine ⟨partUpd now (p, src) r, ?_, rfl, rfl, rfl, ?_⟩
    · exact upsertBy_find_present (fun (x : PartRow) => x.partselect_number)
        (fun (pp : ParsedPart × String) => pp.1.partselect_number)
        (partUpd now) (partNew now)
        (fun pp x => rfl) (db.parts, db.nextPartId) (p, src) r h
    · intro hn
      simp [partUpd, hn, coalesce]
  · intro db m src now r h
    refine ⟨modelUpd now (m, src) r, ?_, rfl, rfl⟩
    exact upsertBy_find_present (fun (x : ModelRow) => x.model_number)
      (fun (pm : ParsedModel × String) => pm.1.model_number)
      (modelUpd now) (modelNew now)
      (fun pm x => rfl) (db.models, db.nextModelId) (m, src) r h

/-- Witness for C6 on a concrete database and part. -/
theorem upsert_merge_semantics_witness :
    ∃ r', (upsertPart c6PartDB ⟨"PS1", "", none, none, none⟩ "s1" 5).2.parts.find?
        (fun x => x.partselect_number = "PS1") = some r' ∧
      r'.manufacturer_part_number =
        coalesce none (c6PartRow.manufacturer_part_number) ∧
      r'.name = coalesce none (c6PartRow.name) ∧
      r'.price_value = coalesce none (c6PartRow.price_value) ∧
      ((none : Option String) = none →
        r'.manufacturer_part_number =
          c6PartRow.manufacturer_part_number) :=
  upsert_merge_semantics.1 c6PartDB ⟨"PS1", "", none, none, none⟩ "s1" 5
    c6PartRow rfl

/-- Witness for C8 on a concrete frontier containing a done entry. -/
theorem done_status_terminal_witness :
    (markFrontierFailed doneFrontier "u" "r" "err" 9)[0]? =
      some doneFrontier.head! ∧
    (markFrontierProcessing doneFrontier "u" "r" 9)[0]? =
      some doneFrontier.head! ∧
    (reconcileFrontierForResume doneFrontier 9).1[0]? =
      some doneFrontier.head! ∧
    (claimNextFrontierUrl doneFrontier "r" 9).2[0]? =
      some doneFrontier.head! ∧
    (∃ e', (upsertFrontierQueued doneFrontier "u" "r" "s" false 9)[0]? =
      some e' ∧ e'.status = FStatus.done) :=
  done_status_terminal doneFrontier "u" "u" "r" "s" "err" 9 0
    doneFrontier.head! rfl rfl

/-! ### C1 — idempotence of `persist_parsed_page`

Helper development: coalesce chains, per-table absorption of a second
update pass (up to the `updated_at` column), loop decompositions of the
`persist_parsed_page` body, and the double-pass theorem. -/

theorem coalesce_assoc {α : Type} (a b x : Option α) :
    coalesce (coalesce a b) x = coalesce a (coalesce b x) := by
  cases a <;> cases b <;> rfl

theorem coalesce_none_right {α : Type} (a : Option α) :
    coalesce a none = a := by
  cases a <;> rfl

theorem listCoal_cons {P β : Type} (f : P → Option β) (o : P) (os : List P)
    (x : Option β) :
    listCoal f (o :: os) x = listCoal f os (coalesce (f o) x) := rfl

theorem listCoal_absorb {P β : Type} (f : P → Option β) :
    ∀ (os : List P) (a x : Option β),
      listCoal f os (coalesce a (listCoal f os (coalesce a x))) =
        listCoal f os (coalesce a x) := by
  intro os
  induction os with
  | nil =>
      intro a x
      show coalesce a (coalesce a x) = coalesce a x
      cases a <;> rfl
  | cons o os ih =>
      intro a x
      simp only [listCoal_cons]
      have h2 : ∀ y, coalesce (f o) (coalesce a y) =
          coalesce (coalesce (f o) a) y :=
        fun y => (coalesce_assoc _ _ _).symm
      simp only [h2]
      exact ih (coalesce (f o) a) x

theorem listCoal_idem {P β : Type} (f : P → Option β) (os : List P)
    (x : Option β) :
    listCoal f os (listCoal f os x) = listCoal f os x := by
  cases os with
  | nil => rfl
  | cons o os =>
      simp only [listCoal_cons]
      exact listCoal_absorb f os (f o) x

theorem ModelRow_eq_of_fields (a b : ModelRow) (h1 : a.id = b.id)
    (h2 : a.model_number = b.model_number) (h3 : a.brand = b.brand)
    (h4 : a.appliance_type = b.appliance_type)
    (h5 : a.source_url = b.source_url) (h6 : a.updated_at = b.updated_at) :
    a = b := by
  cases a
  cases b
  simp_all

theorem PartRow_eq_of_fields (a b : PartRow) (h1 : a.id = b.id)
    (h2 : a.partselect_number = b.partselect_number)
    (h3 : a.manufacturer_part_number = b.manufacturer_part_number)
    (h4 : a.name = b.name) (h5 : a.price_value = b.price_value)
    (h6 : a.source_url = b.source_url) (h7 : a.updated_at = b.updated_at) :
    a = b := by
  cases a
  cases b
  simp_all

theorem ModelPartRow_eq_of_fields (a b : ModelPartRow)
    (h1 : a.model_id = b.model_id) (h2 : a.part_id = b.part_id)
    (h3 : a.compatibility_confidence = b.compatibility_confidence)
    (h4 : a.source_url = b.source_url) (h5 : a.updated_at = b.updated_at) :
    a = b := by
  cases a
  cases b
  simp_all

theorem SymptomRow_eq_of_fields (a b : SymptomRow)
    (h1 : a.model_id = b.model_id) (h2 : a.symptom = b.symptom)
    (h3 : a.source_url = b.source_url) (h4 : a.updated_at = b.updated_at) :
    a = b := by
  cases a
  cases b
  simp_all

theorem MediaRow_eq_of_fields (a b : MediaRow)
    (h1 : a.model_id = b.model_id) (h2 : a.media_type = b.media_type)
    (h3 : a.title = b.title) (h4 : a.media_url = b.media_url)
    (h5 : a.source_url = b.source_url) (h6 : a.updated_at = b.updated_at) :
    a = b := by
  cases a
  cases b
  simp_all

theorem QARow_eq_of_fields (a b : QARow)
    (h1 : a.model_id = b.model_id) (h2 : a.question = b.question)
    (h3 : a.answer = b.answer) (h4 : a.source_url = b.source_url)
    (h5 : a.updated_at = b.updated_at) : a = b := by
  cases a
  cases b
  simp_all

theorem DB_eq_of_fields (a b : DB) (h1 : a.models = b.models)
    (h2 : a.parts = b.parts) (h3 : a.model_parts = b.model_parts)
    (h4 : a.model_symptoms = b.model_symptoms)
    (h5 : a.model_media = b.model_media) (h6 : a.model_qa = b.model_qa)
    (h7 : a.nextModelId = b.nextModelId) (h8 : a.nextPartId = b.nextPartId) :
    a = b := by
  cases a
  cases b
  simp_all

theorem model_absorb (t1 t2 : Nat) (os : List (ParsedModel × String))
    (r : ModelRow) :
    erModelRow (chainUpd (modelUpd t2) os (chainUpd (modelUpd t1) os r)) =
      erModelRow (chainUpd (modelUpd t1) os r) := by
  rcases List.eq_nil_or_concat os with h | ⟨os', o, h⟩
  · subst h; rfl
  · rw [List.concat_eq_append] at h
    subst h
    rw [chainUpd_snoc, chainUpd_snoc]
    apply ModelRow_eq_of_fields
    · exact chainUpd_invar (modelUpd t2) (fun x => x.id) (fun p x => rfl)
        os' _
    · exact chainUpd_invar (modelUpd t2) (fun x => x.model_number)
        (fun p x => rfl) os' _
    · rfl
    · rfl
    · rfl
    · rfl

theorem model_absorb_new (t1 t2 : Nat) (i : Nat) (o : ParsedModel × String)
    (os : List (ParsedModel × String)) :
    erModelRow (chainUpd (modelUpd t2) (o :: os)
        (chainUpd (modelUpd t1) os (modelNew t1 i o))) =
      erModelRow (chainUpd (modelUpd t1) os (modelNew t1 i o)) := by
  rcases List.eq_nil_or_concat os with h | ⟨os', q, h⟩
  · subst h; rfl
  · rw [List.concat_eq_append] at h
    subst h
    rw [← List.cons_append, chainUpd_snoc, chainUpd_snoc]
    apply ModelRow_eq_of_fields
    · exact chainUpd_invar (modelUpd t2) (fun x => x.id) (fun p x => rfl)
        (o :: os') _
    · exact chainUpd_invar (modelUpd t2) (fun x => x.model_number)
        (fun p x => rfl) (o :: os') _
    · rfl
    · rfl
    · rfl
    · rfl

theorem part_chain_man (t : Nat) :
    ∀ (os : List (ParsedPart × String)) (r : PartRow),
      (chainUpd (partUpd t) os r).manufacturer_part_number =
        listCoal (fun o => o.1.manufacturer_part_number) os
          r.manufacturer_part_number := by
  intro os
  induction os with
  | nil => intro r; rfl
  | cons o os ih =>
      intro r
      rw [chainUpd_cons, ih, listCoal_cons]
      rfl

theorem part_chain_name (t : Nat) :
    ∀ (os : List (ParsedPart × String)) (r : PartRow),
      (chainUpd (partUpd t) os r).name =
        listCoal (fun o => o.1.name) os r.name := by
  intro os
  induction os with
  | nil => intro r; rfl
  | cons o os ih =>
      intro r
      rw [chainUpd_cons, ih, listCoal_cons]
      rfl

theorem part_chain_price (t : Nat) :
    ∀ (os : List (ParsedPart × String)) (r : PartRow),
      (chainUpd (partUpd t) os r).price_value =
        listCoal (fun o => o.1.price_value) os r.price_value := by
  intro os
  induction os with
  | nil => intro r; rfl
  | cons o os ih =>
      intro r
      rw [chainUpd_cons, ih, listCoal_cons]
      rfl

theorem part_chain_src_snoc (t : Nat) (os : List (ParsedPart × String))
    (q : ParsedPart × String) (r : PartRow) :
    (chainUpd (partUpd t) (os ++ [q]) r).source_url = q.2 := by
  rw [chainUpd_snoc]
  rfl

theorem part_absorb (t1 t2 : Nat) (os : List (ParsedPart × String))
    (r : PartRow) :
    erPartRow (chainUpd (partUpd t2) os (chainUpd (partUpd t1) os r)) =
      erPartRow (chainUpd (partUpd t1) os r) := by
  rcases List.eq_nil_or_concat os with h | ⟨os', q, h⟩
  · subst h; rfl
  · rw [List.concat_eq_append] at h
    apply PartRow_eq_of_fields
    · exact chainUpd_invar (partUpd t2) (fun x => x.id) (fun p x => rfl)
        os _
    · exact chainUpd_invar (partUpd t2) (fun x => x.partselect_number)
        (fun p x => rfl) os _
    · show (chainUpd (partUpd t2) os
          (chainUpd (partUpd t1) os r)).manufacturer_part_number =
        (chainUpd (partUpd t1) os r).manufacturer_part_number
      rw [part_chain_man, part_chain_man, listCoal_idem]
    · show (chainUpd (partUpd t2) os (chainUpd (partUpd t1) os r)).name =
        (chainUpd (partUpd t1) os r).name
      rw [part_chain_name, part_chain_name, listCoal_idem]
    · show (chainUpd (partUpd t2) os
          (chainUpd (partUpd t1) os r)).price_value =
        (chainUpd (partUpd t1) os r).price_value
      rw [part_chain_price, part_chain_price, listCoal_idem]
    · subst h
      show (chainUpd (partUpd t2) (os' ++ [q])
          (chainUpd (partUpd t1) (os' ++ [q]) r)).source_url =
        (chainUpd (partUpd t1) (os' ++ [q]) r).source_url
      rw [part_chain_src_snoc, part_chain_src_snoc]
    · rfl

theorem part_absorb_new (t1 t2 : Nat) (i : Nat) (o : ParsedPart × String)
    (os : List (ParsedPart × String)) :
    erPartRow (chainUpd (partUpd t2) (o :: os)
        (chainUpd (partUpd t1) os (partNew t1 i o))) =
      erPartRow (chainUpd (partUpd t1) os (partNew t1 i o)) := by
  apply PartRow_eq_of_fields
  · exact chainUpd_invar (partUpd t2) (fun x => x.id) (fun p x => rfl)
      (o :: os) _
  · exact chainUpd_invar (partUpd t2) (fun x => x.partselect_number)
      (fun p x => rfl) (o :: os) _
  · show (chainUpd (partUpd t2) (o :: os)
        (chainUpd (partUpd t1) os (partNew t1 i o))).manufacturer_part_number =
      (chainUpd (partUpd t1) os (partNew t1 i o)).manufacturer_part_number
    rw [part_chain_man, part_chain_man, listCoal_cons]
    have hx : (partNew t1 i o).manufacturer_part_number =
        coalesce o.1.manufacturer_part_number none :=
      (coalesce_none_right _).symm
    rw [hx]
    exact listCoal_absorb _ os o.1.manufacturer_part_number none
  · show (chainUpd (partUpd t2) (o :: os)
        (chainUpd (partUpd t1) os (partNew t1 i o))).name =
      (chainUpd (partUpd t1) os (partNew t1 i o)).name
    rw [part_chain_name, part_chain_name, listCoal_cons]
    have hx : (partNew t1 i o).name = coalesce o.1.name none :=
      (coalesce_none_right _).symm
    rw [hx]
    exact listCoal_absorb _ os o.1.name none
  · show (chainUpd (partUpd t2) (o :: os)
        (chainUpd (partUpd t1) os (partNew t1 i o))).price_value =
      (chainUpd (partUpd t1) os (partNew t1 i o)).price_value
    rw [part_chain_price, part_chain_price, listCoal_cons]
    have hx : (partNew t1 i o).price_value = coalesce o.1.price_value none :=
      (coalesce_none_right _).symm
    rw [hx]
    exact listCoal_absorb _ os o.1.price_value none
  · rcases List.eq_nil_or_concat os with h | ⟨os', q, h⟩
    · subst h; rfl
    · rw [List.concat_eq_append] at h
      subst h
      show (chainUpd (partUpd t2) (o :: (os' ++ [q]))
          (chainUpd (partUpd t1) (os' ++ [q])
            (partNew t1 i o))).source_url =
        (chainUpd (partUpd t1) (os' ++ [q]) (partNew t1 i o)).source_url
      rw [← List.cons_append, part_chain_src_snoc, part_chain_src_snoc]
  · rfl

theorem mp_chain_src_snoc (t : Nat) (os : List ((Nat × Nat) × String))
    (q : (Nat × Nat) × String) (r : ModelPartRow) :
    (chainUpd (mpUpd t) (os ++ [q]) r).source_url = q.2 := by
  rw [chainUpd_snoc]
  rfl

theorem mp_absorb (t1 t2 : Nat) (os : List ((Nat × Nat) × String))
    (r : ModelPartRow) :
    erModelPartRow (chainUpd (mpUpd t2) os (chainUpd (mpUpd t1) os r)) =
      erModelPartRow (chainUpd (mpUpd t1) os r) := by
  rcases List.eq_nil_or_concat os with h | ⟨os', q, h⟩
  · subst h; rfl
  · rw [List.concat_eq_append] at h
    apply ModelPartRow_eq_of_fields
    · exact chainUpd_invar (mpUpd t2) (fun x => x.model_id)
        (fun p x => rfl) os _
    · exact chainUpd_invar (mpUpd t2) (fun x => x.part_id)
        (fun p x => rfl) os _
    · exact chainUpd_invar (mpUpd t2) (fun x => x.compatibility_confidence)
        (fun p x => rfl) os _
    · subst h
      show (chainUpd (mpUpd t2) (os' ++ [q])
          (chainUpd (mpUpd t1) (os' ++ [q]) r)).source_url =
        (chainUpd (mpUpd t1) (os' ++ [q]) r).source_url
      rw [mp_chain_src_snoc, mp_chain_src_snoc]
    · rfl

theorem mp_absorb_new (t1 t2 : Nat) (i : Nat) (o : (Nat × Nat) × String)
    (os : List ((Nat × Nat) × String)) :
    erModelPartRow (chainUpd (mpUpd t2) (o :: os)
        (chainUpd (mpUpd t1) os (mpNew t1 i o))) =
      erModelPartRow (chainUpd (mpUpd t1) os (mpNew t1 i o)) := by
  apply ModelPartRow_eq_of_fields
  · exact chainUpd_invar (mpUpd t2) (fun x => x.model_id) (fun p x => rfl)
      (o :: os) _
  · exact chainUpd_invar (mpUpd t2) (fun x => x.part_id) (fun p x => rfl)
      (o :: os) _
  · exact chainUpd_invar (mpUpd t2) (fun x => x.compatibility_confidence)
      (fun p x => rfl) (o :: os) _
  · rcases List.eq_nil_or_concat os with h | ⟨os', q, h⟩
    · subst h; rfl
    · rw [List.concat_eq_append] at h
      subst h
      show (chainUpd (mpUpd t2) (o :: (os' ++ [q]))
          (chainUpd (mpUpd t1) (os' ++ [q]) (mpNew t1 i o))).source_url =
        (chainUpd (mpUpd t1) (os' ++ [q]) (mpNew t1 i o)).source_url
      rw [← List.cons_append, mp_chain_src_snoc, mp_chain_src_snoc]
  · rfl

theorem symptom_chain_src_snoc (t : Nat)
    (os : List ((Nat × String) × String)) (q : (Nat × String) × String)
    (r : SymptomRow) :
    (chainUpd (symptomUpd t) (os ++ [q]) r).source_url = q.2 := by
  rw [chainUpd_snoc]
  rfl

theorem symptom_absorb (t1 t2 : Nat) (os : List ((Nat × String) × String))
    (r : SymptomRow) :
    erSymptomRow (chainUpd (symptomUpd t2) os
        (chainUpd (symptomUpd t1) os r)) =
      erSymptomRow (chainUpd (symptomUpd t1) os r) := by
  rcases List.eq_nil_or_concat os with h | ⟨os', q, h⟩
  · subst h; rfl
  · rw [List.concat_eq_append] at h
    apply SymptomRow_eq_of_fields
    · exact chainUpd_invar (symptomUpd t2) (fun x => x.model_id)
        (fun p x => rfl) os _
    · exact chainUpd_invar (symptomUpd t2) (fun x => x.symptom)
        (fun p x => rfl) os _
    · subst h
      show (chainUpd (symptomUpd t2) (os' ++ [q])
          (chainUpd (symptomUpd t1) (os' ++ [q]) r)).source_url =
        (chainUpd (symptomUpd t1) (os' ++ [q]) r).source_url
      rw [symptom_chain_src_snoc, symptom_chain_src_snoc]
    · rfl

theorem symptom_absorb_new (t1 t2 : Nat) (i : Nat)
    (o : (Nat × String) × String) (os : List ((Nat × String) × String)) :
    erSymptomRow (chainUpd (symptomUpd t2) (o :: os)
        (chainUpd (symptomUpd t1) os (symptomNew t1 i o))) =
      erSymptomRow (chainUpd (symptomUpd t1) os (symptomNew t1 i o)) := by
  apply SymptomRow_eq_of_fields
  · exact chainUpd_invar (symptomUpd t2) (fun x => x.model_id)
      (fun p x => rfl) (o :: os) _
  · exact chainUpd_invar (symptomUpd t2) (fun x => x.symptom)
      (fun p x => rfl) (o :: os) _
  · rcases List.eq_nil_or_concat os with h | ⟨os', q, h⟩
    · subst h; rfl
    · rw [List.concat_eq_append] at h
      subst h
      show (chainUpd (symptomUpd t2) (o :: (os' ++ [q]))
          (chainUpd (symptomUpd t1) (os' ++ [q])
            (symptomNew t1 i o))).source_url =
        (chainUpd (symptomUpd t1) (os' ++ [q])
          (symptomNew t1 i o)).source_url
      rw [← List.cons_append, symptom_chain_src_snoc,
          symptom_chain_src_snoc]
  · rfl

theorem media_chain_title_snoc (t : Nat)
    (os : List ((Nat × String × String) × String × String))
    (q : (Nat × String × String) × String × String) (r : MediaRow) :
    (chainUpd (mediaUpd t) (os ++ [q]) r).title = q.2.1 := by
  rw [chainUpd_snoc]
  rfl

theorem media_chain_src_snoc (t : Nat)
    (os : List ((Nat × String × String) × String × String))
    (q : (Nat × String × String) × String × String) (r : MediaRow) :
    (chainUpd (mediaUpd t) (os ++ [q]) r).source_url = q.2.2 := by
  rw [chainUpd_snoc]
  rfl

theorem media_absorb (t1 t2 : Nat)
    (os : List ((Nat × String × String) × String × String)) (r : MediaRow) :
    erMediaRow (chainUpd (mediaUpd t2) os (chainUpd (mediaUpd t1) os r)) =
      erMediaRow (chainUpd (mediaUpd t1) os r) := by
  rcases List.eq_nil_or_concat os with h | ⟨os', q, h⟩
  · subst h; rfl
  · rw [List.concat_eq_append] at h
    apply MediaRow_eq_of_fields
    · exact chainUpd_invar (mediaUpd t2) (fun x => x.model_id)
        (fun p x => rfl) os _
    · exact chainUpd_invar (mediaUpd t2) (fun x => x.media_type)
        (fun p x => rfl) os _
    · subst h
      show (chainUpd (mediaUpd t2) (os' ++ [q])
          (chainUpd (mediaUpd t1) (os' ++ [q]) r)).title =
        (chainUpd (mediaUpd t1) (os' ++ [q]) r).title
      rw [media_chain_title_snoc, media_chain_title_snoc]
    · exact chainUpd_invar (mediaUpd t2) (fun x => x.media_url)
        (fun p x => rfl) os _
    · subst h
      show (chainUpd (mediaUpd t2) (os' ++ [q])
          (chainUpd (mediaUpd t1) (os' ++ [q]) r)).source_url =
        (chainUpd (mediaUpd t1) (os' ++ [q]) r).source_url
      rw [media_chain_src_snoc, media_chain_src_snoc]
    · rfl

theorem media_absorb_new (t1 t2 : Nat) (i : Nat)
    (o : (Nat × String × String) × String × String)
    (os : List ((Nat × String × String) × String × String)) :
    erMediaRow (chainUpd (mediaUpd t2) (o :: os)
        (chainUpd (mediaUpd t1) os (mediaNew t1 i o))) =
      erMediaRow (chainUpd (mediaUpd t1) os (mediaNew t1 i o)) := by
  apply MediaRow_eq_of_fields
  · exact chainUpd_invar (mediaUpd t2) (fun x => x.model_id)
      (fun p x => rfl) (o :: os) _
  · exact chainUpd_invar (mediaUpd t2) (fun x => x.media_type)
      (fun p x => rfl) (o :: os) _
  · rcases List.eq_nil_or_concat os with h | ⟨os', q, h⟩
    · subst h; rfl
    · rw [List.concat_eq_append] at h
      subst h
      show (chainUpd (mediaUpd t2) (o :: (os' ++ [q]))
          (chainUpd (mediaUpd t1) (os' ++ [q]) (mediaNew t1 i o))).title =
        (chainUpd (mediaUpd t1) (os' ++ [q]) (mediaNew t1 i o)).title
      rw [← List.cons_append, media_chain_title_snoc,
          media_chain_title_snoc]
  · exact chainUpd_invar (mediaUpd t2) (fun x => x.media_url)
      (fun p x => rfl) (o :: os) _
  · rcases List.eq_nil_or_concat os with h | ⟨os', q, h⟩
    · subst h; rfl
    · rw [List.concat_eq_append] at h
      subst h
      show (chainUpd (mediaUpd t2) (o :: (os' ++ [q]))
          (chainUpd (mediaUpd t1) (os' ++ [q])
            (mediaNew t1 i o))).source_url =
        (chainUpd (mediaUpd t1) (os' ++ [q]) (mediaNew t1 i o)).source_url
      rw [← List.cons_append, media_chain_src_snoc, media_chain_src_snoc]
  · rfl

theorem qa_chain_src_snoc (t : Nat)
    (os : List ((Nat × String × String) × String))
    (q : (Nat × String × String) × String) (r : QARow) :
    (chainUpd (qaUpd t) (os ++ [q]) r).source_url = q.2 := by
  rw [chainUpd_snoc]
  rfl

theorem qa_absorb (t1 t2 : Nat) (os : List ((Nat × String × String) × String))
    (r : QARow) :
    erQARow (chainUpd (qaUpd t2) os (chainUpd (qaUpd t1) os r)) =
      erQARow (chainUpd (qaUpd t1) os r) := by
  rcases List.eq_nil_or_concat os with h | ⟨os', q, h⟩
  · subst h; rfl
  · rw [List.concat_eq_append] at h
    apply QARow_eq_of_fields
    · exact chainUpd_invar (qaUpd t2) (fun x => x.model_id)
        (fun p x => rfl) os _
    · exact chainUpd_invar (qaUpd t2) (fun x => x.question)
        (fun p x => rfl) os _
    · exact chainUpd_invar (qaUpd t2) (fun x => x.answer)
        (fun p x => rfl) os _
    · subst h
      show (chainUpd (qaUpd t2) (os' ++ [q])
          (chainUpd (qaUpd t1) (os' ++ [q]) r)).source_url =
        (chainUpd (qaUpd t1) (os' ++ [q]) r).source_url
      rw [qa_chain_src_snoc, qa_chain_src_snoc]
    · rfl

theorem qa_absorb_new (t1 t2 : Nat) (i : Nat)
    (o : (Nat × String × String) × String)
    (os : List ((Nat × String × String) × String)) :
    erQARow (chainUpd (qaUpd t2) (o :: os)
        (chainUpd (qaUpd t1) os (qaNew t1 i o))) =
      erQARow (chainUpd (qaUpd t1) os (qaNew t1 i o)) := by
  apply QARow_eq_of_fields
  · exact chainUpd_invar (qaUpd t2) (fun x => x.model_id)
      (fun p x => rfl) (o :: os) _
  · exact chainUpd_invar (qaUpd t2) (fun x => x.question)
      (fun p x => rfl) (o :: os) _
  · exact chainUpd_invar (qaUpd t2) (fun x => x.answer)
      (fun p x => rfl) (o :: os) _
  · rcases List.eq_nil_or_concat os with h | ⟨os', q, h⟩
    · subst h; rfl
    · rw [List.concat_eq_append] at h
      subst h
      show (chainUpd (qaUpd t2) (o :: (os' ++ [q]))
          (chainUpd (qaUpd t1) (os' ++ [q]) (qaNew t1 i o))).source_url =
        (chainUpd (qaUpd t1) (os' ++ [q]) (qaNew t1 i o)).source_url
      rw [← List.cons_append, qa_chain_src_snoc, qa_chain_src_snoc]
  · rfl

theorem symptomsLoop_decomp (mid : Nat) (src : String) (now : Nat) :
    ∀ (ss : List String) (d : DB),
      ss.foldl (fun d s => insertModelSymptom d mid s src now) d =
        { d with model_symptoms :=
            (applyUpserts (fun r => (r.model_id, r.symptom))
              (fun pp => pp.1) (symptomUpd now) (symptomNew now)
              (d.model_symptoms, 0) (symptomPayloads mid src ss)).1 } := by
  intro ss
  induction ss with
  | nil => intro d; rfl
  | cons s ss ih =>
      intro d
      rw [List.foldl_cons, ih (insertModelSymptom d mid s src now)]
      apply DB_eq_of_fields
      · rfl
      · rfl
      · rfl
      · exact applyUpserts_counter_free (fun r => (r.model_id, r.symptom))
          (fun pp => pp.1) (symptomUpd now) (symptomNew now)
          (fun i j p => rfl) (symptomPayloads mid src ss)
          (upsertBy (fun r => (r.model_id, r.symptom)) (fun pp => pp.1)
            (symptomUpd now) (symptomNew now) (d.model_symptoms, 0)
            ((mid, s), src)).1 0
          (upsertBy (fun r => (r.model_id, r.symptom)) (fun pp => pp.1)
            (symptomUpd now) (symptomNew now) (d.model_symptoms, 0)
            ((mid, s), src)).2
      · rfl
      · rfl
      · rfl
      · rfl

theorem mediaLoop_decomp (mid : Nat) (src : String) (now : Nat) :
    ∀ (ms : List (String × String × String)) (d : DB),
      ms.foldl
          (fun d t => insertModelMedia d mid t.1 t.2.1 t.2.2 src now) d =
        { d with model_media :=
            (applyUpserts (fun r => (r.model_id, r.media_type, r.media_url))
              (fun pp => pp.1) (mediaUpd now) (mediaNew now)
              (d.model_media, 0) (mediaPayloads mid src ms)).1 } := by
  intro ms
  induction ms with
  | nil => intro d; rfl
  | cons t ms ih =>
      intro d
      rw [List.foldl_cons, ih (insertModelMedia d mid t.1 t.2.1 t.2.2 src now)]
      apply DB_eq_of_fields
      · rfl
      · rfl
      · rfl
      · rfl
      · exact applyUpserts_counter_free
          (fun r => (r.model_id, r.media_type, r.media_url))
          (fun pp => pp.1) (mediaUpd now) (mediaNew now)
          (fun i j p => rfl) (mediaPayloads mid src ms)
          (upsertBy (fun r => (r.model_id, r.media_type, r.media_url))
            (fun pp => pp.1) (mediaUpd now) (mediaNew now)
            (d.model_media, 0) ((mid, t.1, t.2.2), t.2.1, src)).1 0
          (upsertBy (fun r => (r.model_id, r.media_type, r.media_url))
            (fun pp => pp.1) (mediaUpd now) (mediaNew now)
            (d.model_media, 0) ((mid, t.1, t.2.2), t.2.1, src)).2
      · rfl
      · rfl
      · rfl

theorem qaLoop_decomp (mid : Nat) (src : String) (now : Nat) :
    ∀ (qs : List (String × String)) (d : DB),
      qs.foldl (fun d t => insertModelQA d mid t.1 t.2 src now) d =
        { d with model_qa :=
            (applyUpserts (fun r => (r.model_id, r.question, r.answer))
              (fun pp => pp.1) (qaUpd now) (qaNew now)
              (d.model_qa, 0) (qaPayloads mid src qs)).1 } := by
  intro qs
  induction qs with
  | nil => intro d; rfl
  | cons t qs ih =>
      intro d
      rw [List.foldl_cons, ih (insertModelQA d mid t.1 t.2 src now)]
      apply DB_eq_of_fields
      · rfl
      · rfl
      · rfl
      · rfl
      · rfl
      · exact applyUpserts_counter_free
          (fun r => (r.model_id, r.question, r.answer))
          (fun pp => pp.1) (qaUpd now) (qaNew now)
          (fun i j p => rfl) (qaPayloads mid src qs)
          (upsertBy (fun r => (r.model_id, r.question, r.answer))
            (fun pp => pp.1) (qaUpd now) (qaNew now)
            (d.model_qa, 0) ((mid, t.1, t.2), src)).1 0
          (upsertBy (fun r => (r.model_id, r.question, r.answer))
            (fun pp => pp.1) (qaUpd now) (qaNew now)
            (d.model_qa, 0) ((mid, t.1, t.2), src)).2
      · rfl
      · rfl

theorem partsLoop_decomp (mid : Nat) (src : String) (now : Nat) :
    ∀ (parts : List ParsedPart) (d : DB),
      parts.foldl (stepPM mid src now) d =
        { d with
          parts := (applyUpserts (fun r => r.partselect_number)
            (fun pp => pp.1.partselect_number) (partUpd now) (partNew now)
            (d.parts, d.nextPartId) (partPayloads parts src)).1,
          nextPartId := (applyUpserts (fun r => r.partselect_number)
            (fun pp => pp.1.partselect_number) (partUpd now) (partNew now)
            (d.parts, d.nextPartId) (partPayloads parts src)).2,
          model_parts := (applyUpserts (fun r => (r.model_id, r.part_id))
            (fun pp => pp.1) (mpUpd now) (mpNew now) (d.model_parts, 0)
            (mpPayloads mid src parts
              (applyUpserts (fun r => r.partselect_number)
                (fun pp => pp.1.partselect_number) (partUpd now)
                (partNew now) (d.parts, d.nextPartId)
                (partPayloads parts src)).1)).1 } := by
  intro parts
  induction parts with
  | nil => intro d; rfl
  | cons part rest ih =>
      intro d
      rw [List.foldl_cons, ih (stepPM mid src now d part)]
      apply DB_eq_of_fields
      · rfl
      · rfl
      · -- model_parts: bridge the join-row id read off the intermediate
        -- parts table to the one read off the final parts table, then the
        -- discarded counter.
        have hkeyu : ∀ (p : ParsedPart × String) (r : PartRow),
            (partUpd now p r).partselect_number = r.partselect_number :=
          fun p r => rfl
        have hkeyn : ∀ (i : Nat) (p : ParsedPart × String),
            (partNew now i p).partselect_number = p.1.partselect_number :=
          fun i p => rfl
        have hidu : ∀ (p : ParsedPart × String) (r : PartRow),
            (partUpd now p r).id = r.id := fun p r => rfl
        have hpres : (((upsertBy (fun r => r.partselect_number)
            (fun pp => pp.1.partselect_number) (partUpd now) (partNew now)
            (d.parts, d.nextPartId)
            (part, if part.part_url ≠ "" then part.part_url else src)).1).find?
              (fun x => x.partselect_number =
                part.partselect_number)).isSome = true :=
          upsertBy_key_present (fun r => r.partselect_number)
            (fun pp => pp.1.partselect_number) (partUpd now) (partNew now)
            hkeyu hkeyn (d.parts, d.nextPartId)
            (part, if part.part_url ≠ "" then part.part_url else src)
        have hstab := applyUpserts_id_stable (fun r => r.partselect_number)
          (fun pp => pp.1.partselect_number) (partUpd now) (partNew now)
          (fun r => r.id) hkeyu hkeyn hidu (partPayloads rest src)
          (upsertBy (fun r => r.partselect_number)
            (fun pp => pp.1.partselect_number) (partUpd now) (partNew now)
            (d.parts, d.nextPartId)
            (part, if part.part_url ≠ "" then part.part_url else src)).1
          (upsertBy (fun r => r.partselect_number)
            (fun pp => pp.1.partselect_number) (partUpd now) (partNew now)
            (d.parts, d.nextPartId)
            (part, if part.part_url ≠ "" then part.part_url else src)).2
          part.partselect_number hpres
        have key : ∀ k1 k2 : Nat, k1 = k2 →
            (applyUpserts (fun r => (r.model_id, r.part_id))
              (fun pp => pp.1) (mpUpd now) (mpNew now)
              ((upsertBy (fun r => (r.model_id, r.part_id)) (fun pp => pp.1)
                (mpUpd now) (mpNew now) (d.model_parts, 0)
                ((mid, k1), src)).1, 0)
              (mpPayloads mid src rest
                (applyUpserts (fun r => r.partselect_number)
                  (fun pp => pp.1.partselect_number) (partUpd now)
                  (partNew now) (d.parts, d.nextPartId)
                  (partPayloads (part :: rest) src)).1)).1 =
            (applyUpserts (fun r => (r.model_id, r.part_id))
              (fun pp => pp.1) (mpUpd now) (mpNew now)
              (upsertBy (fun r => (r.model_id, r.part_id)) (fun pp => pp.1)
                (mpUpd now) (mpNew now) (d.model_parts, 0)
                ((mid, k2), src))
              (mpPayloads mid src rest
                (applyUpserts (fun r => r.partselect_number)
                  (fun pp => pp.1.partselect_number) (partUpd now)
                  (partNew now) (d.parts, d.nextPartId)
                  (partPayloads (part :: rest) src)).1)).1 := by
          intro k1 k2 hk
          subst hk
          exact applyUpserts_counter_free
            (fun r => (r.model_id, r.part_id)) (fun pp => pp.1)
            (mpUpd now) (mpNew now) (fun i j p => rfl) _ _ 0 _
        exact key _ _ hstab.symm
      · rfl
      · rfl
      · rfl
      · rfl
      · rfl

theorem persist_cases (db : DB) (page : ParsedPage) (src : String)
    (now : Nat) :
    persistParsedPage db page src now =
      (match page.part with
       | none =>
          (match page.model with
           | none => db
           | some m => modelBranch db m src now)
       | some pp =>
          (upsertPart
            (match page.model with
             | none => db
             | some m => modelBranch db m src now) pp src now).2) := by
  obtain ⟨k, pmodel, ppart, durls⟩ := page
  cases pmodel <;> cases ppart <;> rfl

theorem modelBranch_decomp (db : DB) (m : ParsedModel) (src : String)
    (now : Nat) :
    modelBranch db m src now =
      { models := (applyUpserts (fun r => r.model_number)
          (fun pm => pm.1.model_number) (modelUpd now) (modelNew now)
          (db.models, db.nextModelId) [(m, src)]).1,
        nextModelId := (applyUpserts (fun r => r.model_number)
          (fun pm => pm.1.model_number) (modelUpd now) (modelNew now)
          (db.models, db.nextModelId) [(m, src)]).2,
        parts := (applyUpserts (fun r => r.partselect_number)
          (fun pp => pp.1.partselect_number) (partUpd now) (partNew now)
          (db.parts, db.nextPartId) (partPayloads m.parts src)).1,
        nextPartId := (applyUpserts (fun r => r.partselect_number)
          (fun pp => pp.1.partselect_number) (partUpd now) (partNew now)
          (db.parts, db.nextPartId) (partPayloads m.parts src)).2,
        model_parts := (applyUpserts (fun r => (r.model_id, r.part_id))
          (fun pp => pp.1) (mpUpd now) (mpNew now) (db.model_parts, 0)
          (mpPayloads (upsertModel db m src now).1 src m.parts
            (applyUpserts (fun r => r.partselect_number)
              (fun pp => pp.1.partselect_number) (partUpd now) (partNew now)
              (db.parts, db.nextPartId) (partPayloads m.parts src)).1)).1,
        model_symptoms := (applyUpserts (fun r => (r.model_id, r.symptom))
          (fun pp => pp.1) (symptomUpd now) (symptomNew now)
          (db.model_symptoms, 0)
          (symptomPayloads (upsertModel db m src now).1 src m.symptoms)).1,
        model_media := (applyUpserts
          (fun r => (r.model_id, r.media_type, r.media_url))
          (fun pp => pp.1) (mediaUpd now) (mediaNew now) (db.model_media, 0)
          (mediaPayloads (upsertModel db m src now).1 src m.media)).1,
        model_qa := (applyUpserts (fun r => (r.model_id, r.question, r.answer))
          (fun pp => pp.1) (qaUpd now) (qaNew now) (db.model_qa, 0)
          (qaPayloads (upsertModel db m src now).1 src m.qa)).1 } := by
  show (let r := upsertModel db m src now
    let dbB := m.parts.foldl (stepPM r.1 src now) r.2
    let dbC := m.symptoms.foldl
      (fun d s => insertModelSymptom d r.1 s src now) dbB
    let dbD := m.media.foldl
      (fun d t => insertModelMedia d r.1 t.1 t.2.1 t.2.2 src now) dbC
    m.qa.foldl (fun d t => insertModelQA d r.1 t.1 t.2 src now) dbD) = _
  simp only []
  rw [partsLoop_decomp, symptomsLoop_decomp, mediaLoop_decomp, qaLoop_decomp]
  apply DB_eq_of_fields
  · rfl
  · rfl
  · rfl
  · rfl
  · rfl
  · rfl
  · rfl
  · rfl

theorem applyUpserts_append {R P K : Type} [DecidableEq K] (rkey : R → K)
    (pkey : P → K) (upd : P → R → R) (mkNew : Nat → P → R)
    (s : List R × Nat) (l1 l2 : List P) :
    applyUpserts rkey pkey upd mkNew s (l1 ++ l2) =
      applyUpserts rkey pkey upd mkNew
        (applyUpserts rkey pkey upd mkNew s l1) l2 := by
  unfold applyUpserts
  exact List.foldl_append _ _ _ _

theorem persist_model_decomp (db : DB) (page : ParsedPage)
    (m : ParsedModel) (src : String) (now : Nat)
    (hm : page.model = some m) :
    persistParsedPage db page src now = decompDB db page m src now := by
  rw [persist_cases]
  cases hp : page.part with
  | none =>
      simp only [hm]
      rw [modelBranch_decomp]
      have hpl : partsPayloadAll page src = partPayloads m.parts src := by
        simp [partsPayloadAll, hm, hp]
      simp only [decompDB, modelsApp, partsApp, mpApp, syApp, meApp, qaApp,
        midOf, loopPartsApp]
      rw [hpl]
  | some pp =>
      simp only [hm]
      rw [modelBranch_decomp]
      have hpl : partsPayloadAll page src =
          partPayloads m.parts src ++ [(pp, src)] := by
        simp [partsPayloadAll, hm, hp]
      simp only [decompDB, modelsApp, partsApp, mpApp, syApp, meApp, qaApp,
        midOf, loopPartsApp]
      rw [hpl, applyUpserts_append]
      apply DB_eq_of_fields
      · rfl
      · rfl
      · rfl
      · rfl
      · rfl
      · rfl
      · rfl
      · rfl

/-- C1: `persist_parsed_page` is idempotent: starting from a database whose
natural keys are unique, persisting the same parsed page twice with the same
source URL leaves every entity table free of duplicate natural keys, and the
second call changes no column of any entity table other than `updated_at`
(and no id counter). -/
theorem persist_parsed_page_idempotent (db : DB) (page : ParsedPage)
    (src : String) (t1 t2 : Nat) (h : UniqKeys db) :
    UniqKeys (persistParsedPage (persistParsedPage db page src t1) page src
      t2) ∧
    eraseDB (persistParsedPage (persistParsedPage db page src t1) page src
        t2) =
      eraseDB (persistParsedPage db page src t1) := by
  obtain ⟨hM, hP, hMP, hS, hME, hQ⟩ := h
  cases hm : page.model with
  | none =>
      cases hp : page.part with
      | none =>
          have e1 : ∀ (x : DB) (t : Nat), persistParsedPage x page src t = x := by
            intro x t
            simp only [persist_cases, hm, hp]
          rw [e1, e1]
          exact ⟨⟨hM, hP, hMP, hS, hME, hQ⟩, rfl⟩
      | some pp =>
          have e1 : ∀ (x : DB) (t : Nat),
              persistParsedPage x page src t = (upsertPart x pp src t).2 := by
            intro x t
            simp only [persist_cases, hm, hp]
          rw [e1, e1]
          have pku1 : ∀ (p : ParsedPart × String) (r : PartRow),
              (partUpd t1 p r).partselect_number = r.partselect_number :=
            fun p r => rfl
          have pkn1 : ∀ (i : Nat) (p : ParsedPart × String),
              (partNew t1 i p).partselect_number = p.1.partselect_number :=
            fun i p => rfl
          have pku2 : ∀ (p : ParsedPart × String) (r : PartRow),
              (partUpd t2 p r).partselect_number = r.partselect_number :=
            fun p r => rfl
          have pkn2 : ∀ (i : Nat) (p : ParsedPart × String),
              (partNew t2 i p).partselect_number = p.1.partselect_number :=
            fun i p => rfl
          have tw := applyUpserts_twice (fun r => r.partselect_number)
            (fun q => q.1.partselect_number) (partUpd t1) (partNew t1)
            (partUpd t2) (partNew t2) erPartRow pku1 pkn1 pku2 pkn2
            (part_absorb t1 t2) (part_absorb_new t1 t2) [(pp, src)]
            db.parts db.nextPartId hP
          refine ⟨⟨hM, ?_, hMP, hS, hME, hQ⟩, ?_⟩
          · exact tw.2.2.2 ▸ tw.2.2.1
          · apply DB_eq_of_fields
            · rfl
            · exact tw.1
            · rfl
            · rfl
            · rfl
            · rfl
            · rfl
            · exact tw.2.1
  | some m =>
      rw [persist_model_decomp db page m src t1 hm,
          persist_model_decomp (decompDB db page m src t1) page m src t2 hm]
      -- key preservation of every per-table update and insert
      have mku1 : ∀ (p : ParsedModel × String) (r : ModelRow),
          (modelUpd t1 p r).model_number = r.model_number := fun p r => rfl
      have mkn1 : ∀ (i : Nat) (p : ParsedModel × String),
          (modelNew t1 i p).model_number = p.1.model_number := fun i p => rfl
      have mku2 : ∀ (p : ParsedModel × String) (r : ModelRow),
          (modelUpd t2 p r).model_number = r.model_number := fun p r => rfl
      have mkn2 : ∀ (i : Nat) (p : ParsedModel × String),
          (modelNew t2 i p).model_number = p.1.model_number := fun i p => rfl
      have pku1 : ∀ (p : ParsedPart × String) (r : PartRow),
          (partUpd t1 p r).partselect_number = r.partselect_number :=
        fun p r => rfl
      have pkn1 : ∀ (i : Nat) (p : ParsedPart × String),
          (partNew t1 i p).partselect_number = p.1.partselect_number :=
        fun i p => rfl
      have pku2 : ∀ (p : ParsedPart × String) (r : PartRow),
          (partUpd t2 p r).partselect_number = r.partselect_number :=
        fun p r => rfl
      have pkn2 : ∀ (i : Nat) (p : ParsedPart × String),
          (partNew t2 i p).partselect_number = p.1.partselect_number :=
        fun i p => rfl
      have pidu1 : ∀ (p : ParsedPart × String) (r : PartRow),
          (partUpd t1 p r).id = r.id := fun p r => rfl
      have pidu2 : ∀ (p : ParsedPart × String) (r : PartRow),
          (partUpd t2 p r).id = r.id := fun p r => rfl
      have mpu1 : ∀ (p : (Nat × Nat) × String) (r : ModelPartRow),
          ((mpUpd t1 p r).model_id, (mpUpd t1 p r).part_id) =
            (r.model_id, r.part_id) := fun p r => rfl
      have mpn1 : ∀ (i : Nat) (p : (Nat × Nat) × String),
          ((mpNew t1 i p).model_id, (mpNew t1 i p).part_id) = p.1 :=
        fun i p => rfl
      have mpu2 : ∀ (p : (Nat × Nat) × String) (r : ModelPartRow),
          ((mpUpd t2 p r).model_id, (mpUpd t2 p r).part_id) =
            (r.model_id, r.part_id) := fun p r => rfl
      have mpn2 : ∀ (i : Nat) (p : (Nat × Nat) × String),
          ((mpNew t2 i p).model_id, (mpNew t2 i p).part_id) = p.1 :=
        fun i p => rfl
      have syu1 : ∀ (p : (Nat × String) × String) (r : SymptomRow),
          ((symptomUpd t1 p r).model_id, (symptomUpd t1 p r).symptom) =
            (r.model_id, r.symptom) := fun p r => rfl
      have syn1 : ∀ (i : Nat) (p : (Nat × String) × String),
          ((symptomNew t1 i p).model_id, (symptomNew t1 i p).symptom) =
            p.1 := fun i p => rfl
      have syu2 : ∀ (p : (Nat × String) × String) (r : SymptomRow),
          ((symptomUpd t2 p r).model_id, (symptomUpd t2 p r).symptom) =
            (r.model_id, r.symptom) := fun p r => rfl
      have syn2 : ∀ (i : Nat) (p : (Nat × String) × String),
          ((symptomNew t2 i p).model_id, (symptomNew t2 i p).symptom) =
            p.1 := fun i p => rfl
      have meu1 : ∀ (p : (Nat × String × String) × String × String)
          (r : MediaRow),
          ((mediaUpd t1 p r).model_id, (mediaUpd t1 p r).media_type,
            (mediaUpd t1 p r).media_url) =
            (r.model_id, r.media_type, r.media_url) := fun p r => rfl
      have men1 : ∀ (i : Nat) (p : (Nat × String × String) × String × String),
          ((mediaNew t1 i p).model_id, (mediaNew t1 i p).media_type,
            (mediaNew t1 i p).media_url) = p.1 := fun i p => rfl
      have meu2 : ∀ (p : (Nat × String × String) × String × String)
          (r : MediaRow),
          ((mediaUpd t2 p r).model_id, (mediaUpd t2 p r).media_type,
            (mediaUpd t2 p r).media_url) =
            (r.model_id, r.media_type, r.media_url) := fun p r => rfl
      have men2 : ∀ (i : Nat) (p : (Nat × String × String) × String × String),
          ((mediaNew t2 i p).model_id, (mediaNew t2 i p).media_type,
            (mediaNew t2 i p).media_url) = p.1 := fun i p => rfl
      have qau1 : ∀ (p : (Nat × String × String) × String) (r : QARow),
          ((qaUpd t1 p r).model_id, (qaUpd t1 p r).question,
            (qaUpd t1 p r).answer) =
            (r.model_id, r.question, r.answer) := fun p r => rfl
      have qan1 : ∀ (i : Nat) (p : (Nat × String × String) × String),
          ((qaNew t1 i p).model_id, (qaNew t1 i p).question,
            (qaNew t1 i p).answer) = p.1 := fun i p => rfl
      have qau2 : ∀ (p : (Nat × String × String) × String) (r : QARow),
          ((qaUpd t2 p r).model_id, (qaUpd t2 p r).question,
            (qaUpd t2 p r).answer) =
            (r.model_id, r.question, r.answer) := fun p r => rfl
      have qan2 : ∀ (i : Nat) (p : (Nat × String × String) × String),
          ((qaNew t2 i p).model_id, (qaNew t2 i p).question,
            (qaNew t2 i p).answer) = p.1 := fun i p => rfl
      -- double-pass results for the payload-stable tables
      have twM := applyUpserts_twice (fun r => r.model_number)
        (fun pm => pm.1.model_number) (modelUpd t1) (modelNew t1)
        (modelUpd t2) (modelNew t2) erModelRow mku1 mkn1 mku2 mkn2
        (model_absorb t1 t2) (model_absorb_new t1 t2) [(m, src)]
        db.models db.nextModelId hM
      have twP := applyUpserts_twice (fun r => r.partselect_number)
        (fun q => q.1.partselect_number) (partUpd t1) (partNew t1)
        (partUpd t2) (partNew t2) erPartRow pku1 pkn1 pku2 pkn2
        (part_absorb t1 t2) (part_absorb_new t1 t2)
        (partsPayloadAll page src) db.parts db.nextPartId hP
      -- the model id of the second pass equals the first
      have hker : ∀ r : ModelRow, (erModelRow r).model_number =
          r.model_number := fun r => rfl
      have hider : ∀ r : ModelRow, (erModelRow r).id = r.id := fun r => rfl
      have hmid : midOf (decompDB db page m src t1) m src t2 =
          midOf db m src t1 := by
        show idOfKey (fun r => r.model_number) (fun r => r.id)
            (modelsApp (decompDB db page m src t1) m src t2).1
            m.model_number =
          idOfKey (fun r => r.model_number) (fun r => r.id)
            (modelsApp db m src t1).1 m.model_number
        exact idOfKey_congr_er (fun r => r.model_number) (fun r => r.id)
          erModelRow hker hider (modelsApp db m src t1).1
          (modelsApp (decompDB db page m src t1) m src t2).1 twM.1
          m.model_number
      -- split of the full parts payload into the loop and the page part
      have hpl2 : partsPayloadAll page src = partPayloads m.parts src ++
          (match page.part with | some pp => [(pp, src)] | none => []) := by
        simp only [partsPayloadAll, hm]
      have hsplit : partsApp db page src t1 =
          applyUpserts (fun r => r.partselect_number)
            (fun pp => pp.1.partselect_number) (partUpd t1) (partNew t1)
            (loopPartsApp db m src t1)
            (match page.part with | some pp => [(pp, src)] | none => []) := by
        show applyUpserts (fun r => r.partselect_number)
            (fun pp => pp.1.partselect_number) (partUpd t1) (partNew t1)
            (db.parts, db.nextPartId) (partsPayloadAll page src) = _
        rw [hpl2, applyUpserts_append]
        rfl
      -- part ids of the second-pass loop equal those of the first
      have hids : ∀ part ∈ m.parts,
          idOfKey (fun r => r.partselect_number) (fun r => r.id)
            (loopPartsApp (decompDB db page m src t1) m src t2).1
            part.partselect_number =
          idOfKey (fun r => r.partselect_number) (fun r => r.id)
            (loopPartsApp db m src t1).1 part.partselect_number := by
        intro part hpart
        have hk1 : part.partselect_number ∈
            (loopPartsApp db m src t1).1.map
              (fun r => r.partselect_number) :=
          applyUpserts_covers (fun r => r.partselect_number)
            (fun pp => pp.1.partselect_number) (partUpd t1) (partNew t1)
            pku1 pkn1 (partPayloads m.parts src) db.parts db.nextPartId
            (part, if part.part_url ≠ "" then part.part_url else src)
            (List.mem_map.mpr ⟨part, hpart, rfl⟩)
        have h2 : idOfKey (fun r => r.partselect_number) (fun r => r.id)
            (partsApp db page src t1).1 part.partselect_number =
            idOfKey (fun r => r.partselect_number) (fun r => r.id)
              (loopPartsApp db m src t1).1 part.partselect_number := by
          rw [hsplit]
          exact applyUpserts_id_stable (fun r => r.partselect_number)
            (fun pp => pp.1.partselect_number) (partUpd t1) (partNew t1)
            (fun r => r.id) pku1 pkn1 pidu1
            (match page.part with | some pp => [(pp, src)] | none => [])
            (loopPartsApp db m src t1).1 (loopPartsApp db m src t1).2
            part.partselect_number
            (find?_key_isSome (fun r => r.partselect_number)
              (loopPartsApp db m src t1).1 part.partselect_number hk1)
        have hk2 : part.partselect_number ∈
            (partsApp db page src t1).1.map
              (fun r => r.partselect_number) := by
          rw [hsplit]
          exact applyUpserts_mono_keys (fun r => r.partselect_number)
            (fun pp => pp.1.partselect_number) (partUpd t1) (partNew t1)
            pku1 pkn1
            (match page.part with | some pp => [(pp, src)] | none => [])
            (loopPartsApp db m src t1).1 (loopPartsApp db m src t1).2
            part.partselect_number hk1
        have h3 : idOfKey (fun r => r.partselect_number) (fun r => r.id)
            (loopPartsApp (decompDB db page m src t1) m src t2).1
            part.partselect_number =
            idOfKey (fun r => r.partselect_number) (fun r => r.id)
              (partsApp db page src t1).1 part.partselect_number :=
          applyUpserts_id_stable (fun r => r.partselect_number)
            (fun pp => pp.1.partselect_number) (partUpd t2) (partNew t2)
            (fun r => r.id) pku2 pkn2 pidu2 (partPayloads m.parts src)
            (partsApp db page src t1).1 (partsApp db page src t1).2
            part.partselect_number
            (find?_key_isSome (fun r => r.partselect_number)
              (partsApp db page src t1).1 part.partselect_number hk2)
        exact h3.trans h2
      -- the join/symptom/media/qa payloads of the second pass equal the first
      have hplmp : mpPayloads (midOf (decompDB db page m src t1) m src t2)
          src m.parts
          (loopPartsApp (decompDB db page m src t1) m src t2).1 =
          mpPayloads (midOf db m src t1) src m.parts
            (loopPartsApp db m src t1).1 := by
        unfold mpPayloads
        exact List.map_congr_left
          (fun part hpart => by simp only [hmid, hids part hpart])
      have hplsy : symptomPayloads (midOf (decompDB db page m src t1) m src
          t2) src m.symptoms =
          symptomPayloads (midOf db m src t1) src m.symptoms := by
        rw [hmid]
      have hplme : mediaPayloads (midOf (decompDB db page m src t1) m src
          t2) src m.media =
          mediaPayloads (midOf db m src t1) src m.media := by
        rw [hmid]
      have hplqa : qaPayloads (midOf (decompDB db page m src t1) m src t2)
          src m.qa = qaPayloads (midOf db m src t1) src m.qa := by
        rw [hmid]
      -- double-pass results for the id-keyed tables
      have twMP := applyUpserts_twice (fun r => (r.model_id, r.part_id))
        (fun pp => pp.1) (mpUpd t1) (mpNew t1) (mpUpd t2) (mpNew t2)
        erModelPartRow mpu1 mpn1 mpu2 mpn2 (mp_absorb t1 t2)
        (mp_absorb_new t1 t2)
        (mpPayloads (midOf db m src t1) src m.parts
          (loopPartsApp db m src t1).1) db.model_parts 0 hMP
      have twS := applyUpserts_twice (fun r => (r.model_id, r.symptom))
        (fun pp => pp.1) (symptomUpd t1) (symptomNew t1) (symptomUpd t2)
        (symptomNew t2) erSymptomRow syu1 syn1 syu2 syn2
        (symptom_absorb t1 t2) (symptom_absorb_new t1 t2)
        (symptomPayloads (midOf db m src t1) src m.symptoms)
        db.model_symptoms 0 hS
      have twME := applyUpserts_twice
        (fun r => (r.model_id, r.media_type, r.media_url)) (fun pp => pp.1)
        (mediaUpd t1) (mediaNew t1) (mediaUpd t2) (mediaNew t2) erMediaRow
        meu1 men1 meu2 men2 (media_absorb t1 t2) (media_absorb_new t1 t2)
        (mediaPayloads (midOf db m src t1) src m.media) db.model_media 0 hME
      have twQ := applyUpserts_twice
        (fun r => (r.model_id, r.question, r.answer)) (fun pp => pp.1)
        (qaUpd t1) (qaNew t1) (qaUpd t2) (qaNew t2) erQARow
        qau1 qan1 qau2 qan2 (qa_absorb t1 t2) (qa_absorb_new t1 t2)
        (qaPayloads (midOf db m src t1) src m.qa) db.model_qa 0 hQ
      -- counter-independence of the id-keyed fresh rows
      have mpcf : ∀ (i j : Nat) (p : (Nat × Nat) × String),
          mpNew t2 i p = mpNew t2 j p := fun i j p => rfl
      have sycf : ∀ (i j : Nat) (p : (Nat × String) × String),
          symptomNew t2 i p = symptomNew t2 j p := fun i j p => rfl
      have mecf : ∀ (i j : Nat) (p : (Nat × String × String) × String ×
          String), mediaNew t2 i p = mediaNew t2 j p := fun i j p => rfl
      have qacf : ∀ (i j : Nat) (p : (Nat × String × String) × String),
          qaNew t2 i p = qaNew t2 j p := fun i j p => rfl
      -- erased-table equalities for the id-keyed tables
      have hmpfinal : (mpApp (decompDB db page m src t1) m src t2).1.map
          erModelPartRow = (mpApp db m src t1).1.map erModelPartRow := by
        have hstep : (mpApp (decompDB db page m src t1) m src t2).1 =
            (applyUpserts (fun r => (r.model_id, r.part_id)) (fun pp => pp.1)
              (mpUpd t2) (mpNew t2) (mpApp db m src t1)
              (mpPayloads (midOf db m src t1) src m.parts
                (loopPartsApp db m src t1).1)).1 := by
          show (applyUpserts (fun r => (r.model_id, r.part_id))
              (fun pp => pp.1) (mpUpd t2) (mpNew t2)
              ((mpApp db m src t1).1, 0)
              (mpPayloads (midOf (decompDB db page m src t1) m src t2) src
                m.parts
                (loopPartsApp (decompDB db page m src t1) m src t2).1)).1 =
            _
          rw [hplmp]
          exact applyUpserts_counter_free (fun r => (r.model_id, r.part_id))
            (fun pp => pp.1) (mpUpd t2) (mpNew t2) mpcf
            (mpPayloads (midOf db m src t1) src m.parts
              (loopPartsApp db m src t1).1)
            (mpApp db m src t1).1 0 (mpApp db m src t1).2
        rw [hstep]
        exact twMP.1
      have hsyfinal : (syApp (decompDB db page m src t1) m src t2).1.map
          erSymptomRow = (syApp db m src t1).1.map erSymptomRow := by
        have hstep : (syApp (decompDB db page m src t1) m src t2).1 =
            (applyUpserts (fun r => (r.model_id, r.symptom)) (fun pp => pp.1)
              (symptomUpd t2) (symptomNew t2) (syApp db m src t1)
              (symptomPayloads (midOf db m src t1) src m.symptoms)).1 := by
          show (applyUpserts (fun r => (r.model_id, r.symptom))
              (fun pp => pp.1) (symptomUpd t2) (symptomNew t2)
              ((syApp db m src t1).1, 0)
              (symptomPayloads (midOf (decompDB db page m src t1) m src t2)
                src m.symptoms)).1 = _
          rw [hplsy]
          exact applyUpserts_counter_free (fun r => (r.model_id, r.symptom))
            (fun pp => pp.1) (symptomUpd t2) (symptomNew t2) sycf
            (symptomPayloads (midOf db m src t1) src m.symptoms)
            (syApp db m src t1).1 0 (syApp db m src t1).2
        rw [hstep]
        exact twS.1
      have hmefinal : (meApp (decompDB db page m src t1) m src t2).1.map
          erMediaRow = (meApp db m src t1).1.map erMediaRow := by
        have hstep : (meApp (decompDB db page m src t1) m src t2).1 =
            (applyUpserts (fun r => (r.model_id, r.media_type, r.media_url))
              (fun pp => pp.1) (mediaUpd t2) (mediaNew t2)
              (meApp db m src t1)
              (mediaPayloads (midOf db m src t1) src m.media)).1 := by
          show (applyUpserts
              (fun r => (r.model_id, r.media_type, r.media_url))
              (fun pp => pp.1) (mediaUpd t2) (mediaNew t2)
              ((meApp db m src t1).1, 0)
              (mediaPayloads (midOf (decompDB db page m src t1) m src t2)
                src m.media)).1 = _
          rw [hplme]
          exact applyUpserts_counter_free
            (fun r => (r.model_id, r.media_type, r.media_url))
            (fun pp => pp.1) (mediaUpd t2) (mediaNew t2) mecf
            (mediaPayloads (midOf db m src t1) src m.media)
            (meApp db m src t1).1 0 (meApp db m src t1).2
        rw [hstep]
        exact twME.1
      have hqafinal : (qaApp (decompDB db page m src t1) m src t2).1.map
          erQARow = (qaApp db m src t1).1.map erQARow := by
        have hstep : (qaApp (decompDB db page m src t1) m src t2).1 =
            (applyUpserts (fun r => (r.model_id, r.question, r.answer))
              (fun pp => pp.1) (qaUpd t2) (qaNew t2) (qaApp db m src t1)
              (qaPayloads (midOf db m src t1) src m.qa)).1 := by
          show (applyUpserts (fun r => (r.model_id, r.question, r.answer))
              (fun pp => pp.1) (qaUpd t2) (qaNew t2)
              ((qaApp db m src t1).1, 0)
              (qaPayloads (midOf (decompDB db page m src t1) m src t2) src
                m.qa)).1 = _
          rw [hplqa]
          exact applyUpserts_counter_free
            (fun r => (r.model_id, r.question, r.answer))
            (fun pp => pp.1) (qaUpd t2) (qaNew t2) qacf
            (qaPayloads (midOf db m src t1) src m.qa)
            (qaApp db m src t1).1 0 (qaApp db m src t1).2
        rw [hstep]
        exact twQ.1
      -- duplicate-freeness of the final tables
      have ndM1 : ((modelsApp db m src t1).1.map
          (fun r => r.model_number)).Nodup :=
        applyUpserts_keys_nodup (fun r => r.model_number)
          (fun pm => pm.1.model_number) (modelUpd t1) (modelNew t1)
          mku1 mkn1 [(m, src)] db.models db.nextModelId hM
      have ndP1 : ((partsApp db page src t1).1.map
          (fun r => r.partselect_number)).Nodup :=
        applyUpserts_keys_nodup (fun r => r.partselect_number)
          (fun q => q.1.partselect_number) (partUpd t1) (partNew t1)
          pku1 pkn1 (partsPayloadAll page src) db.parts db.nextPartId hP
      have ndMP1 : ((mpApp db m src t1).1.map
          (fun r => (r.model_id, r.part_id))).Nodup :=
        applyUpserts_keys_nodup (fun r => (r.model_id, r.part_id))
          (fun pp => pp.1) (mpUpd t1) (mpNew t1) mpu1 mpn1
          (mpPayloads (midOf db m src t1) src m.parts
            (loopPartsApp db m src t1).1) db.model_parts 0 hMP
      have ndS1 : ((syApp db m src t1).1.map
          (fun r => (r.model_id, r.symptom))).Nodup :=
        applyUpserts_keys_nodup (fun r => (r.model_id, r.symptom))
          (fun pp => pp.1) (symptomUpd t1) (symptomNew t1) syu1 syn1
          (symptomPayloads (midOf db m src t1) src m.symptoms)
          db.model_symptoms 0 hS
      have ndME1 : ((meApp db m src t1).1.map
          (fun r => (r.model_id, r.media_type, r.media_url))).Nodup :=
        applyUpserts_keys_nodup
          (fun r => (r.model_id, r.media_type, r.media_url))
          (fun pp => pp.1) (mediaUpd t1) (mediaNew t1) meu1 men1
          (mediaPayloads (midOf db m src t1) src m.media) db.model_media 0
          hME
      have ndQ1 : ((qaApp db m src t1).1.map
          (fun r => (r.model_id, r.question, r.answer))).Nodup :=
        applyUpserts_keys_nodup (fun r => (r.model_id, r.question, r.answer))
          (fun pp => pp.1) (qaUpd t1) (qaNew t1) qau1 qan1
          (qaPayloads (midOf db m src t1) src m.qa) db.model_qa 0 hQ
      refine ⟨⟨?_, ?_, ?_, ?_, ?_, ?_⟩, ?_⟩
      · exact applyUpserts_keys_nodup (fun r => r.model_number)
          (fun pm => pm.1.model_number) (modelUpd t2) (modelNew t2)
          mku2 mkn2 [(m, src)] (modelsApp db m src t1).1
          (modelsApp db m src t1).2 ndM1
      · exact applyUpserts_keys_nodup (fun r => r.partselect_number)
          (fun q => q.1.partselect_number) (partUpd t2) (partNew t2)
          pku2 pkn2 (partsPayloadAll page src) (partsApp db page src t1).1
          (partsApp db page src t1).2 ndP1
      · exact applyUpserts_keys_nodup (fun r => (r.model_id, r.part_id))
          (fun pp => pp.1) (mpUpd t2) (mpNew t2) mpu2 mpn2
          (mpPayloads (midOf (decompDB db page m src t1) m src t2) src
            m.parts (loopPartsApp (decompDB db page m src t1) m src t2).1)
          (mpApp db m src t1).1 0 ndMP1
      · exact applyUpserts_keys_nodup (fun r => (r.model_id, r.symptom))
          (fun pp => pp.1) (symptomUpd t2) (symptomNew t2) syu2 syn2
          (symptomPayloads (midOf (decompDB db page m src t1) m src t2) src
            m.symptoms) (syApp db m src t1).1 0 ndS1
      · exact applyUpserts_keys_nodup
          (fun r => (r.model_id, r.media_type, r.media_url))
          (fun pp => pp.1) (mediaUpd t2) (mediaNew t2) meu2 men2
          (mediaPayloads (midOf (decompDB db page m src t1) m src t2) src
            m.media) (meApp db m src t1).1 0 ndME1
      · exact applyUpserts_keys_nodup
          (fun r => (r.model_id, r.question, r.answer))
          (fun pp => pp.1) (qaUpd t2) (qaNew t2) qau2 qan2
          (qaPayloads (midOf (decompDB db page m src t1) m src t2) src
            m.qa) (qaApp db m src t1).1 0 ndQ1
      · apply DB_eq_of_fields
        · exact twM.1
        · exact twP.1
        · exact hmpfinal
        · exact hsyfinal
        · exact hmefinal
        · exact hqafinal
        · exact twM.2.1
        · exact twP.2.1

/-- Witness for C1: a full model page with parts, symptoms, media,
question-answer entries and a page-level part, persisted twice into an
empty database. -/
theorem persist_parsed_page_idempotent_witness :
    UniqKeys c1DB ∧
    (UniqKeys (persistParsedPage (persistParsedPage c1DB c1Page
        "https://www.partselect.com/Models/WDT780SAEM1" 1) c1Page
        "https://www.partselect.com/Models/WDT780SAEM1" 2) ∧
      eraseDB (persistParsedPage (persistParsedPage c1DB c1Page
          "https://www.partselect.com/Models/WDT780SAEM1" 1) c1Page
          "https://www.partselect.com/Models/WDT780SAEM1" 2) =
        eraseDB (persistParsedPage c1DB c1Page
          "https://www.partselect.com/Models/WDT780SAEM1" 1)) :=
  ⟨by decide, persist_parsed_page_idempotent c1DB c1Page
    "https://www.partselect.com/Models/WDT780SAEM1" 1 2 (by decide)⟩

/-! ### C2 — mutual exclusion of concurrent `claim_next_frontier_url` -/

theorem getD_replicate {α : Type} (n i : Nat) (a d : α) (h : i < n) :
    (List.replicate n a).getD i d = a := by
  unfold List.getD
  rw [List.get?_eq_getElem?, List.getElem?_replicate, if_pos h]
  rfl

theorem getD_oob {α : Type} (l : List α) (i : Nat) (d : α)
    (h : l.length ≤ i) : l.getD i d = d := by
  unfold List.getD
  rw [List.get?_eq_getElem?, List.getElem?_eq_none h]
  rfl

theorem getD_set_self {α : Type} (l : List α) (i : Nat) (a d : α)
    (h : i < l.length) : (l.set i a).getD i d = a := by
  unfold List.getD
  rw [List.get?_eq_getElem?, List.getElem?_set_self h]
  rfl

theorem getD_set_ne {α : Type} (l : List α) (i w : Nat) (a d : α)
    (h : i ≠ w) : (l.set i a).getD w d = l.getD w d := by
  unfold List.getD
  rw [List.get?_eq_getElem?, List.get?_eq_getElem?, List.getElem?_set_ne h]

theorem set_replicate_self {α : Type} :
    ∀ (n j : Nat) (a : α),
      (List.replicate n a).set j a = List.replicate n a := by
  intro n
  induction n with
  | zero => intro j a; rfl
  | succ n ih =>
      intro j a
      cases j with
      | zero => rw [List.replicate_succ]; rfl
      | succ j =>
          rw [List.replicate_succ]
          show a :: (List.replicate n a).set j a = a :: List.replicate n a
          rw [ih]

theorem getD_mem {α : Type} :
    ∀ (l : List α) (i : Nat) (d : α), i < l.length → l.getD i d ∈ l := by
  intro l
  induction l with
  | nil => intro i d h; simp at h
  | cons a t ih =>
      intro i d h
      cases i with
      | zero => exact List.mem_cons_self a t
      | succ i =>
          exact List.mem_cons_of_mem a
            (ih i d (by simpa using Nat.lt_of_succ_lt_succ h))

theorem mem_queuedIdxs_of {f : List FrontierEntry} {i : Nat}
    (h1 : i < f.length)
    (h2 : (f.getD i default).status = FStatus.queued) :
    i ∈ queuedIdxs f := by
  unfold queuedIdxs
  rw [List.mem_filter, List.mem_range]
  exact ⟨h1, by simpa using h2⟩

theorem freeQueued_all_unlocked (f : List FrontierEntry) :
    freeQueuedIdxs f (List.replicate f.length false) = queuedIdxs f := by
  unfold freeQueuedIdxs queuedIdxs
  apply List.filter_congr
  intro i hi
  rw [getD_replicate _ _ _ _ (List.mem_range.mp hi)]
  simp

theorem freeQueued_locked_j {f : List FrontierEntry} {j : Nat}
    (hq : queuedIdxs f = [j]) :
    freeQueuedIdxs f ((List.replicate f.length false).set j true) = [] := by
  unfold freeQueuedIdxs
  rw [List.filter_eq_nil_iff]
  intro i hi hpred
  rw [Bool.and_eq_true] at hpred
  rcases hpred with ⟨hst, hlk⟩
  have hist : (f.getD i default).status = FStatus.queued := by
    simpa using hst
  have hmem : i ∈ queuedIdxs f :=
    mem_queuedIdxs_of (List.mem_range.mp hi) hist
  rw [hq, List.mem_singleton] at hmem
  subst hmem
  have hlen : i < f.length := (mem_queuedIdxs (by
    rw [hq]
    exact List.mem_singleton.mpr rfl)).1
  rw [getD_set_self _ _ _ _ (by rw [List.length_replicate]; exact hlen)]
    at hlk
  simp at hlk

theorem freeQueued_after_claim {f : List FrontierEntry} {j : Nat}
    (rid : String) (now : Nat) (hq : queuedIdxs f = [j]) :
    freeQueuedIdxs (f.set j (claimUpdate rid now (f.getD j default)))
      (List.replicate f.length false) = [] := by
  unfold freeQueuedIdxs
  rw [List.filter_eq_nil_iff]
  intro i hi hpred
  rw [Bool.and_eq_true] at hpred
  rcases hpred with ⟨hst, _⟩
  rw [List.length_set, List.mem_range] at hi
  by_cases hij : i = j
  · subst hij
    rw [getD_set_self _ _ _ _ hi] at hst
    simp [claimUpdate] at hst
  · rw [getD_set_ne _ _ _ _ _ (fun hc => hij hc.symm)] at hst
    have hmem : i ∈ queuedIdxs f :=
      mem_queuedIdxs_of hi (by simpa using hst)
    rw [hq, List.mem_singleton] at hmem
    exact hij hmem

theorem map_claim_eq_set (rid : String) (now : Nat) :
    ∀ (f : List FrontierEntry) (j : Nat),
      (f.map (fun e => e.url_canonical)).Nodup →
      j < f.length →
      f.map (fun e =>
        if e.url_canonical = (f.getD j default).url_canonical then
          claimUpdate rid now e else e) =
      f.set j (claimUpdate rid now (f.getD j default)) := by
  intro f
  induction f with
  | nil => intro j _ h; simp at h
  | cons e t ih =>
      intro j hnd hlen
      have hhead : e.url_canonical ∉ t.map (fun x => x.url_canonical) :=
        (List.nodup_cons.mp hnd).1
      have htail : (t.map (fun x => x.url_canonical)).Nodup :=
        (List.nodup_cons.mp hnd).2
      cases j with
      | zero =>
          have hgd : (e :: t).getD 0 default = e := rfl
          rw [hgd, List.map_cons, if_pos rfl]
          have : t.map (fun x =>
              if x.url_canonical = e.url_canonical then
                claimUpdate rid now x else x) = t.map (fun x => x) := by
            apply List.map_congr_left
            intro x hx
            rw [if_neg]
            intro hc
            exact hhead (hc ▸ List.mem_map.mpr ⟨x, hx, rfl⟩)
          rw [this]
          simp
      | succ j =>
          have hjt : j < t.length := by simpa using Nat.lt_of_succ_lt_succ hlen
          have hgd : (e :: t).getD (j + 1) default = t.getD j default := rfl
          rw [hgd, List.map_cons, if_neg]
          · rw [ih j htail hjt]
            rfl
          · intro hc
            exact hhead (hc ▸ List.mem_map.mpr
              ⟨t.getD j default, getD_mem t j default hjt, rfl⟩)

theorem claim_inv_init (f : List FrontierEntry) (j n : Nat) (rid : String)
    (now : Nat) : ClaimInv f j n rid now (initClaimState f n) :=
  ⟨List.length_replicate n _, Or.inl ⟨rfl, rfl, rfl⟩⟩

theorem claim_inv_step {f : List FrontierEntry} {j n : Nat} {rid : String}
    {now : Nat} (hq : queuedIdxs f = [j])
    (hnd : (f.map (fun e => e.url_canonical)).Nodup)
    (s : ClaimState) (w : Nat) (h : ClaimInv f j n rid now s) :
    ClaimInv f j n rid now (wstep rid now s w) := by
  have hjmem : j ∈ queuedIdxs f := by
    rw [hq]
    exact List.mem_singleton.mpr rfl
  have hjlen : j < f.length := (mem_queuedIdxs hjmem).1
  obtain ⟨hlen, hA | hB | hC⟩ := h
  · -- nothing has happened yet
    obtain ⟨hE, hL, hPh⟩ := hA
    by_cases hw : w < n
    · have hph : s.phases.getD w WPhase.doneNone = WPhase.idle := by
        rw [hPh]; exact getD_replicate _ _ _ _ hw
      have hsel : pickMinBy
          (fun i => (s.entries.getD i default).updated_at)
          (freeQueuedIdxs s.entries s.locks) = some j := by
        rw [hE, hL, freeQueued_all_unlocked, hq]
        rfl
      have hstep : wstep rid now s w =
          { s with locks := s.locks.set j true,
                   phases := s.phases.set w
                     (WPhase.locked j
                       (s.entries.getD j default).url_canonical) } := by
        unfold wstep
        rw [hph, hsel]
      rw [hstep]
      refine ⟨by rw [List.length_set]; exact hlen,
        Or.inr (Or.inl ⟨w, hw, hE, by rw [hL], ?_, ?_⟩)⟩
      · show (s.phases.set w _).getD w WPhase.doneNone = _
        rw [getD_set_self _ _ _ _ (by rw [hlen]; exact hw), hE]
      · intro w' hw' hne
        show (s.phases.set w _).getD w' WPhase.doneNone = _ ∨
          (s.phases.set w _).getD w' WPhase.doneNone = _
        rw [getD_set_ne _ _ _ _ _ (Ne.symm hne), hPh,
            getD_replicate _ _ _ _ hw']
        exact Or.inl rfl
    · have hph : s.phases.getD w WPhase.doneNone = WPhase.doneNone := by
        rw [hPh]
        exact getD_oob _ _ _ (by rw [List.length_replicate]; omega)
      have hstep : wstep rid now s w = s := by
        unfold wstep
        rw [hph]
      rw [hstep]
      exact ⟨hlen, Or.inl ⟨hE, hL, hPh⟩⟩
  · -- one worker holds the row lock
    obtain ⟨w0, hw0, hE, hL, hPh0, hOth⟩ := hB
    by_cases hw : w < n
    · by_cases hww0 : w = w0
      · subst hww0
        have hstep : wstep rid now s w =
            { s with
              entries := s.entries.map (fun e =>
                if e.url_canonical = (f.getD j default).url_canonical then
                  claimUpdate rid now e else e),
              locks := s.locks.set j false,
              phases := s.phases.set w
                (WPhase.doneSome (f.getD j default).url_canonical) } := by
          unfold wstep
          rw [hPh0]
        rw [hstep]
        refine ⟨by rw [List.length_set]; exact hlen,
          Or.inr (Or.inr ⟨w, hw, ?_, ?_, ?_, ?_⟩)⟩
        · show s.entries.map _ = _
          rw [hE]
          exact map_claim_eq_set rid now f j hnd hjlen
        · show s.locks.set j false = _
          rw [hL, List.set_set, set_replicate_self]
        · show (s.phases.set w _).getD w WPhase.doneNone = _
          rw [getD_set_self _ _ _ _ (by rw [hlen]; exact hw)]
        · intro w' hw' hne
          show (s.phases.set w _).getD w' WPhase.doneNone = _ ∨
            (s.phases.set w _).getD w' WPhase.doneNone = _
          rw [getD_set_ne _ _ _ _ _ (Ne.symm hne)]
          exact hOth w' hw' hne
      · rcases hOth w hw hww0 with hidle | hdn
        · have hsel : pickMinBy
              (fun i => (s.entries.getD i default).updated_at)
              (freeQueuedIdxs s.entries s.locks) = none := by
            rw [hE, hL, freeQueued_locked_j hq]
            rfl
          have hstep : wstep rid now s w =
              { s with phases := s.phases.set w WPhase.doneNone } := by
            unfold wstep
            rw [hidle, hsel]
          rw [hstep]
          refine ⟨by rw [List.length_set]; exact hlen,
            Or.inr (Or.inl ⟨w0, hw0, hE, hL, ?_, ?_⟩)⟩
          · show (s.phases.set w _).getD w0 WPhase.doneNone = _
            rw [getD_set_ne _ _ _ _ _ hww0]
            exact hPh0
          · intro w' hw' hne
            by_cases hww' : w' = w
            · subst hww'
              show (s.phases.set w' _).getD w' WPhase.doneNone = _ ∨
                (s.phases.set w' _).getD w' WPhase.doneNone = _
              rw [getD_set_self _ _ _ _ (by rw [hlen]; exact hw)]
              exact Or.inr rfl
            · show (s.phases.set w _).getD w' WPhase.doneNone = _ ∨
                (s.phases.set w _).getD w' WPhase.doneNone = _
              rw [getD_set_ne _ _ _ _ _ (fun hc => hww' hc.symm)]
              exact hOth w' hw' hne
        · have hstep : wstep rid now s w = s := by
            unfold wstep
            rw [hdn]
          rw [hstep]
          exact ⟨hlen, Or.inr (Or.inl ⟨w0, hw0, hE, hL, hPh0, hOth⟩)⟩
    · have hph : s.phases.getD w WPhase.doneNone = WPhase.doneNone :=
        getD_oob _ _ _ (by rw [hlen]; omega)
      have hstep : wstep rid now s w = s := by
        unfold wstep
        rw [hph]
      rw [hstep]
      exact ⟨hlen, Or.inr (Or.inl ⟨w0, hw0, hE, hL, hPh0, hOth⟩)⟩
  · -- the claim has been committed
    obtain ⟨w0, hw0, hE, hL, hPh0, hOth⟩ := hC
    by_cases hw : w < n
    · by_cases hww0 : w = w0
      · subst hww0
        have hstep : wstep rid now s w = s := by
          unfold wstep
          rw [hPh0]
        rw [hstep]
        exact ⟨hlen, Or.inr (Or.inr ⟨w, hw, hE, hL, hPh0, hOth⟩)⟩
      · rcases hOth w hw hww0 with hidle | hdn
        · have hsel : pickMinBy
              (fun i => (s.entries.getD i default).updated_at)
              (freeQueuedIdxs s.entries s.locks) = none := by
            rw [hE, hL]
            rw [show List.replicate f.length false =
              List.replicate (f.set j
                (claimUpdate rid now (f.getD j default))).length false from
              by rw [List.length_set]]
            rw [show freeQueuedIdxs
                (f.set j (claimUpdate rid now (f.getD j default)))
                (List.replicate (f.set j
                  (claimUpdate rid now (f.getD j default))).length false) =
              freeQueuedIdxs
                (f.set j (claimUpdate rid now (f.getD j default)))
                (List.replicate f.length false) from by
              rw [List.length_set]]
            rw [freeQueued_after_claim rid now hq]
            rfl
          have hstep : wstep rid now s w =
              { s with phases := s.phases.set w WPhase.doneNone } := by
            unfold wstep
            rw [hidle, hsel]
          rw [hstep]
          refine ⟨by rw [List.length_set]; exact hlen,
            Or.inr (Or.inr ⟨w0, hw0, hE, hL, ?_, ?_⟩)⟩
          · show (s.phases.set w _).getD w0 WPhase.doneNone = _
            rw [getD_set_ne _ _ _ _ _ hww0]
            exact hPh0
          · intro w' hw' hne
            by_cases hww' : w' = w
            · subst hww'
              show (s.phases.set w' _).getD w' WPhase.doneNone = _ ∨
                (s.phases.set w' _).getD w' WPhase.doneNone = _
              rw [getD_set_self _ _ _ _ (by rw [hlen]; exact hw)]
              exact Or.inr rfl
            · show (s.phases.set w _).getD w' WPhase.doneNone = _ ∨
                (s.phases.set w _).getD w' WPhase.doneNone = _
              rw [getD_set_ne _ _ _ _ _ (fun hc => hww' hc.symm)]
              exact hOth w' hw' hne
        · have hstep : wstep rid now s w = s := by
            unfold wstep
            rw [hdn]
          rw [hstep]
          exact ⟨hlen, Or.inr (Or.inr ⟨w0, hw0, hE, hL, hPh0, hOth⟩)⟩
    · have hph : s.phases.getD w WPhase.doneNone = WPhase.doneNone :=
        getD_oob _ _ _ (by rw [hlen]; omega)
      have hstep : wstep rid now s w = s := by
        unfold wstep
        rw [hph]
      rw [hstep]
      exact ⟨hlen, Or.inr (Or.inr ⟨w0, hw0, hE, hL, hPh0, hOth⟩)⟩

theorem claim_inv_run {f : List FrontierEntry} {j n : Nat} {rid : String}
    {now : Nat} (hq : queuedIdxs f = [j])
    (hnd : (f.map (fun e => e.url_canonical)).Nodup) :
    ∀ (ws : List Nat) (s : ClaimState), ClaimInv f j n rid now s →
      ClaimInv f j n rid now (runSched rid now s ws) := by
  intro ws
  induction ws with
  | nil => intro s h; exact h
  | cons w ws ih =>
      intro s h
      exact ih (wstep rid now s w) (claim_inv_step hq hnd s w h)

theorem claim_inv_claimants {f : List FrontierEntry} {j n : Nat}
    {rid : String} {now : Nat} {s : ClaimState}
    (h : ClaimInv f j n rid now s) (w1 w2 : Nat) (hne : w1 ≠ w2) :
    ¬(isClaimant (s.phases.getD w1 WPhase.doneNone) = true ∧
      isClaimant (s.phases.getD w2 WPhase.doneNone) = true) := by
  obtain ⟨hlen, hA | hB | hC⟩ := h
  · rintro ⟨h1, _⟩
    obtain ⟨_, _, hPh⟩ := hA
    rw [hPh] at h1
    by_cases hw : w1 < n
    · rw [getD_replicate _ _ _ _ hw] at h1
      simp [isClaimant] at h1
    · rw [getD_oob _ _ _ (by rw [List.length_replicate]; omega)] at h1
      simp [isClaimant] at h1
  · obtain ⟨w0, hw0, _, _, _, hOth⟩ := hB
    rintro ⟨h1, h2⟩
    have key : ∀ w, isClaimant (s.phases.getD w WPhase.doneNone) = true →
        w = w0 := by
      intro w hcl
      by_cases hw : w < n
      · by_cases hww0 : w = w0
        · exact hww0
        · rcases hOth w hw hww0 with hph | hph <;>
            (rw [hph] at hcl; simp [isClaimant] at hcl)
      · rw [getD_oob _ _ _ (by rw [hlen]; omega)] at hcl
        simp [isClaimant] at hcl
    exact hne ((key w1 h1).trans (key w2 h2).symm)
  · obtain ⟨w0, hw0, _, _, _, hOth⟩ := hC
    rintro ⟨h1, h2⟩
    have key : ∀ w, isClaimant (s.phases.getD w WPhase.doneNone) = true →
        w = w0 := by
      intro w hcl
      by_cases hw : w < n
      · by_cases hww0 : w = w0
        · exact hww0
        · rcases hOth w hw hww0 with hph | hph <;>
            (rw [hph] at hcl; simp [isClaimant] at hcl)
      · rw [getD_oob _ _ _ (by rw [hlen]; omega)] at hcl
        simp [isClaimant] at hcl
    exact hne ((key w1 h1).trans (key w2 h2).symm)

/-- C2: with exactly one queued row (index `j`) in a duplicate-free
frontier and `n > 0` workers running `claim_next_frontier_url` concurrently
under any interleaving that lets every worker finish: exactly one worker
returns the queued row's URL and every other worker returns `None`; the row
ends `processing` with its attempt counter incremented by one (and the
claiming run id recorded); and at no point of any prefix of the
interleaving do two workers simultaneously hold a claim (row lock or
returned URL) on the entry. -/
theorem claim_next_mutual_exclusion (f : List FrontierEntry) (j n : Nat)
    (rid : String) (now : Nat) (ws : List Nat)
    (hq : queuedIdxs f = [j])
    (hnd : (f.map (fun e => e.url_canonical)).Nodup)
    (hn : 0 < n)
    (hdone : ∀ w, w < n →
      isDoneW ((runSched rid now (initClaimState f n) ws).phases.getD w
        WPhase.doneNone) = true) :
    (∃ w0, w0 < n ∧
      (runSched rid now (initClaimState f n) ws).phases.getD w0
          WPhase.doneNone =
        WPhase.doneSome (f.getD j default).url_canonical ∧
      (∀ w, w < n → w ≠ w0 →
        (runSched rid now (initClaimState f n) ws).phases.getD w
          WPhase.doneNone = WPhase.doneNone) ∧
      (∀ w, (runSched rid now (initClaimState f n) ws).phases.getD w
          WPhase.doneNone =
          WPhase.doneSome (f.getD j default).url_canonical → w = w0)) ∧
    (runSched rid now (initClaimState f n) ws).entries =
      f.set j (claimUpdate rid now (f.getD j default)) ∧
    (∀ p, p <+: ws → ∀ w1 w2, w1 ≠ w2 →
      ¬(isClaimant ((runSched rid now (initClaimState f n) p).phases.getD
          w1 WPhase.doneNone) = true ∧
        isClaimant ((runSched rid now (initClaimState f n) p).phases.getD
          w2 WPhase.doneNone) = true)) := by
  have hinv := claim_inv_run hq hnd ws (initClaimState f n)
    (claim_inv_init f j n rid now)
  obtain ⟨hlen, hA | hB | hC⟩ := hinv
  · obtain ⟨_, _, hPh⟩ := hA
    have := hdone 0 hn
    rw [hPh, getD_replicate _ _ _ _ hn] at this
    simp [isDoneW] at this
  · obtain ⟨w0, hw0, _, _, hPh0, _⟩ := hB
    have := hdone w0 hw0
    rw [hPh0] at this
    simp [isDoneW] at this
  · obtain ⟨w0, hw0, hE, _, hPh0, hOth⟩ := hC
    refine ⟨⟨w0, hw0, hPh0, ?_, ?_⟩, hE, ?_⟩
    · intro w hw hne
      rcases hOth w hw hne with hph | hph
      · have := hdone w hw
        rw [hph] at this
        simp [isDoneW] at this
      · exact hph
    · intro w hws
      by_contra hne
      by_cases hw : w < n
      · rcases hOth w hw hne with hph | hph <;>
          (rw [hph] at hws; exact absurd hws (by simp))
      · rw [getD_oob _ _ _ (by rw [hlen]; omega)] at hws
        exact absurd hws (by simp)
    · intro p _ w1 w2 hne
      exact claim_inv_claimants
        (claim_inv_run hq hnd p (initClaimState f n)
          (claim_inv_init f j n rid now)) w1 w2 hne

/-- Witness for C2: two workers, one queued row, the interleaving where the
second worker's select lands between the first worker's select and its
commit. -/
theorem claim_next_mutual_exclusion_witness :
    (queuedIdxs c2Frontier = [0] ∧
     (c2Frontier.map (fun e => e.url_canonical)).Nodup ∧ 0 < 2 ∧
     (∀ w, w < 2 → isDoneW ((runSched "r1" 9 (initClaimState c2Frontier 2)
        [0, 1, 0, 1]).phases.getD w WPhase.doneNone) = true)) ∧
    ((∃ w0, w0 < 2 ∧
      (runSched "r1" 9 (initClaimState c2Frontier 2)
          [0, 1, 0, 1]).phases.getD w0 WPhase.doneNone =
        WPhase.doneSome (c2Frontier.getD 0 default).url_canonical ∧
      (∀ w, w < 2 → w ≠ w0 →
        (runSched "r1" 9 (initClaimState c2Frontier 2)
          [0, 1, 0, 1]).phases.getD w WPhase.doneNone =
          WPhase.doneNone) ∧
      (∀ w, (runSched "r1" 9 (initClaimState c2Frontier 2)
          [0, 1, 0, 1]).phases.getD w WPhase.doneNone =
          WPhase.doneSome (c2Frontier.getD 0 default).url_canonical →
          w = w0)) ∧
    (runSched "r1" 9 (initClaimState c2Frontier 2) [0, 1, 0, 1]).entries =
      c2Frontier.set 0 (claimUpdate "r1" 9 (c2Frontier.getD 0 default)) ∧
    (∀ p, p <+: [0, 1, 0, 1] → ∀ w1 w2, w1 ≠ w2 →
      ¬(isClaimant ((runSched "r1" 9 (initClaimState c2Frontier 2)
          p).phases.getD w1 WPhase.doneNone) = true ∧
        isClaimant ((runSched "r1" 9 (initClaimState c2Frontier 2)
          p).phases.getD w2 WPhase.doneNone) = true))) :=
  ⟨⟨by decide, by decide, by decide, by decide⟩,
   claim_next_mutual_exclusion c2Frontier 0 2 "r1" 9 [0, 1, 0, 1]
     (by decide) (by decide) (by decide) (by decide)⟩

end Ingest
